import Mathlib

/-!
Shallow embedding of the comfy-table layout engine: the line splitter
(src/utils/formatting/content_split.rs), the span tracker
(src/utils/spanning.rs), the content formatter
(src/utils/formatting/content_format.rs), the border renderer
(src/utils/formatting/borders.rs), the constraint resolver and the
disabled width arrangement (src/utils/arrangement/), and the cell
content model (src/cell.rs).  All definitions are translated from the
source with the ansi/tty/custom_styling cargo features disabled.
Machine integers (u16/usize) are modelled as Nat; Rust saturating_sub is
Nat subtraction; plain Rust subtraction is used only where the operands
are proven not to underflow and is likewise modelled as Nat subtraction
(noted at each spot).
-/

namespace ComfyTable

/-- Text is modelled as a list of characters.  The Unicode display width
of a single character (the unicode-width crate, c.width().unwrap_or(1)
in content_split.rs) is treated as an oracle: every definition is
parameterized by a character width function cw. -/
abbrev Str := List Char

/-- Models measure_text_width (content_split.rs lines 7-14, non-ansi
path): the display width of a string is the sum of the widths of its
characters. -/
def measure_text_width (cw : Char → Nat) (s : Str) : Nat := (s.map cw).sum

/-- Models Rust str::split with a one-character separator, as used by
split_line (content_split.rs line 66) and by Cell::new_owned (cell.rs
line 39): the result always has at least one (possibly empty) piece. -/
def rustSplit (delim : Char) : Str → List Str
  | [] => [[]]
  | c :: rest =>
    let r := rustSplit delim rest
    if c = delim then [] :: r
    else
      match r with
      | [] => [[c]]
      | h :: t => (c :: h) :: t

/-- Models joining a list of strings with a one-character separator, as
used by Cell::content (cell.rs line 62). -/
def joinWith (delim : Char) : List Str → Str
  | [] => []
  | [l] => l
  | l :: l2 :: rest => l ++ delim :: joinWith delim (l2 :: rest)

/-- Models CellAlignment (style/cell.rs). -/
inductive CellAlignment
  | Left
  | Right
  | Center
deriving DecidableEq, Repr

/-- Models Cell (cell.rs): the tty-feature styling fields (fg, bg,
attributes) are omitted since the features are off. -/
structure Cell where
  content : List Str
  delimiter : Option Char := none
  alignment : Option CellAlignment := none
  colspan : Option Nat := none
  rowspan : Option Nat := none
deriving DecidableEq, Repr

/-- Models Cell::new_owned (cell.rs lines 37-58) with the custom_styling
feature off: the given content is split on newline characters. -/
def Cell.new_owned (s : Str) : Cell :=
  { content := rustSplit '\n' s }

/-- Models Cell::content (cell.rs lines 60-63): the stored lines joined
back with newlines. -/
def Cell.contentJoined (c : Cell) : Str := joinWith '\n' c.content

/-- Models Cell::colspan (cell.rs line 249): defaults to 1. -/
def Cell.colspanVal (c : Cell) : Nat := c.colspan.getD 1

/-- Models Cell::rowspan (cell.rs line 266): defaults to 1. -/
def Cell.rowspanVal (c : Cell) : Nat := c.rowspan.getD 1

/-- Models MIN_FREE_CHARS (content_split.rs line 192). -/
def MIN_FREE_CHARS : Nat := 2

/-- Models the loop of split_long_word (content_split.rs lines 215-244,
non-ansi path) with the running width accumulator made explicit. -/
def splitLongWordGo (cw : Char → Nat) (allowed : Nat) : Nat → Str → Str × Str
  | _, [] => ([], [])
  | currentWidth, c :: rest =>
    if currentWidth + cw c > allowed then ([], c :: rest)
    else
      let p := splitLongWordGo cw allowed (currentWidth + cw c) rest
      (c :: p.1, p.2)

/-- Models split_long_word (content_split.rs lines 215-244, non-ansi
path). -/
def split_long_word (cw : Char → Nat) (allowed : Nat) (word : Str) : Str × Str :=
  splitLongWordGo cw allowed 0 word

/-- Models check_if_full (content_split.rs lines 197-205); the result is
the updated list of finished lines together with the new current line. -/
def check_if_full (cw : Char → Nat) (contentWidth : Nat) (lines : List Str)
    (currentLine : Str) : List Str × Str :=
  if measure_text_width cw currentLine > contentWidth - MIN_FREE_CHARS then
    (lines ++ [currentLine], [])
  else (lines, currentLine)

/-- Models one iteration of the while-let loop of split_line
(content_split.rs lines 78-178, non-ansi path), popping next from the
element stack; the result is the new element stack, the new current
line and the updated finished lines.  The plain Rust subtraction
content_width - current_length (line 90) cannot underflow because
check_if_full keeps the current line at most content_width wide, so Nat
subtraction agrees with it.  The chars.next().unwrap() at line 158 is
only reached with a nonempty remainder; the impossible empty case keeps
the pair unchanged. -/
def splitLineStep (cw : Char → Nat) (contentWidth : Nat) (delim : Char)
    (next : Str) (elements : List Str) (currentLine : Str) (lines : List Str) :
    List Str × Str × List Str :=
  let currentLength := measure_text_width cw currentLine
  let nextLength := measure_text_width cw next
  let addedLength := nextLength + currentLength + (if currentLine.isEmpty then 0 else 1)
  let remainingWidth :=
    if currentLine.isEmpty then contentWidth - currentLength
    else (contentWidth - currentLength) - 1
  if addedLength ≤ contentWidth then
    let current1 := (if currentLine.isEmpty then currentLine else currentLine ++ [delim]) ++ next
    let p := check_if_full cw contentWidth lines current1
    (elements, p.2, p.1)
  else if ¬ currentLine.isEmpty ∧ remainingWidth ≤ MIN_FREE_CHARS then
    (next :: elements, [], lines ++ [currentLine])
  else if contentWidth < nextLength then
    let newLine := currentLine.isEmpty
    let current1 := if newLine then currentLine else currentLine ++ [delim]
    let p := split_long_word cw remainingWidth next
    let q :=
      if newLine ∧ p.1.isEmpty then
        match p.2 with
        | c :: r => ([c], r)
        | [] => (p.1, p.2)
      else p
    (q.2 :: elements, [], lines ++ [current1 ++ q.1])
  else
    let p := check_if_full cw contentWidth (lines ++ [currentLine]) next
    (elements, p.2, p.1)

/-- Models the while-let loop of split_line (content_split.rs lines
78-178) together with the final push of lines 180-182, with explicit
fuel; sufficient fuel is computed by loopFuel below and is proven to
never run out. -/
def splitLineLoop (cw : Char → Nat) (contentWidth : Nat) (delim : Char) :
    Nat → List Str → Str → List Str → Option (List Str)
  | 0, _, _, _ => none
  | _ + 1, [], currentLine, lines =>
    some (if currentLine.isEmpty then lines else lines ++ [currentLine])
  | fuel + 1, next :: elements, currentLine, lines =>
    let s := splitLineStep cw contentWidth delim next elements currentLine lines
    splitLineLoop cw contentWidth delim fuel s.1 s.2.1 s.2.2

/-- Total number of characters in the pending elements. -/
def charsTotal (els : List Str) : Nat := (els.map List.length).sum

/-- Fuel bound for splitLineLoop: a strictly decreasing measure of the
loop state (pending characters, pending element count, whether the
current line is nonempty). -/
def loopFuel (els : List Str) (currentLine : Str) : Nat :=
  3 * charsTotal els + 2 * els.length + (if currentLine.isEmpty then 0 else 1) + 1

/-- Models split_line (content_split.rs lines 58-185, non-ansi path),
reduced to the content width of the ColumnDisplayInfo argument. -/
def splitLineCore (cw : Char → Nat) (contentWidth : Nat) (delim : Char) (line : Str) :
    List Str :=
  let elements := rustSplit delim line
  (splitLineLoop cw contentWidth delim (loopFuel elements []) elements [] []).getD []

/-- Models RowSpanInfo (spanning.rs lines 4-14). -/
structure RowSpanInfo where
  start_row : Nat
  remaining_rows : Nat
  colspan : Nat
  formatted_content : Option (List Str)
deriving DecidableEq, Repr

/-- Models SpanTracker (spanning.rs lines 17-21).  The Rust HashMap keyed
by (start_row, start_col) is modelled as an association list; the list
order stands for the (unspecified) hash map iteration order. -/
abbrev SpanTracker := List ((Nat × Nat) × RowSpanInfo)

/-- The membership test used by every SpanTracker query: the entry
started strictly before the queried row and its column range
[start_col, start_col + colspan) covers the queried column. -/
def spanCovers (row col : Nat) (e : (Nat × Nat) × RowSpanInfo) : Prop :=
  e.1.1 < row ∧ e.1.2 ≤ col ∧ col < e.1.2 + e.2.colspan

instance (row col : Nat) (e : (Nat × Nat) × RowSpanInfo) : Decidable (spanCovers row col e) := by
  unfold spanCovers
  infer_instance

/-- Models SpanTracker::is_occupied (spanning.rs lines 35-45): the first
entry (in iteration order) covering the position yields its
(remaining_rows, colspan). -/
def is_occupied (t : SpanTracker) (row col : Nat) : Option (Nat × Nat) :=
  (t.find? (fun e => decide (spanCovers row col e))).map
    (fun e => (e.2.remaining_rows, e.2.colspan))

/-- Key insert of the Rust HashMap (spanning.rs line 60): replaces the
entry with the same key, otherwise appends. -/
def trackerInsert : SpanTracker → (Nat × Nat) → RowSpanInfo → SpanTracker
  | [], k, v => [(k, v)]
  | e :: rest, k, v =>
    if e.1 = k then (k, v) :: rest
    else e :: trackerInsert rest k v

/-- Models SpanTracker::register_rowspan (spanning.rs lines 51-70). -/
def register_rowspan (t : SpanTracker) (row_index col_index rowspan colspan : Nat)
    (formatted_content : Option (List Str)) : SpanTracker :=
  if rowspan > 1 then
    trackerInsert t (row_index, col_index)
      { start_row := row_index, remaining_rows := rowspan - 1, colspan := colspan,
        formatted_content := formatted_content }
  else t

/-- Models SpanTracker::get_rowspan_content (spanning.rs lines 75-89). -/
def get_rowspan_content (t : SpanTracker) (row col : Nat) : Option (List Str) :=
  (t.find? (fun e => decide (spanCovers row col e))).bind (fun e => e.2.formatted_content)

/-- Models SpanTracker::advance_row (spanning.rs lines 97-109): the code
first retains the entries whose remaining_rows is positive and only then
decrements the entries that started before the given row. -/
def advance_row (t : SpanTracker) (current_row : Nat) : SpanTracker :=
  (t.filter (fun e => decide (0 < e.2.remaining_rows))).map
    (fun e =>
      if e.2.start_row < current_row ∧ 0 < e.2.remaining_rows then
        (e.1, { e.2 with remaining_rows := e.2.remaining_rows - 1 })
      else e)

/-- Models SpanTracker::is_col_occupied_by_rowspan (spanning.rs lines
112-114). -/
def is_col_occupied_by_rowspan (t : SpanTracker) (row col : Nat) : Bool :=
  (is_occupied t row col).isSome

/-- Models SpanTracker::get_rowspan_start (spanning.rs lines 120-134). -/
def get_rowspan_start (t : SpanTracker) (row col : Nat) : Option (Nat × Nat × Nat) :=
  (t.find? (fun e => decide (spanCovers row col e))).map
    (fun e => (e.1.1, e.1.2, e.2.colspan))

/-- The membership test of get_rowspan_start_at_row: the entry started at
or before the queried row, is still active, and covers the column. -/
def spanCoversAtRow (row col : Nat) (e : (Nat × Nat) × RowSpanInfo) : Prop :=
  e.1.1 ≤ row ∧ 0 < e.2.remaining_rows ∧ e.1.2 ≤ col ∧ col < e.1.2 + e.2.colspan

instance (row col : Nat) (e : (Nat × Nat) × RowSpanInfo) :
    Decidable (spanCoversAtRow row col e) := by
  unfold spanCoversAtRow
  infer_instance

/-- Models SpanTracker::get_rowspan_start_at_row (spanning.rs lines
141-156). -/
def get_rowspan_start_at_row (t : SpanTracker) (row col : Nat) : Option (Nat × Nat × Nat) :=
  (t.find? (fun e => decide (spanCoversAtRow row col e))).map
    (fun e => (e.1.1, e.1.2, e.2.colspan))

/-- Models TableComponent (style/table.rs lines 41-61). -/
inductive TableComponent
  | LeftBorder
  | RightBorder
  | TopBorder
  | BottomBorder
  | LeftHeaderIntersection
  | HeaderLines
  | MiddleHeaderIntersections
  | RightHeaderIntersection
  | VerticalLines
  | HorizontalLines
  | MiddleIntersections
  | LeftBorderIntersections
  | RightBorderIntersections
  | TopBorderIntersections
  | BottomBorderIntersections
  | TopLeftCorner
  | TopRightCorner
  | BottomLeftCorner
  | BottomRightCorner
deriving DecidableEq, Repr

/-- Models ContentArrangement (style/table.rs line 3 and
arrangement/mod.rs line 40).  DynamicFullWidth is only declared in a
newer revision of style/table.rs than the one under src/ (where it
appears commented out as Full) but is matched on by arrangement/mod.rs;
it is included as that caller requires. -/
inductive ContentArrangement
  | Disabled
  | Dynamic
  | DynamicFullWidth
deriving DecidableEq, Repr

/-- Models ColumnConstraint as used by arrangement/constraints.rs,
arrangement/disabled.rs and arrangement/dynamic.rs: the variants
ContentWidth, Width, MinWidth, Percentage, MinPercentage, MaxWidth,
MaxPercentage and Hidden (u16 payloads as Nat). -/
inductive ColumnConstraint
  | ContentWidth
  | Width (w : Nat)
  | MinWidth (w : Nat)
  | Percentage (p : Nat)
  | MinPercentage (p : Nat)
  | MaxWidth (w : Nat)
  | MaxPercentage (p : Nat)
  | Hidden
deriving DecidableEq, Repr

/-- Models Column (column.rs).  The delimiter field exists in the
revision of Column used by the formatting code (ColumnDisplayInfo copies
it); per spec section 3 a column carries an optional delimiter. -/
structure Column where
  index : Nat
  padding : Nat × Nat
  delimiter : Option Char := none
  cell_alignment : Option CellAlignment := none
  max_content_width : Nat := 0
  constraint : Option ColumnConstraint := none
deriving DecidableEq, Repr

/-- Models Row (row.rs) as consumed by content_format.rs; max_height is
the line-count cutoff of spec section 3 (Row::max_height setter shown in
table.rs line 546). -/
structure Row where
  cells : List Cell
  max_height : Option Nat := none
deriving DecidableEq, Repr

/-- Models Table (table.rs) restricted to the fields the layout engine
reads; the style HashMap is a function to an optional character, the
tty-related fields are omitted (features off, so get_table_width is the
table_width field, table.rs line 161).  truncation_indicator is the
truncation indicator of spec section 4.5 consumed by content_format.rs
line 194 (its setter lives in a table.rs revision not under src/);
comfy-table defaults it to three dots.  smart_padding_width is the
configured smart padding minimum of spec section 4.7 (its accessor lives
in a table.rs revision not under src/); the smart_padding.rs commentary
illustrates the pass with the value 1. -/
structure Table where
  columns : List Column
  style : TableComponent → Option Char
  header : Option Row := none
  rows : List Row
  arrangement : ContentArrangement := ContentArrangement.Disabled
  delimiter : Option Char := none
  table_width : Option Nat := none
  truncation_indicator : Str := ['.', '.', '.']
  smart_padding_width : Nat := 1

/-- Models Table::style_or_default (table.rs lines 564-569): an unset
component renders as a single blank. -/
def style_or_default (t : Table) (component : TableComponent) : Str :=
  match t.style component with
  | none => [' ']
  | some c => [c]

/-- Models Table::style_exists (table.rs lines 571-573). -/
def style_exists (t : Table) (component : TableComponent) : Bool :=
  (t.style component).isSome

/-- Models should_draw_top_border (formatting/borders.rs lines 434-444). -/
def should_draw_top_border (t : Table) : Bool :=
  style_exists t .TopLeftCorner || style_exists t .TopBorder ||
  style_exists t .TopBorderIntersections || style_exists t .TopRightCorner

/-- Models should_draw_bottom_border (formatting/borders.rs lines 446-456). -/
def should_draw_bottom_border (t : Table) : Bool :=
  style_exists t .BottomLeftCorner || style_exists t .BottomBorder ||
  style_exists t .BottomBorderIntersections || style_exists t .BottomRightCorner

/-- Models should_draw_left_border (formatting/borders.rs lines 458-469). -/
def should_draw_left_border (t : Table) : Bool :=
  style_exists t .TopLeftCorner || style_exists t .LeftBorder ||
  style_exists t .LeftBorderIntersections || style_exists t .LeftHeaderIntersection ||
  style_exists t .BottomLeftCorner

/-- Models should_draw_right_border (formatting/borders.rs lines 471-482). -/
def should_draw_right_border (t : Table) : Bool :=
  style_exists t .TopRightCorner || style_exists t .RightBorder ||
  style_exists t .RightBorderIntersections || style_exists t .RightHeaderIntersection ||
  style_exists t .BottomRightCorner

/-- Models should_draw_horizontal_lines (formatting/borders.rs lines 484-494). -/
def should_draw_horizontal_lines (t : Table) : Bool :=
  style_exists t .LeftBorderIntersections || style_exists t .HorizontalLines ||
  style_exists t .MiddleIntersections || style_exists t .RightBorderIntersections

/-- Models should_draw_vertical_lines (formatting/borders.rs lines 496-507). -/
def should_draw_vertical_lines (t : Table) : Bool :=
  style_exists t .TopBorderIntersections || style_exists t .MiddleHeaderIntersections ||
  style_exists t .VerticalLines || style_exists t .MiddleIntersections ||
  style_exists t .BottomBorderIntersections

/-- Models should_draw_header (formatting/borders.rs lines 509-519). -/
def should_draw_header (t : Table) : Bool :=
  style_exists t .LeftHeaderIntersection || style_exists t .HeaderLines ||
  style_exists t .MiddleHeaderIntersections || style_exists t .RightHeaderIntersection

/-- Models ColumnDisplayInfo as consumed by formatting/content_format.rs
and formatting/borders.rs: padding, delimiter, resolved content_width,
cell_alignment and is_hidden (spec section 3). -/
structure ColumnDisplayInfo where
  padding : Nat × Nat
  delimiter : Option Char := none
  content_width : Nat
  cell_alignment : Option CellAlignment := none
  is_hidden : Bool := false
deriving DecidableEq, Repr

instance : Inhabited ColumnDisplayInfo :=
  ⟨{ padding := (0, 0), content_width := 0 }⟩

/-- Models ColumnDisplayInfo::width as used throughout the formatting
code: content width plus both paddings. -/
def ColumnDisplayInfo.width (i : ColumnDisplayInfo) : Nat :=
  i.content_width + i.padding.1 + i.padding.2

/-- Modelled from the spec: the ColumnDisplayInfo constructor taking a
column and a resolved content width is not under src/ (the
utils/mod.rs revision there has an older incompatible shape).  Per spec
section 3 the info copies the column padding, delimiter and alignment
and the resolved content width is never 0 (sections 3 and 4.1 clamp the
minimum content width to 1). -/
def ColumnDisplayInfo.new (col : Column) (width : Nat) : ColumnDisplayInfo :=
  { padding := col.padding, delimiter := col.delimiter,
    content_width := max width 1, cell_alignment := col.cell_alignment,
    is_hidden := false }

/-- Models absolute_width_with_padding (utils/arrangement.rs lines
21-29): target width minus the column paddings, clamped to at least 1. -/
def absolute_width_with_padding (col : Column) (width : Nat) : Nat :=
  if width ≤ col.padding.1 + col.padding.2 then 1
  else width - (col.padding.1 + col.padding.2)

/-- A column is hidden when its constraint is Hidden (Column::is_hidden
as used by utils/arrangement.rs line 33). -/
def Column.isHiddenCol (c : Column) : Bool :=
  c.constraint = some ColumnConstraint.Hidden

/-- Models count_visible_columns (utils/arrangement.rs lines 32-34). -/
def count_visible_columns (cols : List Column) : Nat :=
  (cols.filter (fun c => ¬ c.isHiddenCol)).length

/-- Models count_border_columns (utils/arrangement.rs lines 45-59). -/
def count_border_columns (t : Table) (visible_columns : Nat) : Nat :=
  (if should_draw_left_border t then 1 else 0) +
  (if should_draw_right_border t then 1 else 0) +
  (if should_draw_vertical_lines t then visible_columns - 1 else 0)

/-- The BTreeMap from column index to ColumnDisplayInfo
(arrangement/mod.rs line 12), modelled as an association list kept
sorted by key. -/
abbrev DisplayInfos := List (Nat × ColumnDisplayInfo)

/-- Sorted-insert for DisplayInfos, replacing an existing key. -/
def insertInfo : DisplayInfos → Nat → ColumnDisplayInfo → DisplayInfos
  | [], k, v => [(k, v)]
  | e :: rest, k, v =>
    if k < e.1 then (k, v) :: e :: rest
    else if k = e.1 then (k, v) :: rest
    else e :: insertInfo rest k v

/-- Models BTreeMap::contains_key. -/
def containsKey (infos : DisplayInfos) (k : Nat) : Bool :=
  infos.any (fun e => e.1 = k)

/-- Rust u16 saturation of (x).try_into().unwrap_or(u16::MAX)
(arrangement/constraints.rs lines 51-53). -/
def natToU16 (x : Nat) : Nat := min x 65535

/-- Models constraints::evaluate (arrangement/constraints.rs lines
16-89).  The column.get_max_width() call of line 37 resolves to the
accumulated max content width (spec section 4.1: a lower boundary is
fixed immediately iff max_content_width is at most the boundary). -/
def evaluate (t : Table) (column : Column) (infos : DisplayInfos)
    (table_width : Option Nat) (visible_columns : Nat) : DisplayInfos :=
  match column.constraint with
  | some ColumnConstraint.ContentWidth =>
    insertInfo infos column.index (ColumnDisplayInfo.new column column.max_content_width)
  | some (ColumnConstraint.Width w) =>
    insertInfo infos column.index
      (ColumnDisplayInfo.new column (absolute_width_with_padding column w))
  | some (ColumnConstraint.MinWidth min_width) =>
    if column.max_content_width ≤ min_width then
      insertInfo infos column.index
        (ColumnDisplayInfo.new column (absolute_width_with_padding column min_width))
    else infos
  | some (ColumnConstraint.Percentage percent) =>
    match table_width with
    | some table_width =>
      let width := table_width - count_border_columns t visible_columns
      let width := natToU16 (width * percent / 100)
      insertInfo infos column.index
        (ColumnDisplayInfo.new column (absolute_width_with_padding column width))
    | none => infos
  | some (ColumnConstraint.MinPercentage percent) =>
    match table_width with
    | some table_width =>
      let width := table_width - count_border_columns t visible_columns
      let width := natToU16 (width * percent / 100)
      let width := absolute_width_with_padding column width
      if column.max_content_width ≤ width then
        insertInfo infos column.index (ColumnDisplayInfo.new column width)
      else infos
    | none => infos
  | some ColumnConstraint.Hidden =>
    insertInfo infos column.index
      { ColumnDisplayInfo.new column column.max_content_width with is_hidden := true }
  | _ => infos

/-- Modelled from the spec: constraint::max as called by
arrangement/disabled.rs line 23 is not under src/.  Per spec sections
4.1 and 4.2 it resolves an upper-boundary constraint to its cap:
MaxWidth yields the fixed cap, MaxPercentage is converted against the
table width when it is known (mirroring get_max_constraint,
arrangement/constraints.rs lines 93-113) and is a no-op otherwise. -/
def constraintMax (t : Table) (constraint : Option ColumnConstraint)
    (visible_columns : Nat) : Option Nat :=
  match constraint with
  | some (ColumnConstraint.MaxWidth w) => some w
  | some (ColumnConstraint.MaxPercentage percent) =>
    match t.table_width with
    | some table_width =>
      let width := table_width - count_border_columns t visible_columns
      some (natToU16 (width * percent / 100))
    | none => none
  | _ => none

/-- One iteration of the disabled arrangement loop
(arrangement/disabled.rs lines 15-32). -/
def disabledArrangeStep (t : Table) (max_content_widths : List Nat)
    (visible_columns : Nat) (infos : DisplayInfos) (column : Column) : DisplayInfos :=
  if containsKey infos column.index then infos
  else
    let width := max_content_widths.getD column.index 0
    let width :=
      match constraintMax t column.constraint visible_columns with
      | some max_width =>
        if max_width < width then absolute_width_with_padding column max_width else width
      | none => width
    insertInfo infos column.index (ColumnDisplayInfo.new column width)

/-- Models disabled::arrange (arrangement/disabled.rs lines 9-33). -/
def disabledArrange (t : Table) (infos : DisplayInfos) (visible_columns : Nat)
    (max_content_widths : List Nat) : DisplayInfos :=
  t.columns.foldl (disabledArrangeStep t max_content_widths visible_columns) infos

/-- The initial constraint evaluation pass of arrange_content
(arrangement/mod.rs lines 21-25): evaluate each column carrying a
constraint, in column order. -/
def constraintPhase (t : Table) : DisplayInfos :=
  t.columns.foldl
    (fun infos col =>
      if col.constraint.isSome then
        evaluate t col infos t.table_width (count_visible_columns t.columns)
      else infos)
    []

/-- The width the disabled arrangement gives a still-unresolved column
(arrangement/disabled.rs lines 20-28): its max content width, reduced
when an upper cap is smaller. -/
def disabledWidth (t : Table) (col : Column) : Nat :=
  let width := (t.columns.map Column.max_content_width).getD col.index 0
  match constraintMax t col.constraint (count_visible_columns t.columns) with
  | some max_width =>
    if max_width < width then absolute_width_with_padding col max_width else width
  | none => width

/-- Models arrange_content (arrangement/mod.rs lines 16-46).  The
dynamic arrangement (arrangement/dynamic.rs) is irrelevant to every
claim settled here and is taken as a parameter; the max content width
vector handed to disabled::arrange is the per-column accumulated value
(Table::column_max_content_widths, table.rs lines 557-562). -/
def arrangeContent (dynArrange : Table → DisplayInfos → Nat → DisplayInfos)
    (t : Table) : List ColumnDisplayInfo :=
  let max_content_widths := t.columns.map Column.max_content_width
  let visible_columns := count_visible_columns t.columns
  let infos := constraintPhase t
  match t.table_width with
  | none => (disabledArrange t infos visible_columns max_content_widths).map Prod.snd
  | some table_width =>
    match t.arrangement with
    | ContentArrangement.Disabled =>
      (disabledArrange t infos visible_columns max_content_widths).map Prod.snd
    | _ => (dynArrange t infos table_width).map Prod.snd

/-- A run of blank characters, " ".repeat(n). -/
def spaces (n : Nat) : Str := List.replicate n ' '

/-- Models delimiter (content_format.rs lines 18-29): cell override, then
column override, then table override, then blank. -/
def delimiter (cell : Cell) (info : ColumnDisplayInfo) (t : Table) : Char :=
  match cell.delimiter with
  | some d => d
  | none =>
    match info.delimiter with
    | some d => d
    | none =>
      match t.delimiter with
      | some d => d
      | none => ' '

/-- Models split_line (content_split.rs line 58) at its source signature. -/
def split_line (cw : Char → Nat) (line : Str) (info : ColumnDisplayInfo)
    (delim : Char) : List Str :=
  splitLineCore cw info.content_width delim line

/-- Models pad_line (content_format.rs lines 515-523). -/
def pad_line (line : Str) (info : ColumnDisplayInfo) : Str :=
  spaces info.padding.1 ++ line ++ spaces info.padding.2

/-- Models align_line (content_format.rs lines 467-512) with the tty
styling disabled (so the table argument is unused and dropped).  The
Center halves are computed with f32 ceil/floor in the source; both are
exact on the integers occurring here, so Nat (remaining+1)/2 and
remaining/2 coincide with them. -/
def align_line (cw : Char → Nat) (info : ColumnDisplayInfo) (cell : Cell)
    (line : Str) : Str :=
  let remaining := info.content_width - measure_text_width cw line
  let alignment :=
    match cell.alignment with
    | some a => a
    | none =>
      match info.cell_alignment with
      | some a => a
      | none => CellAlignment.Left
  let aligned :=
    match alignment with
    | CellAlignment.Left => line ++ spaces remaining
    | CellAlignment.Right => spaces remaining ++ line
    | CellAlignment.Center =>
      spaces ((remaining + 1) / 2) ++ line ++ spaces (remaining / 2)
  pad_line aligned info

/-- Models the truncation scan of content_format.rs lines 223-267 over
the graphemes of the last kept line; graphemes are modelled as single
characters and the Rust byte index as the character index.  Returns the
cut position together with the full_string_fits flag. -/
def truncScan (cw : Char → Nat) (maxWidth : Nat) : Str → Nat → Nat → Nat × Bool
  | [], _, idx => (idx, false)
  | c :: rest, accWidth, idx =>
    if maxWidth < accWidth + cw c then (idx, false)
    else
      match rest with
      | [] => (idx, true)
      | _ :: _ => truncScan cw maxWidth rest (accWidth + cw c) (idx + 1)

/-- Models the last-line truncation of content_format.rs lines 193-281:
scan from the indicator width, cut where the line stops fitting and
append the truncation indicator. -/
def truncateLastLine (cw : Char → Nat) (t : Table) (maxWidth : Nat) (line : Str) : Str :=
  let indicator_width := measure_text_width cw t.truncation_indicator
  let p := truncScan cw maxWidth line indicator_width 0
  let line2 := if p.2 then line else line.take p.1
  line2 ++ t.truncation_indicator

/-- Models the max_height cap of content_format.rs lines 175-283: when
the wrapped cell has more lines than the cap, the surplus is dropped and
the last kept line is truncated.  With a cap of 0 the source would panic
on the lines-1 index; that unreachable case keeps the truncated list. -/
def applyMaxHeight (cw : Char → Nat) (t : Table) (combined_content_width : Nat)
    (row : Row) (cell_lines : List Str) : List Str :=
  match row.max_height with
  | none => cell_lines
  | some lines =>
    if lines < cell_lines.length then
      let kept := cell_lines.take lines
      match kept.get? (lines - 1) with
      | some last =>
        kept.set (lines - 1) (truncateLastLine cw t combined_content_width last)
      | none => kept
    else cell_lines

/-- Models the merged display info format_row synthesizes for a colspan
cell (content_format.rs lines 117-154): the visible spanned columns are
collected, the merged content width adds three characters per visible
internal boundary (the blanks-plus-separator that two separate cells
would have between them, line 134), the padding is the left padding of
the first and the right padding of the last visible spanned column, and
the alignment is the cell override or the first spanned column default.
None is returned when no spanned column is visible (the continue of
lines 124-127). -/
def mergedSpanInfo (infos : List ColumnDisplayInfo) (colIndex colspan : Nat)
    (align : Option CellAlignment) : Option ColumnDisplayInfo :=
  let spanned_infos := ((infos.drop colIndex).take colspan).filter (fun i => ¬ i.is_hidden)
  match spanned_infos with
  | [] => none
  | first :: _ =>
    let visible_colspan_count := spanned_infos.length
    let borders_between := (visible_colspan_count - 1) * 3
    some
      { padding := (first.padding.1, ((spanned_infos.getLast?).map (fun i => i.padding.2)).getD 0)
        delimiter := first.delimiter
        content_width :=
          (spanned_infos.map ColumnDisplayInfo.content_width).sum + borders_between
        cell_alignment := align <|> first.cell_alignment
        is_hidden := false }

/-- Models the occupied-position skip loop of format_row
(content_format.rs lines 101-107): blank markers are written and the
column index advances while the position is covered by a rowspan.  The
structural countdown argument starts at the remaining column count,
which the loop can never exceed (the guard requires the index to stay
below the column count and every iteration increments it), so the zero
case is unreachable. -/
def skipOccupiedColsGo (tracker : SpanTracker) (rowIndex numCols : Nat) :
    Nat → Nat → List (Option (List Str)) → Nat × List (Option (List Str))
  | 0, colIndex, temp => (colIndex, temp)
  | n + 1, colIndex, temp =>
    if colIndex < numCols ∧ is_col_occupied_by_rowspan tracker rowIndex colIndex then
      skipOccupiedColsGo tracker rowIndex numCols n (colIndex + 1)
        (temp.set colIndex (some [[]]))
    else (colIndex, temp)

def skipOccupiedCols (tracker : SpanTracker) (rowIndex numCols : Nat) (colIndex : Nat)
    (temp : List (Option (List Str))) : Nat × List (Option (List Str)) :=
  skipOccupiedColsGo tracker rowIndex numCols (numCols - colIndex) colIndex temp

/-- State threaded through the cell loop of format_row: the per-column
content slots, the colspan map, the current column index and the span
tracker. -/
abbrev RowState := List (Option (List Str)) × List (Option Nat) × Nat × SpanTracker

/-- Models one iteration of the cell loop of format_row
(content_format.rs lines 99-319).  The Rust break on a full row is
modelled by the early return, which every later cell also hits. -/
def processCell (cw : Char → Nat) (t : Table) (infos : List ColumnDisplayInfo)
    (rowIndex : Nat) (row : Row) (st : RowState) (cell : Cell) : RowState :=
  let temp0 := st.1
  let colspanMap := st.2.1
  let colIndex0 := st.2.2.1
  let tracker := st.2.2.2
  let p := skipOccupiedCols tracker rowIndex infos.length colIndex0 temp0
  let colIndex := p.1
  let temp := p.2
  if infos.length ≤ colIndex then (temp, colspanMap, colIndex, tracker)
  else
    let colspan := cell.colspanVal
    let rowspan := cell.rowspanVal
    match mergedSpanInfo infos colIndex colspan cell.alignment with
    | none => (temp, colspanMap, colIndex + colspan, tracker)
    | some spanned_info =>
      let combined_content_width := spanned_info.content_width
      let cell_delimiter := delimiter cell spanned_info t
      let cell_lines := cell.content.foldl
        (fun acc line =>
          if combined_content_width < measure_text_width cw line then
            acc ++ split_line cw line spanned_info cell_delimiter
          else acc ++ [line])
        []
      let cell_lines := applyMaxHeight cw t combined_content_width row cell_lines
      let aligned_cell_lines := cell_lines.map (align_line cw spanned_info cell)
      let temp2 := temp.set colIndex (some aligned_cell_lines)
      let colspanMap2 := (List.range colspan).foldl
        (fun m i =>
          if colIndex + i < m.length then
            m.set (colIndex + i) (some (if i = 0 then colspan else 0))
          else m)
        colspanMap
      let tracker2 :=
        if 1 < rowspan then
          register_rowspan tracker rowIndex colIndex rowspan colspan (some aligned_cell_lines)
        else tracker
      (temp2, colspanMap2, colIndex + colspan, tracker2)

/-- Models the fill loop of format_row (content_format.rs lines
322-329). -/
def fillRemaining (tracker : SpanTracker) (rowIndex : Nat) (infos : List ColumnDisplayInfo)
    (colIndex : Nat) (temp : List (Option (List Str))) : List (Option (List Str)) :=
  (List.range infos.length).foldl
    (fun temp i =>
      if i < colIndex then temp
      else
        match infos.get? i with
        | none => temp
        | some info =>
          if (temp.getD i none).isNone ∧ ¬ is_col_occupied_by_rowspan tracker rowIndex i then
            if info.is_hidden then temp
            else temp.set i (some [spaces info.width])
          else temp)
    temp

/-- Models the max-line computation of format_row (content_format.rs
lines 333-337). -/
def maxLinesOf (temp : List (Option (List Str))) : Nat :=
  ((temp.filterMap id).map List.length).foldl max 0

/-- Models the colspan skip loop of format_row (content_format.rs lines
436-447): advance through the logically spanned columns, pushing an
empty marker for each visible one, then step one further. -/
def skipColspanCols (infos : List ColumnDisplayInfo) : Nat → Nat → Nat × List Str
  | 0, currentCol => (currentCol + 1, [])
  | remaining + 1, currentCol =>
    if currentCol + 1 < infos.length then
      let part : List Str :=
        match infos.get? (currentCol + 1) with
        | some info => if info.is_hidden then [] else [[]]
        | none => []
      let p := skipColspanCols infos remaining (currentCol + 1)
      (p.1, part ++ p.2)
    else (currentCol + 1, [])

/-- Models the line-assembly loop of format_row (content_format.rs lines
346-454) with explicit fuel; infos.length + 1 fuel always suffices
because every branch advances the column index.  The Rust slice
display_infos[current_col..current_col+colspan] of line 422 (which
panics when the colspan overruns the table) is modelled by the
truncating drop/take. -/
def buildLineAux (tracker : SpanTracker) (infos : List ColumnDisplayInfo)
    (temp : List (Option (List Str))) (colspanMap : List (Option Nat))
    (rowIndex lineIndex : Nat) : Nat → Nat → List Str → Option (List Str)
  | 0, _, _ => none
  | fuel + 1, currentCol, acc =>
    match infos.get? currentCol with
    | none => some acc
    | some info =>
      if info.is_hidden then
        buildLineAux tracker infos temp colspanMap rowIndex lineIndex fuel (currentCol + 1) acc
      else
        match get_rowspan_start tracker rowIndex currentCol with
        | some (start_row, start_col, colspan) =>
          let spanned := ((infos.drop start_col).take colspan).filter (fun i => ¬ i.is_hidden)
          let width_sum := (spanned.map ColumnDisplayInfo.width).sum
          let blank := spaces (width_sum + (colspan - 1))
          let part :=
            if start_row = rowIndex then
              match get_rowspan_content tracker rowIndex start_col with
              | some cached =>
                match cached.get? lineIndex with
                | some content => content
                | none => blank
              | none => []
            else blank
          buildLineAux tracker infos temp colspanMap rowIndex lineIndex fuel
            (currentCol + colspan) (acc ++ [part])
        | none =>
          match temp.getD currentCol none with
          | some cell_lines =>
            let colspan := (colspanMap.getD currentCol none).getD 1
            if colspan = 1 then
              let part :=
                match cell_lines.get? lineIndex with
                | some content => content
                | none => spaces info.width
              buildLineAux tracker infos temp colspanMap rowIndex lineIndex fuel
                (currentCol + 1) (acc ++ [part])
            else
              let part :=
                match cell_lines.get? lineIndex with
                | some content => content
                | none =>
                  let visible :=
                    ((infos.drop currentCol).take colspan).filter (fun i => ¬ i.is_hidden)
                  spaces ((visible.map ColumnDisplayInfo.width).sum + (visible.length - 1))
              let p := skipColspanCols infos (colspan - 1) currentCol
              buildLineAux tracker infos temp colspanMap rowIndex lineIndex fuel
                p.1 (acc ++ [part] ++ p.2)
          | none =>
            buildLineAux tracker infos temp colspanMap rowIndex lineIndex fuel
              (currentCol + 1) (acc ++ [spaces info.width])

/-- One assembled output line of format_row (content_format.rs lines
342-457). -/
def buildLine (tracker : SpanTracker) (infos : List ColumnDisplayInfo)
    (temp : List (Option (List Str))) (colspanMap : List (Option Nat))
    (rowIndex lineIndex : Nat) : List Str :=
  (buildLineAux tracker infos temp colspanMap rowIndex lineIndex (infos.length + 1) 0 []).getD []

/-- Models format_row (content_format.rs lines 83-460), returning the
per-line column parts together with the updated span tracker. -/
def format_row (cw : Char → Nat) (t : Table) (row : Row) (infos : List ColumnDisplayInfo)
    (rowIndex : Nat) (tracker : SpanTracker) : List (List Str) × SpanTracker :=
  let init : RowState :=
    (List.replicate infos.length none, List.replicate infos.length none, 0, tracker)
  let st := row.cells.foldl (processCell cw t infos rowIndex row) init
  let temp1 := st.1
  let cmap := st.2.1
  let colIndex := st.2.2.1
  let tracker1 := st.2.2.2
  let temp2 := fillRemaining tracker1 rowIndex infos colIndex temp1
  let ml := maxLinesOf temp2
  ((List.range ml).map (fun li => buildLine tracker1 infos temp2 cmap rowIndex li), tracker1)

/-- Models format_content (content_format.rs lines 47-81): the header is
formatted at row index 0 and the tracker row-advanced once per row. -/
def format_content (cw : Char → Nat) (t : Table) (infos : List ColumnDisplayInfo) :
    List (List (List Str)) :=
  let start :=
    match t.header with
    | some header =>
      let p := format_row cw t header infos 0 []
      ([p.1], advance_row p.2 1)
    | none => ([], [])
  let offset := if t.header.isSome then 1 else 0
  (t.rows.foldl
    (fun (st : List (List (List Str)) × SpanTracker × Nat) row =>
      let actual := st.2.2 + offset
      let p := format_row cw t row infos actual st.2.1
      (st.1 ++ [p.1], advance_row p.2 (actual + 1), st.2.2 + 1))
    (start.1, start.2, 0)).1

/-- Models str::repeat on a style character string. -/
def repeatStr (s : Str) (n : Nat) : Str := (List.replicate n s).flatten

/-- Models draw_top_border (formatting/borders.rs lines 49-82). -/
def draw_top_border (t : Table) (infos : List ColumnDisplayInfo) : Str :=
  let top_border := style_or_default t .TopBorder
  let intersection := style_or_default t .TopBorderIntersections
  let core := (infos.foldl
    (fun (st : Str × Bool) info =>
      if info.is_hidden then st
      else ((st.1 ++ (if st.2 then [] else intersection)) ++ repeatStr top_border info.width,
        false))
    ([], true)).1
  (if should_draw_left_border t then style_or_default t .TopLeftCorner else []) ++ core ++
  (if should_draw_right_border t then style_or_default t .TopRightCorner else [])

/-- Models draw_bottom_border (formatting/borders.rs lines 395-432); the
last-row-line argument is unused there as well. -/
def draw_bottom_border (t : Table) (infos : List ColumnDisplayInfo)
    (_last_row_line : Option (List Str)) : Str :=
  let bottom_border := style_or_default t .BottomBorder
  let intersection := style_or_default t .BottomBorderIntersections
  let core := (infos.foldl
    (fun (st : Str × Bool) info =>
      if info.is_hidden then st
      else ((st.1 ++ (if st.2 then [] else intersection)) ++ repeatStr bottom_border info.width,
        false))
    ([], true)).1
  (if should_draw_left_border t then style_or_default t .BottomLeftCorner else []) ++ core ++
  (if should_draw_right_border t then style_or_default t .BottomRightCorner else [])

/-- Models the part loop of embed_line (formatting/borders.rs lines
212-227): a vertical separator is placed before the next part unless
that part is the empty colspan marker. -/
def embedLineGo (t : Table) (vertical right_border : Str) : List Str → Str
  | [] => []
  | [part] => part ++ (if should_draw_right_border t then right_border else [])
  | part :: next :: rest =>
    part ++
      (if next.isEmpty then []
       else if should_draw_vertical_lines t then vertical else []) ++
      embedLineGo t vertical right_border (next :: rest)

/-- Models embed_line (formatting/borders.rs lines 197-230); its row
index and span tracker arguments are unused in the source and dropped. -/
def embed_line (t : Table) (line_parts : List Str) : Str :=
  (if should_draw_left_border t then style_or_default t .LeftBorder else []) ++
  embedLineGo t (style_or_default t .VerticalLines) (style_or_default t .RightBorder) line_parts

/-- Models the width walk of draw_horizontal_lines (formatting/borders.rs
lines 332-345): sum the widths of the visible columns of a colspan
following the physical column order. -/
def colspanWidthWalkGo (infos : List ColumnDisplayInfo) (target : Nat) :
    Nat → Nat → Nat → Nat → Nat
  | 0, _, _, acc => acc
  | n + 1, tempCol, counted, acc =>
    if counted < target ∧ tempCol < infos.length then
      match infos.get? tempCol with
      | none => acc
      | some info =>
        let acc2 := if info.is_hidden then acc else acc + info.width
        let counted2 := if info.is_hidden then counted else counted + 1
        if counted2 < target then colspanWidthWalkGo infos target n (tempCol + 1) counted2 acc2
        else acc2
    else acc

def colspanWidthWalk (infos : List ColumnDisplayInfo) (target tempCol counted acc : Nat) :
    Nat :=
  colspanWidthWalkGo infos target (infos.length - tempCol) tempCol counted acc

/-- Models the column-advance walk of draw_horizontal_lines
(formatting/borders.rs lines 360-371). -/
def advanceColspanColsGo (infos : List ColumnDisplayInfo) (target : Nat) :
    Nat → Nat → Nat → Nat
  | 0, colIndex, _ => colIndex
  | n + 1, colIndex, advanced =>
    if advanced < target ∧ colIndex < infos.length then
      let adv2 := if (infos.getD colIndex default).is_hidden then advanced else advanced + 1
      if adv2 < target then advanceColspanColsGo infos target n (colIndex + 1) adv2
      else colIndex + 1
    else colIndex

def advanceColspanCols (infos : List ColumnDisplayInfo) (target colIndex advanced : Nat) :
    Nat :=
  advanceColspanColsGo infos target (infos.length - colIndex) colIndex advanced

/-- Models the column loop of draw_horizontal_lines (formatting/borders.rs
lines 269-385) with explicit fuel; infos.length + 1 fuel always suffices
because every branch advances the physical column index.  The Rust slice
display_info[start_col..col_index] of line 301 (which panics when a
rowspan colspan overruns the table) is modelled by the truncating
drop/take. -/
def dhlGo (tracker : SpanTracker) (infos : List ColumnDisplayInfo) (rowIndex : Nat)
    (row_line : List Str) (horizontal middle : Str) :
    Nat → Nat → Nat → Bool → Str → Option Str
  | 0, _, _, _, _ => none
  | fuel + 1, colIndex, visIdx, first, acc =>
    match infos.get? colIndex with
    | none => some acc
    | some info =>
      if info.is_hidden then
        dhlGo tracker infos rowIndex row_line horizontal middle fuel (colIndex + 1) visIdx
          first acc
      else
        match get_rowspan_start_at_row tracker rowIndex colIndex with
        | some (_start_row, start_col, colspan) =>
          let cols := (infos.drop start_col).take colspan
          let visibleCols := cols.filter (fun i => ¬ i.is_hidden)
          let w := (visibleCols.map ColumnDisplayInfo.width).sum + (visibleCols.length - 1)
          let newCol := start_col + colspan
          let skipped := (((infos.drop start_col).take (newCol - start_col)).filter
            (fun i => ¬ i.is_hidden)).length
          dhlGo tracker infos rowIndex row_line horizontal middle fuel newCol
            (visIdx + skipped) false (acc ++ spaces w)
        | none =>
          match row_line.get? visIdx with
          | some part =>
            if part.isEmpty then
              dhlGo tracker infos rowIndex row_line horizontal middle fuel (colIndex + 1)
                (visIdx + 1) first (acc ++ repeatStr horizontal info.width)
            else
              let cnt := 1 + ((row_line.drop (visIdx + 1)).takeWhile List.isEmpty).length
              let w := colspanWidthWalk infos cnt colIndex 0 0 + (cnt - 1)
              let acc2 := (if first then acc else acc ++ middle) ++ repeatStr horizontal w
              let newCol := advanceColspanCols infos cnt colIndex 0
              dhlGo tracker infos rowIndex row_line horizontal middle fuel newCol
                (visIdx + cnt) false acc2
          | none =>
            dhlGo tracker infos rowIndex row_line horizontal middle fuel (colIndex + 1)
              (visIdx + 1) false
              ((if first then acc else acc ++ middle) ++ repeatStr horizontal info.width)

/-- Models draw_horizontal_lines (formatting/borders.rs lines 235-393). -/
def draw_horizontal_lines (t : Table) (infos : List ColumnDisplayInfo) (header : Bool)
    (rowIndex : Nat) (tracker : SpanTracker) (row_line : List Str) : Str :=
  let left_intersection :=
    if header then style_or_default t .LeftHeaderIntersection
    else style_or_default t .LeftBorderIntersections
  let horizontal :=
    if header then style_or_default t .HeaderLines
    else style_or_default t .HorizontalLines
  let middle :=
    if header then style_or_default t .MiddleHeaderIntersections
    else style_or_default t .MiddleIntersections
  let right_intersection :=
    if header then style_or_default t .RightHeaderIntersection
    else style_or_default t .RightBorderIntersections
  let core := (dhlGo tracker infos rowIndex row_line horizontal middle
    (infos.length + 1) 0 0 true []).getD []
  (if should_draw_left_border t then left_intersection else []) ++ core ++
  (if should_draw_right_border t then right_intersection else [])

/-- Models the header rowspan registration of draw_rows
(formatting/borders.rs lines 126-140). -/
def registerHeaderSpans (t : Table) (tracker : SpanTracker) : SpanTracker :=
  match t.header with
  | some header =>
    (header.cells.foldl
      (fun (st : SpanTracker × Nat) cell =>
        let t2 :=
          if 1 < cell.rowspanVal then
            register_rowspan st.1 0 st.2 cell.rowspanVal cell.colspanVal none
          else st.1
        (t2, st.2 + cell.colspanVal))
      (tracker, 0)).1
  | none => tracker

/-- The occupied-position skip of the border-side registration
(formatting/borders.rs lines 151-156). -/
def skipOccupiedIdxGo (tracker : SpanTracker) (rowIndex len : Nat) : Nat → Nat → Nat
  | 0, col => col
  | n + 1, col =>
    if col < len ∧ is_col_occupied_by_rowspan tracker rowIndex col then
      skipOccupiedIdxGo tracker rowIndex len n (col + 1)
    else col

def skipOccupiedIdx (tracker : SpanTracker) (rowIndex len col : Nat) : Nat :=
  skipOccupiedIdxGo tracker rowIndex len (len - col) col

/-- Models the data-row rowspan registration of draw_rows
(formatting/borders.rs lines 146-171). -/
def registerDataRowSpans (tracker : SpanTracker) (row : Row) (rowIndex len : Nat) :
    SpanTracker :=
  (row.cells.foldl
    (fun (st : SpanTracker × Nat) cell =>
      let col := skipOccupiedIdx st.1 rowIndex len st.2
      if len ≤ col then (st.1, col)
      else
        let t2 :=
          if 1 < cell.rowspanVal then
            register_rowspan st.1 rowIndex col cell.rowspanVal cell.colspanVal none
          else st.1
        (t2, col + cell.colspanVal))
    (tracker, 0)).1

/-- Models the row loop of draw_rows (formatting/borders.rs lines
84-193). -/
def drawRowsGo (t : Table) (infos : List ColumnDisplayInfo) (header_rows : Nat) :
    List (List (List Str)) → Nat → SpanTracker → List Str → List Str
  | [], _, _, acc => acc
  | row :: rest, row_index, tracker, acc =>
    let actual := if row_index < header_rows then row_index else row_index - header_rows
    let acc1 := acc ++ row.map (embed_line t)
    if row_index = 0 ∧ t.header.isSome then
      let acc2 :=
        if should_draw_header t then
          acc1 ++ [draw_horizontal_lines t infos true 0 tracker ((row.head?).getD [])]
        else acc1
      let tracker2 := advance_row (registerHeaderSpans t tracker) 1
      drawRowsGo t infos header_rows rest (row_index + 1) tracker2 acc2
    else
      let tracker2 :=
        match t.rows.get? actual with
        | some data_row => registerDataRowSpans tracker data_row (actual + header_rows) infos.length
        | none => tracker
      let acc2 :=
        if ¬ rest.isEmpty ∧ should_draw_horizontal_lines t then
          acc1 ++ [draw_horizontal_lines t infos false (actual + header_rows) tracker2
            ((row.head?).getD [])]
        else acc1
      drawRowsGo t infos header_rows rest (row_index + 1)
        (advance_row tracker2 (actual + header_rows + 1)) acc2

/-- Models draw_borders (formatting/borders.rs lines 6-47). -/
def draw_borders (t : Table) (rows : List (List (List Str)))
    (infos : List ColumnDisplayInfo) : List Str :=
  let header_rows := if t.header.isSome then 1 else 0
  let top := if should_draw_top_border t then [draw_top_border t infos] else []
  let mid := drawRowsGo t infos header_rows rows 0 [] []
  let bottom :=
    if should_draw_bottom_border t then
      [draw_bottom_border t infos ((rows.getLast?).bind (fun r => r.head?))]
    else []
  top ++ mid ++ bottom

/-- Modelled from the spec: the top level render driver (build_table) is
not under src/ (utils/format.rs there belongs to an older incompatible
revision).  Per spec section 2 the data flow is arrangement, then
content formatting, then the optional smart padding pass, then border
drawing.  Smart padding (spec section 4.7, formatting/smart_padding.rs
lines 186-195) only runs when the vertical line component renders as a
blank and the arrangement is not DynamicFullWidth; the pass itself is
taken as a parameter since no claim settled here reaches it. -/
def renderLines (dynArrange : Table → DisplayInfos → Nat → DisplayInfos)
    (smartPad : Table → List (List (List Str)) → List ColumnDisplayInfo →
      List (List (List Str)) × List ColumnDisplayInfo)
    (cw : Char → Nat) (t : Table) : List Str :=
  let infos := arrangeContent dynArrange t
  let content := format_content cw t infos
  let p :=
    if style_or_default t .VerticalLines = [' '] ∧
        t.arrangement ≠ ContentArrangement.DynamicFullWidth then
      smartPad t content infos
    else (content, infos)
  draw_borders t p.1 p.2

/-- The claimed bound on a split fragment (spec sections 4.3 and 8): the
fragment fits the target width, or it is a single grapheme that alone is
wider than the target width. -/
def fragOk (cw : Char → Nat) (w : Nat) (f : Str) : Prop :=
  measure_text_width cw f ≤ w ∨ ∃ c, f = [c] ∧ w < cw c

/-- A width oracle on which every character is one column wide. -/
def cwOne : Char → Nat := fun _ => 1

/-- A width oracle matching unicode-width on the characters used by the
concrete inputs below: the CJK character is two columns wide, everything
else one. -/
def cwDemo : Char → Nat := fun c => if c = '中' then 2 else 1

/-- A placeholder dynamic arranger for instantiating the dynamic
arrangement parameter at concrete inputs that never reach it. -/
def dynUnused : Table → DisplayInfos → Nat → DisplayInfos := fun _ infos _ => infos

/-- A placeholder smart padding pass for instantiating the smart padding
parameter at concrete inputs whose style gate never reaches it. -/
def smartPadUnused : Table → List (List (List Str)) → List ColumnDisplayInfo →
    List (List (List Str)) × List ColumnDisplayInfo := fun _ content infos => (content, infos)

/-- A style drawing only the inter-row horizontal line component. -/
def demoStyleHorizontal : TableComponent → Option Char := fun c =>
  match c with
  | TableComponent.HorizontalLines => some '-'
  | _ => none

/-- A column with default padding whose accumulated max content width is
one character. -/
def demoColumn (i : Nat) : Column :=
  { index := i, padding := (1, 1), max_content_width := 1 }

/-- A row holding the single-character cells a and b. -/
def demoRowAB : Row :=
  { cells := [{ content := [['a']] }, { content := [['b']] }] }

/-- A two-column two-row table in Disabled arrangement whose style draws
only horizontal lines: reachable through Table::new, load_preset with
only the HorizontalLines slot set, and add_row. -/
def demoTable1 : Table :=
  { columns := [demoColumn 0, demoColumn 1]
    style := demoStyleHorizontal
    rows := [demoRowAB, demoRowAB] }

/-- The full ASCII border style: every component set, vertical lines
drawn with a pipe (the ASCII_FULL preset of styling/presets.rs line
11). -/
def demoStyleFull : TableComponent → Option Char := fun c =>
  match c with
  | TableComponent.LeftBorder => some '|'
  | TableComponent.RightBorder => some '|'
  | TableComponent.TopBorder => some '-'
  | TableComponent.BottomBorder => some '-'
  | TableComponent.LeftHeaderIntersection => some '+'
  | TableComponent.HeaderLines => some '='
  | TableComponent.MiddleHeaderIntersections => some '='
  | TableComponent.RightHeaderIntersection => some '+'
  | TableComponent.VerticalLines => some '|'
  | TableComponent.HorizontalLines => some '-'
  | TableComponent.MiddleIntersections => some '+'
  | TableComponent.LeftBorderIntersections => some '|'
  | TableComponent.RightBorderIntersections => some '|'
  | TableComponent.TopBorderIntersections => some '+'
  | TableComponent.BottomBorderIntersections => some '+'
  | TableComponent.TopLeftCorner => some '+'
  | TableComponent.TopRightCorner => some '+'
  | TableComponent.BottomLeftCorner => some '+'
  | TableComponent.BottomRightCorner => some '+'

/-- A hidden column (index 1) with default padding. -/
def demoColumnHidden : Column :=
  { index := 1, padding := (1, 1), max_content_width := 1,
    constraint := some ColumnConstraint.Hidden }

/-- A two-column table (second column hidden) whose first row holds a
single cell spanning 2 columns and 2 rows, rendered with the full ASCII
style in Disabled arrangement; reachable through add_row, set_colspan,
set_rowspan and a Hidden constraint. -/
def demoTable2 : Table :=
  { columns := [demoColumn 0, demoColumnHidden]
    style := demoStyleFull
    rows := [{ cells := [{ content := [['x']], colspan := some 2, rowspan := some 2 }] },
             { cells := [{ content := [['y']] }] }] }

/-- A span tracker entry starting at row 0, column 1, one column wide,
with two remaining rows. -/
def demoEntryA : (Nat × Nat) × RowSpanInfo :=
  ((0, 1), { start_row := 0, remaining_rows := 2, colspan := 1, formatted_content := none })

/-- A span tracker entry starting at row 1, column 0, two columns wide,
with one remaining row; its column range overlaps demoEntryA. -/
def demoEntryB : (Nat × Nat) × RowSpanInfo :=
  ((1, 0), { start_row := 1, remaining_rows := 1, colspan := 2, formatted_content := none })

/-- A span tracker entry starting at row 0, column 5, one column wide,
with two remaining rows; its column range is disjoint from both
demoEntryA and demoEntryB. -/
def demoEntryC : (Nat × Nat) × RowSpanInfo :=
  ((0, 5), { start_row := 0, remaining_rows := 2, colspan := 1, formatted_content := none })

/-- The tracker state before the C6 counterexample call: one entry
started at row 0 with one remaining row. -/
def demoC6Before : SpanTracker :=
  [((0, 0),
    { start_row := 0, remaining_rows := 1, colspan := 1, formatted_content := none })]

/-- The tracker state advance_row(1) actually produces from
demoC6Before: the entry survives with remaining_rows 0. -/
def demoC6After : SpanTracker :=
  [((0, 0),
    { start_row := 0, remaining_rows := 0, colspan := 1, formatted_content := none })]

/-- A column with zero padding carrying a Percentage constraint. -/
def demoPercColumn (p : Nat) : Column :=
  { index := 0, padding := (0, 0), max_content_width := 1,
    constraint := some (ColumnConstraint.Percentage p) }

/-- A borderless one-column table with the given percentage constraint
and a known table width of 20. -/
def demoPercTable (p : Nat) : Table :=
  { columns := [demoPercColumn p]
    style := fun _ => none
    rows := []
    table_width := some 20 }

/-- A display info with the default (1,1) padding and content width
one. -/
def demoColumnInfoDefault : ColumnDisplayInfo := { padding := (1, 1), content_width := 1 }

/-- A display info with zero padding and content width one. -/
def demoZeroPadInfo : ColumnDisplayInfo := { padding := (0, 0), content_width := 1 }

/-- The width identity claimed for a colspan cell (spec section 8): the
rendered content width of the merged cell, padding included, equals the
sum of the full widths of the spanned columns plus one separator per
internal boundary. -/
def claimedMergedWidth (infos : List ColumnDisplayInfo) (colIndex colspan : Nat) : Nat :=
  let spanned := (infos.drop colIndex).take colspan
  (spanned.map ColumnDisplayInfo.width).sum + (colspan - 1)

/-- All rows of a table, header first. -/
def allRowsOf (t : Table) : List Row := t.header.toList ++ t.rows

/-- A table is span free when every cell keeps the default colspan and
rowspan of one. -/
def spanFree (t : Table) : Prop :=
  ∀ row ∈ allRowsOf t, ∀ cell ∈ row.cells, cell.colspanVal = 1 ∧ cell.rowspanVal = 1

/-- No row of the table caps its height. -/
def noMaxHeight (t : Table) : Prop :=
  ∀ row ∈ allRowsOf t, row.max_height = none

/-- Two span tracker entries are column-compatible when their column
ranges do not overlap (or they are the same entry), so that at most one
entry can cover any queried position. -/
def trackerDisjoint (t : SpanTracker) : Prop :=
  ∀ e1 ∈ t, ∀ e2 ∈ t,
    e1 = e2 ∨ e1.1.2 + e1.2.colspan ≤ e2.1.2 ∨ e2.1.2 + e2.2.colspan ≤ e1.1.2

instance (t : SpanTracker) : Decidable (trackerDisjoint t) := by
  unfold trackerDisjoint
  infer_instance

/-- A resolved column as the uniform-width analysis needs it: its
content width is at least one (every arrangement path goes through
ColumnDisplayInfo::new, which clamps to one, or only grows an already
clamped width). -/
def infoOk (i : ColumnDisplayInfo) : Prop :=
  1 ≤ i.content_width

/-- A formatted line part matching its column: its display width is the
full column width and it is nonempty. -/
def partOk (cw : Char → Nat) (p : Str) (i : ColumnDisplayInfo) : Prop :=
  measure_text_width cw p = i.width ∧ p ≠ []

/-- The display width every line of a span-free render attains: left
border, visible column widths, one separator per internal visible
column boundary, right border. -/
def lineWidthTarget (t : Table) (infos : List ColumnDisplayInfo) : Nat :=
  let visible := infos.filter (fun i => ¬ i.is_hidden)
  (if should_draw_left_border t then 1 else 0) +
  ((visible.map ColumnDisplayInfo.width).sum + (visible.length - 1)) +
  (if should_draw_right_border t then 1 else 0)

/-- A span-free two-column two-row table with the full ASCII style in
Disabled arrangement. -/
def demoC1Table : Table :=
  { columns := [demoColumn 0, demoColumn 1]
    style := demoStyleFull
    rows := [demoRowAB, demoRowAB] }

/-- A one-column table whose single row caps its height at one line
while its cell holds two lines, so the kept line gains the truncation
indicator; full ASCII style, Disabled arrangement.  Reachable through
add_row, Row::max_height and load_preset. -/
def demoMaxHeightTable : Table :=
  { columns := [demoColumn 0]
    style := demoStyleFull
    rows := [{ cells := [{ content := [['a'], ['b']] }], max_height := some 1 }] }

/-- A column capped at width one holding a two-column-wide character. -/
def demoWideColumn : Column :=
  { index := 0, padding := (1, 1), max_content_width := 2,
    constraint := some (ColumnConstraint.MaxWidth 1) }

/-- A one-column table whose only cell is the two-column-wide character,
with a MaxWidth(1) constraint forcing an oversized split fragment; full
ASCII style, Disabled arrangement. -/
def demoWideTable : Table :=
  { columns := [demoWideColumn]
    style := demoStyleFull
    rows := [{ cells := [{ content := [['中']] }] }] }

/-- Models get_max_constraint (arrangement/constraints.rs lines 93-113)
returning the resolved numeric cap directly (the source wraps it back
into a MaxWidth constructor; its only caller, dynamic.rs, immediately
reads the number out again). -/
def get_max_constraint (t : Table) (constraint : Option ColumnConstraint)
    (table_width visible_columns : Nat) : Option Nat :=
  match constraint with
  | some (ColumnConstraint.MaxWidth w) => some w
  | some (ColumnConstraint.MaxPercentage percent) =>
    some (natToU16 ((table_width - count_border_columns t visible_columns) * percent / 100))
  | _ => none

/-- Modelled from the spec: get_min_constraint as called by dynamic.rs
line 300 is not under src/ (the constraints.rs revision there predates
it).  Per spec sections 4.1 and 4.2 it mirrors get_max_constraint for
the lower boundaries: MinWidth yields the fixed floor, MinPercentage is
converted against the known table width. -/
def get_min_constraint (t : Table) (constraint : Option ColumnConstraint)
    (table_width visible_columns : Nat) : Option Nat :=
  match constraint with
  | some (ColumnConstraint.MinWidth w) => some w
  | some (ColumnConstraint.MinPercentage percent) =>
    some (natToU16 ((table_width - count_border_columns t visible_columns) * percent / 100))
  | _ => none

/-- Models count_remaining_columns (utils/arrangement.rs lines 41-43). -/
def count_remaining_columns (column_count : Nat) (infos : DisplayInfos) : Nat :=
  column_count - (infos.filter (fun e => ¬ e.2.is_hidden)).length

/-- Models available_content_width (arrangement/dynamic.rs lines
138-166); all subtractions saturate in the source. -/
def available_content_width (t : Table) (infos : DisplayInfos)
    (visible_columns width0 : Nat) : Nat :=
  let width := width0 - count_border_columns t visible_columns
  let width := t.columns.foldl
    (fun w column =>
      if containsKey infos column.index then w
      else w - (column.padding.1 + column.padding.2))
    width
  infos.foldl (fun w e => if e.2.is_hidden then w else w - e.2.width) width

/-- The mutable state threaded through the dynamic arrangement loops of
arrangement/dynamic.rs: the accumulated infos, the remaining width, the
count of still-flexible columns, the current average, the
found-a-smaller-column flag of the outer while loops and a stopped flag
standing for the source's break out of a column pass. -/
structure ArrangeState where
  infos : DisplayInfos
  remaining_width : Nat
  remaining_columns : Nat
  average_space : Nat
  found_smaller : Bool
  stopped : Bool

/-- Models the shared fix-a-column tail of the two branches of
find_columns_less_than_average (dynamic.rs lines 256-270): fix a column
whose max content width is below the current average. -/
def fclaContent (st : ArrangeState) (column : Column) : ArrangeState :=
  if column.max_content_width < st.average_space then
    let infos2 := insertInfo st.infos column.index
      (ColumnDisplayInfo.new column column.max_content_width)
    let rw2 := st.remaining_width - column.max_content_width
    let rc2 := st.remaining_columns - 1
    if rc2 = 0 then
      { st with
          infos := infos2
          remaining_width := rw2
          remaining_columns := 0
          stopped := true }
    else
      { st with
          infos := infos2
          remaining_width := rw2
          remaining_columns := rc2
          average_space := rw2 / rc2
          found_smaller := true }
  else st

/-- Models one column step of find_columns_less_than_average
(dynamic.rs lines 214-271).  The column.get_max_width() call of line
237 resolves to the accumulated max content width (spec section
4.1). -/
def fclaStep (t : Table) (table_width visible_columns : Nat) (st : ArrangeState)
    (column : Column) : ArrangeState :=
  if st.stopped then st
  else if containsKey st.infos column.index then st
  else
    match get_max_constraint t column.constraint table_width visible_columns with
    | some max_width =>
      let space_after_padding := st.average_space + (column.padding.1 + column.padding.2)
      if max_width ≤ space_after_padding ∧ max_width ≤ column.max_content_width then
        let width := absolute_width_with_padding column max_width
        let infos2 := insertInfo st.infos column.index (ColumnDisplayInfo.new column width)
        let rw2 := st.remaining_width - width
        let rc2 := st.remaining_columns - 1
        if rc2 = 0 then
          { st with
              infos := infos2
              remaining_width := rw2
              remaining_columns := 0
              stopped := true }
        else
          { st with
              infos := infos2
              remaining_width := rw2
              remaining_columns := rc2
              average_space := rw2 / rc2
              found_smaller := true }
      else fclaContent st column
    | none => fclaContent st column

/-- Models the while loop of find_columns_less_than_average (dynamic.rs
lines 200-272) with explicit fuel; the column count plus two always
suffices, because a re-entered pass has fixed at least one column and
the flexible column count is bounded by the column count. -/
def fclaLoop (t : Table) (table_width visible_columns : Nat) :
    Nat → ArrangeState → ArrangeState
  | 0, st => st
  | fuel + 1, st =>
    if st.found_smaller = false then st
    else if st.remaining_columns = 0 then st
    else
      let avg := st.remaining_width / st.remaining_columns
      if avg = 0 then st
      else
        let st2 := t.columns.foldl (fclaStep t table_width visible_columns)
          { st with
              average_space := avg
              found_smaller := false
              stopped := false }
        fclaLoop t table_width visible_columns fuel st2

/-- Models find_columns_less_than_average (dynamic.rs lines 191-275). -/
def find_columns_less_than_average (t : Table) (infos : DisplayInfos)
    (table_width remaining_width visible_columns : Nat) : DisplayInfos × Nat × Nat :=
  let rc := count_remaining_columns visible_columns infos
  let st := fclaLoop t table_width visible_columns (t.columns.length + 2)
    { infos := infos
      remaining_width := remaining_width
      remaining_columns := rc
      average_space := 0
      found_smaller := true
      stopped := false }
  (st.infos, st.remaining_width, st.remaining_columns)

/-- Models one column step of enforce_lower_boundary_constraints
(dynamic.rs lines 292-330). -/
def elbcStep (t : Table) (table_width visible_columns : Nat) (st : ArrangeState)
    (column : Column) : ArrangeState :=
  if st.stopped then st
  else if containsKey st.infos column.index then st
  else
    match get_min_constraint t column.constraint table_width visible_columns with
    | none => st
    | some min_width =>
      if min_width ≤ st.average_space then st
      else
        let width := absolute_width_with_padding column min_width
        let infos2 := insertInfo st.infos column.index (ColumnDisplayInfo.new column width)
        let rw2 := st.remaining_width - width
        let rc2 := st.remaining_columns - 1
        if rc2 = 0 then
          { st with
              infos := infos2
              remaining_width := rw2
              remaining_columns := 0
              stopped := true }
        else
          { st with
              infos := infos2
              remaining_width := rw2
              remaining_columns := rc2
              average_space := rw2 / rc2 }

/-- Models enforce_lower_boundary_constraints (dynamic.rs lines
283-333). -/
def enforce_lower_boundary_constraints (t : Table) (infos : DisplayInfos)
    (table_width remaining_width remaining_columns visible_columns : Nat) :
    DisplayInfos × Nat × Nat :=
  let st := t.columns.foldl (elbcStep t table_width visible_columns)
    { infos := infos
      remaining_width := remaining_width
      remaining_columns := remaining_columns
      average_space := remaining_width / remaining_columns
      found_smaller := false
      stopped := false }
  (st.infos, st.remaining_width, st.remaining_columns)

/-- Models get_delimiter as called by dynamic.rs line 417 (cell
override, then column override, then table override, then blank;
utils/arrangement.rs lines 61-72). -/
def column_delimiter (t : Table) (column : Column) (cell : Cell) : Char :=
  match cell.delimiter with
  | some d => d
  | none =>
    match column.delimiter with
    | some d => d
    | none =>
      match t.delimiter with
      | some d => d
      | none => ' '

/-- Models get_longest_line_after_split (dynamic.rs lines 403-441):
simulate the wrap of every cell of the column at the trial width and
return the longest resulting line; column_cells_iter (table.rs lines
601-624) walks the data rows and picks the cell at the column position,
skipping rows that are too short. -/
def get_longest_line_after_split (cw : Char → Nat) (average_space : Nat)
    (column : Column) (t : Table) : Nat :=
  let column_lines := t.rows.foldl
    (fun acc row =>
      match row.cells.get? column.index with
      | none => acc
      | some cell =>
        let delim := column_delimiter t column cell
        let info := ColumnDisplayInfo.new column (natToU16 average_space)
        cell.content.foldl
          (fun acc line =>
            if average_space < measure_text_width cw line then
              acc ++ split_line cw line info delim
            else acc ++ [line])
          acc)
    []
  (column_lines.map (measure_text_width cw)).foldl max 0

/-- Models one column step of optimize_space_after_split (dynamic.rs
lines 367-391). -/
def osasStep (cw : Char → Nat) (t : Table) (st : ArrangeState) (column : Column) :
    ArrangeState :=
  if st.stopped then st
  else if containsKey st.infos column.index then st
  else
    let longest_line := get_longest_line_after_split cw st.average_space column t
    let remaining_space := st.average_space - longest_line
    if 3 ≤ remaining_space then
      let infos2 := insertInfo st.infos column.index
        (ColumnDisplayInfo.new column (natToU16 longest_line))
      let rw2 := st.remaining_width - longest_line
      let rc2 := st.remaining_columns - 1
      if rc2 = 0 then
        { st with
            infos := infos2
            remaining_width := rw2
            remaining_columns := 0
            stopped := true }
      else
        { st with
            infos := infos2
            remaining_width := rw2
            remaining_columns := rc2
            average_space := rw2 / rc2
            found_smaller := true }
    else st

/-- Models the while loop of optimize_space_after_split (dynamic.rs
lines 365-392) with explicit fuel, sufficient for the same reason as in
the fcla loop. -/
def osasLoop (cw : Char → Nat) (t : Table) : Nat → ArrangeState → ArrangeState
  | 0, st => st
  | fuel + 1, st =>
    if st.found_smaller = false then st
    else
      let st2 := t.columns.foldl (osasStep cw t)
        { st with
            found_smaller := false
            stopped := false }
      osasLoop cw t fuel st2

/-- Models optimize_space_after_split (dynamic.rs lines 353-395). -/
def optimize_space_after_split (cw : Char → Nat) (t : Table) (infos : DisplayInfos)
    (remaining_width remaining_columns : Nat) : DisplayInfos × Nat × Nat :=
  let st := osasLoop cw t (t.columns.length + 2)
    { infos := infos
      remaining_width := remaining_width
      remaining_columns := remaining_columns
      average_space := remaining_width / remaining_columns
      found_smaller := true
      stopped := false }
  (st.infos, st.remaining_width, st.remaining_columns)

/-- Models use_full_width (dynamic.rs lines 449-478): distribute the
surplus over all visible columns, remainder left to right; the in-place
BTreeMap value mutation is modelled by rebuilding the list in key
order. -/
def use_full_width (infos : DisplayInfos) (remaining_width : Nat) : DisplayInfos :=
  let visible_columns := (infos.filter (fun e => ¬ e.2.is_hidden)).length
  if visible_columns = 0 then infos
  else
    let average_space := remaining_width / visible_columns
    let excess := remaining_width - average_space * visible_columns
    (infos.foldl
      (fun (st : DisplayInfos × Nat) e =>
        if e.2.is_hidden then (st.1 ++ [e], st.2)
        else
          let width := if 0 < st.2 then natToU16 (average_space + 1)
            else natToU16 average_space
          let excess2 := if 0 < st.2 then st.2 - 1 else st.2
          (st.1 ++ [(e.1, { e.2 with content_width := e.2.content_width + width })],
            excess2))
      ([], excess)).1

/-- Models distribute_remaining_space (dynamic.rs lines 486-515). -/
def distribute_remaining_space (columns : List Column) (infos : DisplayInfos)
    (remaining_width remaining_columns : Nat) : DisplayInfos :=
  let average_space := remaining_width / remaining_columns
  let excess := remaining_width - average_space * remaining_columns
  (columns.foldl
    (fun (st : DisplayInfos × Nat) column =>
      if containsKey st.1 column.index then st
      else
        let width := if 0 < st.2 then natToU16 (average_space + 1)
          else natToU16 average_space
        let excess2 := if 0 < st.2 then st.2 - 1 else st.2
        (insertInfo st.1 column.index (ColumnDisplayInfo.new column width), excess2))
    (infos, excess)).1

/-- Models dynamic::arrange (arrangement/dynamic.rs lines 30-124). -/
def dynamicArrange (cw : Char → Nat) (t : Table) (infos : DisplayInfos)
    (table_width : Nat) : DisplayInfos :=
  let visible_columns := count_visible_columns t.columns
  let remaining_width := available_content_width t infos visible_columns table_width
  let p1 := find_columns_less_than_average t infos table_width remaining_width
    visible_columns
  let p2 := if 0 < p1.2.2 then
      enforce_lower_boundary_constraints t p1.1 table_width p1.2.1 p1.2.2 visible_columns
    else p1
  let p3 := if 0 < p2.2.2 then optimize_space_after_split cw t p2.1 p2.2.1 p2.2.2 else p2
  if p3.2.2 = 0 then
    if 0 < p3.2.1 ∧ t.arrangement = ContentArrangement.DynamicFullWidth then
      use_full_width p3.1 p3.2.1
    else p3.1
  else
    let rw := if p3.2.1 < p3.2.2 then p3.2.2 else p3.2.1
    distribute_remaining_space t.columns p3.1 rw p3.2.2

/-- Models count_boundary_spaces (smart_padding.rs lines 94-98): the
trailing whitespace of the left text plus the leading whitespace of the
right text. -/
def count_boundary_spaces (left right : Str) : Nat :=
  (left.reverse.takeWhile Char.isWhitespace).length +
  (right.takeWhile Char.isWhitespace).length

/-- Models can_pad_column (smart_padding.rs lines 88-90). -/
def can_pad_column (info : ColumnDisplayInfo) (position : CellAlignment) : Bool :=
  info.cell_alignment.getD CellAlignment.Left ≠ position

/-- Models available_width (smart_padding.rs lines 46-62) over the
visible display infos; an unknown table width is treated as the u16
maximum, and the final u16 conversion saturates where the source would
panic on a table wider than the u16 range. -/
def smartAvailableWidth (t : Table) (display_infos : List ColumnDisplayInfo) : Nat :=
  match t.table_width with
  | none => 65535
  | some width =>
    let visible_columns := display_infos.length
    let width := width - count_border_columns t visible_columns
    natToU16 (display_infos.foldl (fun w info => w - info.width) width)

/-- Models get_column_max_padding_widths (smart_padding.rs lines
70-85): for every visible column, how much wider its cap still allows
it to become. -/
def get_column_max_padding_widths (t : Table) (all_infos : List ColumnDisplayInfo)
    (visible_columns : Nat) : List (Option Nat) :=
  ((t.columns.zip all_infos).filter (fun p => ¬ p.2.is_hidden)).map
    (fun p => (constraintMax t p.1.constraint visible_columns).map
      (fun v => v - (p.2.padding.1 + p.2.padding.2 + p.2.content_width)))

/-- Models compare_adjacent_columns (smart_padding.rs lines 101-136).
The source's early return upon reaching max_padding_width is equivalent
to capping the maximum of the per-cell extra paddings, which is how it
is written here. -/
def compare_adjacent_columns (t : Table) (content : List (List (List Str)))
    (display_infos : List ColumnDisplayInfo) (column_index max_padding_width : Nat) :
    Nat :=
  if ¬ (can_pad_column (display_infos.getD column_index default) CellAlignment.Right ∨
        can_pad_column (display_infos.getD (column_index + 1) default)
          CellAlignment.Left) then 0
  else
    let rows := (content.enum.filter (fun p => ¬ (p.1 = 0 ∧ t.header.isSome))).map Prod.snd
    let extras := rows.foldl
      (fun acc row => row.foldl
        (fun acc sub_row =>
          max acc (t.smart_padding_width -
            count_boundary_spaces (sub_row.getD column_index [])
              (sub_row.getD (column_index + 1) [])))
        acc)
      0
    min extras max_padding_width

/-- Models update_column_padding (smart_padding.rs lines 139-178): grow
the column width and re-pad every rendered part of that column by the
same amount; the mutation through the filtered view of mutable
references is modelled by operating on the filtered list directly.
Returns the new content, display infos and padding allowances together
with the applied padding. -/
def update_column_padding (content : List (List (List Str)))
    (display_infos : List ColumnDisplayInfo) (max_padding_widths : List (Option Nat))
    (column_index : Nat) (padding_position : CellAlignment) (padding_needed : Nat) :
    List (List (List Str)) × List ColumnDisplayInfo × List (Option Nat) × Nat :=
  let info := display_infos.getD column_index default
  if ¬ can_pad_column info padding_position then
    (content, display_infos, max_padding_widths, 0)
  else
    let padding := min padding_needed
      ((max_padding_widths.getD column_index none).getD 65535)
    let padding_str := spaces padding
    let display_infos2 := display_infos.set column_index
      { info with content_width := info.content_width + padding }
    let mpw2 := max_padding_widths.set column_index
      ((max_padding_widths.getD column_index none).map (fun m => m - padding))
    let content2 := content.map (fun row => row.map (fun sub_row =>
      match padding_position with
      | CellAlignment.Left =>
        sub_row.set column_index (padding_str ++ sub_row.getD column_index [])
      | CellAlignment.Right =>
        sub_row.set column_index (sub_row.getD column_index [] ++ padding_str)
      | CellAlignment.Center => sub_row))
    (content2, display_infos2, mpw2, padding)

/-- The state threaded through the column loop of smart_pad_content:
the re-padded content, the visible display infos, the per-column
padding allowances, the remaining width and a stopped flag standing for
the source's early return. -/
structure SmartPadState where
  content : List (List (List Str))
  infos : List ColumnDisplayInfo
  mpw : List (Option Nat)
  remaining_width : Nat
  stopped : Bool

/-- Models one iteration of the column loop of smart_pad_content
(smart_padding.rs lines 225-294). -/
def spcStep (t : Table) (st : SmartPadState) (column_index : Nat) : SmartPadState :=
  if st.stopped then st
  else if st.remaining_width = 0 then { st with stopped := true }
  else
    let max_padding_width := max
      (min st.remaining_width ((st.mpw.getD column_index none).getD 65535))
      ((st.mpw.getD (column_index + 1) none).getD 65535)
    let padding_needed := compare_adjacent_columns t st.content st.infos column_index
      max_padding_width
    if padding_needed = 0 then st
    else
      let left_align := (st.infos.getD column_index default).cell_alignment.getD
        CellAlignment.Left
      let right_align := (st.infos.getD (column_index + 1) default).cell_alignment.getD
        CellAlignment.Left
      let swap := left_align ≠ CellAlignment.Left ∧ right_align = CellAlignment.Right
      let first_idx := if swap then 1 else 0
      let second_idx := if swap then 0 else 1
      let r1 := update_column_padding st.content st.infos st.mpw
        (column_index + first_idx)
        (if first_idx = 0 then CellAlignment.Right else CellAlignment.Left)
        padding_needed
      let rem1 := st.remaining_width - r1.2.2.2
      let need1 := padding_needed - r1.2.2.2
      let r2 := update_column_padding r1.1 r1.2.1 r1.2.2.1
        (column_index + second_idx)
        (if second_idx = 0 then CellAlignment.Right else CellAlignment.Left)
        need1
      { content := r2.1
        infos := r2.2.1
        mpw := r2.2.2.1
        remaining_width := rem1 - r2.2.2.2
        stopped := false }

/-- Splices the re-padded visible infos back into the full info list,
modelling that the source mutated the originals through references. -/
def mergeVisible : List ColumnDisplayInfo → List ColumnDisplayInfo →
    List ColumnDisplayInfo
  | [], _ => []
  | info :: rest, vis =>
    if info.is_hidden then info :: mergeVisible rest vis
    else
      match vis with
      | [] => info :: mergeVisible rest []
      | v :: vrest => v :: mergeVisible rest vrest

/-- Models smart_pad_content (smart_padding.rs lines 180-295). -/
def smartPadContent (t : Table) (content : List (List (List Str)))
    (all_infos : List ColumnDisplayInfo) :
    List (List (List Str)) × List ColumnDisplayInfo :=
  if ¬ (t.arrangement = ContentArrangement.Disabled ∨
        t.arrangement = ContentArrangement.Dynamic) then (content, all_infos)
  else if ¬ (style_or_default t TableComponent.VerticalLines = [' ']) then
    (content, all_infos)
  else if content.isEmpty ∨ (content.getD 0 []).isEmpty then (content, all_infos)
  else
    let first_len := ((content.getD 0 []).getD 0 []).length
    let mpw := get_column_max_padding_widths t all_infos first_len
    let display_infos := all_infos.filter (fun i => ¬ i.is_hidden)
    let remaining := smartAvailableWidth t display_infos
    let st := (List.range (display_infos.length - 1)).foldl (spcStep t)
      { content := content
        infos := display_infos
        mpw := mpw
        remaining_width := remaining
        stopped := false }
    (st.content, mergeVisible all_infos st.infos)

/-- The invariant threaded through smart padding: all display infos are
visible and well formed, their count is fixed, and every rendered part
still matches its column width. -/
def ucpOk (cw : Char → Nat) (n : Nat) (content : List (List (List Str)))
    (vis : List ColumnDisplayInfo) : Prop :=
  (∀ i ∈ vis, i.is_hidden = false) ∧ (∀ i ∈ vis, infoOk i) ∧ vis.length = n ∧
  (∀ rl ∈ content, ∀ sub ∈ rl, List.Forall₂ (partOk cw) sub vis) ∧
  (n = 0 → ∀ rl ∈ content, rl = [])

theorem measure_nil (cw : Char → Nat) : measure_text_width cw [] = 0 := rfl

theorem measure_cons (cw : Char → Nat) (c : Char) (s : Str) :
    measure_text_width cw (c :: s) = cw c + measure_text_width cw s := by
  simp [measure_text_width]

theorem measure_append (cw : Char → Nat) (a b : Str) :
    measure_text_width cw (a ++ b) = measure_text_width cw a + measure_text_width cw b := by
  simp [measure_text_width]

theorem measure_single (cw : Char → Nat) (c : Char) :
    measure_text_width cw [c] = cw c := by
  simp [measure_text_width]

theorem measure_eq_length (s : Str) : measure_text_width cwOne s = s.length := by
  induction s with
  | nil => rfl
  | cons c rest ih =>
    simp [measure_cons, ih, cwOne]
    omega

theorem rustSplit_ne_nil (d : Char) (s : Str) : rustSplit d s ≠ [] := by
  cases s with
  | nil => simp [rustSplit]
  | cons c rest =>
    simp only [rustSplit]
    by_cases h : c = d
    · simp [h]
    · simp only [if_neg h]
      cases rustSplit d rest <;> simp

theorem joinWith_cons_head (d c : Char) (h : Str) (t : List Str) :
    joinWith d ((c :: h) :: t) = c :: joinWith d (h :: t) := by
  cases t with
  | nil => rfl
  | cons x xs => simp [joinWith]

theorem joinWith_rustSplit (d : Char) (s : Str) : joinWith d (rustSplit d s) = s := by
  induction s with
  | nil => rfl
  | cons c rest ih =>
    simp only [rustSplit]
    rcases hr : rustSplit d rest with _ | ⟨h1, t1⟩
    · exact absurd hr (rustSplit_ne_nil d rest)
    · rw [hr] at ih
      by_cases h : c = d
      · simp [if_pos h, joinWith, ih, h]
      · simp only [if_neg h]
        rw [joinWith_cons_head, ih]

/-- C10: constructing a cell from a string and reading its content back
is the identity; splitting the content on newlines at construction
(Cell::new_owned, cell.rs lines 37-58) and re-joining with newlines at
read-back (Cell::content, cell.rs lines 60-63) round-trips exactly, for
every string including the empty string and strings with leading,
trailing, or consecutive newlines. -/
theorem C10_cell_content_roundtrip (s : Str) :
    (Cell.new_owned s).contentJoined = s := by
  unfold Cell.new_owned Cell.contentJoined
  exact joinWith_rustSplit '\n' s

theorem splitLongWordGo_append (cw : Char → Nat) (allowed : Nat) :
    ∀ (word : Str) (curW : Nat),
      (splitLongWordGo cw allowed curW word).1 ++ (splitLongWordGo cw allowed curW word).2 =
        word := by
  intro word
  induction word with
  | nil => intro curW; rfl
  | cons c rest ih =>
    intro curW
    simp only [splitLongWordGo]
    by_cases h : curW + cw c > allowed
    · simp [h]
    · simp only [if_neg h]
      simpa using ih (curW + cw c)

theorem split_long_word_append (cw : Char → Nat) (allowed : Nat) (word : Str) :
    (split_long_word cw allowed word).1 ++ (split_long_word cw allowed word).2 = word :=
  splitLongWordGo_append cw allowed word 0

/-- C9: for every allowed width and every word, the two halves returned
by split_long_word (content_split.rs lines 215-244, plain-text path)
concatenate back to the original word exactly: no character is lost,
duplicated, or reordered. -/
theorem C9_split_long_word_append (cw : Char → Nat) (allowed : Nat) (word : Str) :
    (split_long_word cw allowed word).1 ++ (split_long_word cw allowed word).2 = word :=
  splitLongWordGo_append cw allowed word 0


theorem flag_le_one (s : Str) : (if s.isEmpty then 0 else 1) ≤ 1 := by
  split <;> omega

theorem check_if_full_snd_le (cw : Char → Nat) (w : Nat) (lines : List Str) (cur : Str) :
    measure_text_width cw (check_if_full cw w lines cur).2 ≤ w - MIN_FREE_CHARS := by
  unfold check_if_full
  split
  · simp [measure_nil]
  · simp only []
    omega

theorem check_if_full_fst_sub (cw : Char → Nat) (w : Nat) (lines : List Str) (cur : Str) :
    (check_if_full cw w lines cur).1 = lines ∨
      (check_if_full cw w lines cur).1 = lines ++ [cur] := by
  unfold check_if_full
  split
  · right; rfl
  · left; rfl

theorem split_long_word_len (cw : Char → Nat) (a : Nat) (word : Str) :
    (split_long_word cw a word).1.length + (split_long_word cw a word).2.length =
      word.length := by
  have h := split_long_word_append cw a word
  calc (split_long_word cw a word).1.length + (split_long_word cw a word).2.length
      = ((split_long_word cw a word).1 ++ (split_long_word cw a word).2).length := by
        simp
    _ = word.length := by rw [h]


theorem splitLineStep_fuel (cw : Char → Nat) (w : Nat) (d : Char)
    (next : Str) (elements : List Str) (cur : Str) (lines : List Str) :
    loopFuel (splitLineStep cw w d next elements cur lines).1
      (splitLineStep cw w d next elements cur lines).2.1 <
    loopFuel (next :: elements) cur := by
  cases cur with
  | nil =>
    simp only [splitLineStep, List.isEmpty_nil, reduceIte, not_true, false_and,
      measure_nil, List.nil_append, Nat.sub_zero]
    split_ifs with h1 h3 h4
    · simp only [loopFuel, charsTotal, List.map_cons, List.sum_cons, List.length_cons]
      have hf := flag_le_one (check_if_full cw w lines next).2
      omega
    · rcases hp2 : (split_long_word cw w next).2 with _ | ⟨c, r⟩
      · have happ := split_long_word_append cw w next
        have h4l : (split_long_word cw w next).1 = [] := by
          simpa using h4
        rw [hp2, h4l] at happ
        simp only [List.append_nil] at happ
        rw [← happ] at h3
        simp [measure_nil] at h3
      · simp only [hp2]
        have hlen := split_long_word_len cw w next
        rw [hp2] at hlen
        simp only [List.length_cons] at hlen
        simp only [loopFuel, charsTotal, List.map_cons, List.sum_cons, List.length_cons,
          List.isEmpty_nil, reduceIte]
        have hg := flag_le_one next
        omega
    · have hlen := split_long_word_len cw w next
      have hpos : 0 < (split_long_word cw w next).1.length :=
        List.length_pos.mpr (by simpa using h4)
      simp only [loopFuel, charsTotal, List.map_cons, List.sum_cons, List.length_cons,
        List.isEmpty_nil, reduceIte]
      omega
    · simp only [loopFuel, charsTotal, List.map_cons, List.sum_cons, List.length_cons]
      have hf := flag_le_one (check_if_full cw w (lines ++ [[]]) next).2
      omega
  | cons c0 cur0 =>
    simp only [splitLineStep, List.isEmpty_cons, Bool.false_eq_true, reduceIte,
      not_false_iff, true_and, false_and]
    split_ifs with h1 h2 h3
    · simp only [loopFuel, charsTotal, List.map_cons, List.sum_cons, List.length_cons]
      have hf := flag_le_one (check_if_full cw w lines ((c0 :: cur0) ++ [d] ++ next)).2
      omega
    · simp only [loopFuel, charsTotal, List.map_cons, List.sum_cons, List.length_cons,
        List.isEmpty_nil, List.isEmpty_cons, Bool.false_eq_true, reduceIte]
      omega
    · have hlen := split_long_word_len cw (w - measure_text_width cw (c0 :: cur0) - 1) next
      simp only [loopFuel, charsTotal, List.map_cons, List.sum_cons, List.length_cons,
        List.isEmpty_nil, List.isEmpty_cons, Bool.false_eq_true, reduceIte]
      omega
    · simp only [loopFuel, charsTotal, List.map_cons, List.sum_cons, List.length_cons]
      have hf := flag_le_one (check_if_full cw w (lines ++ [c0 :: cur0]) next).2
      omega


theorem splitLineStep_cur_le (cw : Char → Nat) (w : Nat) (d : Char)
    (next : Str) (elements : List Str) (cur : Str) (lines : List Str) :
    measure_text_width cw (splitLineStep cw w d next elements cur lines).2.1 ≤
      w - MIN_FREE_CHARS := by
  cases cur with
  | nil =>
    simp only [splitLineStep, List.isEmpty_nil, reduceIte, not_true, false_and,
      measure_nil, List.nil_append, Nat.sub_zero]
    split_ifs <;>
      first
        | exact check_if_full_snd_le cw w _ _
        | simp [measure_nil]
  | cons c0 cur0 =>
    simp only [splitLineStep, List.isEmpty_cons, Bool.false_eq_true, reduceIte,
      not_false_iff, true_and, false_and]
    split_ifs <;>
      first
        | exact check_if_full_snd_le cw w _ _
        | simp [measure_nil]

theorem splitLongWordGo_width (cw : Char → Nat) (a : Nat) :
    ∀ (word : Str) (curW : Nat),
      (splitLongWordGo cw a curW word).1 = [] ∨
        curW + measure_text_width cw (splitLongWordGo cw a curW word).1 ≤ a := by
  intro word
  induction word with
  | nil => intro curW; left; rfl
  | cons c rest ih =>
    intro curW
    simp only [splitLongWordGo]
    by_cases h : curW + cw c > a
    · left; simp [h]
    · simp only [if_neg h]
      rcases ih (curW + cw c) with h1 | h1
      · right
        simp only [h1, measure_cons, measure_nil]
        omega
      · right
        simp only [measure_cons]
        omega

theorem split_long_word_width (cw : Char → Nat) (a : Nat) (word : Str) :
    measure_text_width cw (split_long_word cw a word).1 ≤ a := by
  rcases splitLongWordGo_width cw a word 0 with h | h
  · rw [split_long_word, h]; simp [measure_nil]
  · simpa [split_long_word] using h

theorem slw_head_nil_bound (cw : Char → Nat) (a curW : Nat) (c : Char) (rest : Str)
    (h : (splitLongWordGo cw a curW (c :: rest)).1 = []) : a < curW + cw c := by
  by_contra hc
  simp only [splitLongWordGo] at h
  rw [if_neg (by omega)] at h
  simp at h

theorem frag_append_ok (cw : Char → Nat) (w : Nat) (lines : List Str) (x : Str)
    (h : ∀ f ∈ lines, fragOk cw w f) (hx : fragOk cw w x) :
    ∀ f ∈ lines ++ [x], fragOk cw w f := by
  intro f hf
  rcases List.mem_append.mp hf with hf | hf
  · exact h f hf
  · simp only [List.mem_singleton] at hf
    subst hf
    exact hx

theorem splitLineStep_frags (cw : Char → Nat) (w : Nat) (d : Char)
    (hd : cw d = 1)
    (next : Str) (elements : List Str) (cur : Str) (lines : List Str)
    (hcur : measure_text_width cw cur ≤ w - MIN_FREE_CHARS)
    (hlines : ∀ f ∈ lines, fragOk cw w f) :
    ∀ f ∈ (splitLineStep cw w d next elements cur lines).2.2, fragOk cw w f := by
  have hmin : MIN_FREE_CHARS = 2 := rfl
  cases cur with
  | nil =>
    simp only [splitLineStep, List.isEmpty_nil, reduceIte, not_true, false_and,
      measure_nil, List.nil_append, Nat.sub_zero]
    split_ifs with h1 h3 h4
    · rcases check_if_full_fst_sub cw w lines next with h | h <;> rw [h]
      · exact hlines
      · exact frag_append_ok cw w lines next hlines (Or.inl (by omega))
    · rcases hp2 : (split_long_word cw w next).2 with _ | ⟨c, r⟩
      · have happ := split_long_word_append cw w next
        have h4l : (split_long_word cw w next).1 = [] := by simpa using h4
        rw [hp2, h4l] at happ
        simp only [List.append_nil] at happ
        rw [← happ] at h3
        simp [measure_nil] at h3
      · simp only [hp2]
        have h4l : (split_long_word cw w next).1 = [] := by simpa using h4
        have happ := split_long_word_append cw w next
        rw [hp2, h4l] at happ
        simp only [List.nil_append] at happ
        rw [← happ] at h4l
        simp only [split_long_word] at h4l
        have hb := slw_head_nil_bound cw w 0 c r h4l
        exact frag_append_ok cw w lines [c] hlines (Or.inr ⟨c, rfl, by omega⟩)
    · refine frag_append_ok cw w lines _ hlines (Or.inl ?_)
      exact split_long_word_width cw w next
    · omega
  | cons c0 cur0 =>
    simp only [splitLineStep, List.isEmpty_cons, Bool.false_eq_true, reduceIte,
      not_false_iff, true_and, false_and]
    split_ifs with h1 h2 h3
    · rcases check_if_full_fst_sub cw w lines ((c0 :: cur0) ++ [d] ++ next) with h | h <;>
        rw [h]
      · exact hlines
      · refine frag_append_ok cw w lines _ hlines (Or.inl ?_)
        simp only [measure_append, measure_single, hd]
        omega
    · refine frag_append_ok cw w lines (c0 :: cur0) hlines (Or.inl (by omega))
    · refine frag_append_ok cw w lines _ hlines (Or.inl ?_)
      have hw := split_long_word_width cw
        (w - measure_text_width cw (c0 :: cur0) - 1) next
      simp only [measure_append, measure_single, hd]
      omega
    · rcases check_if_full_fst_sub cw w (lines ++ [c0 :: cur0]) next with h | h <;> rw [h]
      · exact frag_append_ok cw w lines (c0 :: cur0) hlines (Or.inl (by omega))
      · intro f hf
        simp only [List.append_assoc, List.mem_append, List.mem_singleton] at hf
        rcases hf with hf | hf | hf
        · exact hlines f hf
        · subst hf
          exact Or.inl (by omega)
        · subst hf
          exact Or.inl (by omega)

theorem splitLineLoop_isSome (cw : Char → Nat) (w : Nat) (d : Char) :
    ∀ (fuel : Nat) (els : List Str) (cur : Str) (lines : List Str),
      loopFuel els cur ≤ fuel →
      (splitLineLoop cw w d fuel els cur lines).isSome := by
  intro fuel
  induction fuel with
  | zero =>
    intro els cur lines h
    exfalso
    unfold loopFuel at h
    omega
  | succ n ih =>
    intro els cur lines h
    cases els with
    | nil => simp [splitLineLoop]
    | cons next elements =>
      simp only [splitLineLoop]
      apply ih
      have hstep := splitLineStep_fuel cw w d next elements cur lines
      omega

theorem splitLineLoop_frags (cw : Char → Nat) (w : Nat) (d : Char) (hd : cw d = 1) :
    ∀ (fuel : Nat) (els : List Str) (cur : Str) (lines : List Str),
      measure_text_width cw cur ≤ w - MIN_FREE_CHARS →
      (∀ f ∈ lines, fragOk cw w f) →
      ∀ f ∈ (splitLineLoop cw w d fuel els cur lines).getD [], fragOk cw w f := by
  intro fuel
  induction fuel with
  | zero =>
    intro els cur lines _ _ f hf
    simp [splitLineLoop] at hf
  | succ n ih =>
    intro els cur lines hcur hlines
    cases els with
    | nil =>
      simp only [splitLineLoop, Option.getD_some]
      by_cases hc : cur.isEmpty
      · rw [if_pos hc]
        exact hlines
      · rw [if_neg hc]
        exact frag_append_ok cw w lines cur hlines (Or.inl (by omega))
    | cons next elements =>
      simp only [splitLineLoop]
      exact ih _ _ _ (splitLineStep_cur_le cw w d next elements cur lines)
        (splitLineStep_frags cw w d hd next elements cur lines hcur hlines)

/-- C8: the line splitter terminates on every input: for every line,
target content width of at least one, and delimiter, the split_line loop
(content_split.rs lines 78-178) run with the explicitly computed fuel
returns an actual result (never the out-of-fuel marker), and that result
is the value split_line produces.  In particular no input, including a
grapheme wider than the remaining split width, makes the loop run
forever. -/
theorem C8_split_line_terminates (cw : Char → Nat) (contentWidth : Nat) (delim : Char)
    (line : Str) (_hw : 1 ≤ contentWidth) :
    ∃ fragments,
      splitLineLoop cw contentWidth delim (loopFuel (rustSplit delim line) [])
          (rustSplit delim line) [] [] = some fragments ∧
      splitLineCore cw contentWidth delim line = fragments := by
  have hs := splitLineLoop_isSome cw contentWidth delim
    (loopFuel (rustSplit delim line) []) (rustSplit delim line) [] [] (le_refl _)
  rcases Option.isSome_iff_exists.mp hs with ⟨r, hr⟩
  exact ⟨r, hr, by simp [splitLineCore, hr]⟩

theorem C8_witness :
    (1 ≤ 3) ∧
    ∃ fragments,
      splitLineLoop cwOne 3 ' ' (loopFuel (rustSplit ' ' ['a', 'b', ' ', 'c']) [])
          (rustSplit ' ' ['a', 'b', ' ', 'c']) [] [] = some fragments ∧
      splitLineCore cwOne 3 ' ' ['a', 'b', ' ', 'c'] = fragments :=
  ⟨by decide, C8_split_line_terminates cwOne 3 ' ' ['a', 'b', ' ', 'c'] (by decide)⟩

/-- C2 counterexample: with the delimiter set to a two-column-wide
character (cell/column/table delimiters are arbitrary chars,
Cell::set_delimiter), split_line re-inserts the delimiter while
accounting only one column for it (content_split.rs lines 84-88, the
comment says add 1 for the delimiter), so the line a delimiter b with
target width 3 comes back as the single fragment a-delimiter-b of
display width 4: wider than the target yet not a single grapheme.  This
refutes the claim as stated for every delimiter. -/
theorem C2_counterexample :
    splitLineCore cwDemo 3 '中' ['a', '中', 'b'] = [['a', '中', 'b']] ∧
    measure_text_width cwDemo ['a', '中', 'b'] = 4 ∧
    ¬ fragOk cwDemo 3 ['a', '中', 'b'] := by
  refine ⟨rfl, by decide, ?_⟩
  intro hfo
  rcases hfo with h | ⟨c, hc, _⟩
  · revert h
    decide
  · simp at hc

/-- C2 amended: for every input line, every target content width of at
least one and every delimiter whose display width is one (the default
blank delimiter in particular), every fragment returned by split_line
has display width at most the target width, with the single exception
that a fragment may be one grapheme that alone is wider than the target
width. -/
theorem C2_amended_split_safety (cw : Char → Nat) (contentWidth : Nat) (delim : Char)
    (line : Str) (_hw : 1 ≤ contentWidth) (hd : cw delim = 1) :
    ∀ f ∈ splitLineCore cw contentWidth delim line, fragOk cw contentWidth f := by
  intro f hf
  exact splitLineLoop_frags cw contentWidth delim hd _ _ _ _ (Nat.zero_le _)
    (by intro g hg; cases hg) f hf

theorem C2_witness :
    (1 ≤ 2) ∧ (cwOne ' ' = 1) ∧
    ∀ f ∈ splitLineCore cwOne 2 ' ' ['a', 'b', 'c', ' ', 'd'], fragOk cwOne 2 f :=
  ⟨by decide, rfl, C2_amended_split_safety cwOne 2 ' ' ['a', 'b', 'c', ' ', 'd']
    (by decide) rfl⟩


/-- C6 counterexample: advance_row purges before decrementing
(spanning.rs lines 97-109): on a tracker holding one entry with
start_row 0 and remaining_rows 1, advance_row(1) keeps the entry and
decrements it to 0, so immediately after the call an entry with
start_row < 1 and remaining_rows = 0 exists, contradicting the claimed
decrement-then-purge order and its consequence. -/
theorem C6_counterexample :
    advance_row demoC6Before 1 = demoC6After ∧
    ∃ e ∈ advance_row demoC6Before 1, e.2.start_row < 1 ∧ e.2.remaining_rows = 0 := by
  refine ⟨rfl, ?_⟩
  decide

/-- C6 amended: advance_row(r) first purges the entries whose
remaining_rows is already 0, and then decrements remaining_rows of every
surviving entry whose start_row < r; consequently every resulting entry
stems from a surviving entry with its counter decremented exactly when
it started before row r (so an entry whose remaining_rows has just
reached 0 is still present and is only purged by the next advance_row
call, the render pass after it finishes, matching the invariant of spec
section 3). -/
theorem C6_amended_advance_row (t : SpanTracker) (r : Nat) :
    (∀ e ∈ advance_row t r, ∃ e₀ ∈ t,
        e.1 = e₀.1 ∧ 0 < e₀.2.remaining_rows ∧ e.2.start_row = e₀.2.start_row ∧
        e.2.colspan = e₀.2.colspan ∧ e.2.formatted_content = e₀.2.formatted_content ∧
        e.2.remaining_rows =
          (if e₀.2.start_row < r then e₀.2.remaining_rows - 1
           else e₀.2.remaining_rows)) ∧
    (∀ e₀ ∈ t, 0 < e₀.2.remaining_rows →
      (e₀.1, { e₀.2 with remaining_rows :=
          (if e₀.2.start_row < r then e₀.2.remaining_rows - 1
           else e₀.2.remaining_rows) }) ∈ advance_row t r) := by
  constructor
  · intro e he
    rcases List.mem_map.mp he with ⟨e₀, he₀, hmap⟩
    rcases List.mem_filter.mp he₀ with ⟨he₀t, hpos⟩
    have hpos2 : 0 < e₀.2.remaining_rows := by simpa using hpos
    refine ⟨e₀, he₀t, ?_⟩
    by_cases hlt : e₀.2.start_row < r
    · rw [if_pos ⟨hlt, hpos2⟩] at hmap
      subst hmap
      simp [hlt, hpos2]
    · rw [if_neg (by tauto)] at hmap
      subst hmap
      simp [hlt, hpos2]
  · intro e₀ he₀ hpos
    apply List.mem_map.mpr
    refine ⟨e₀, List.mem_filter.mpr ⟨he₀, by simpa using hpos⟩, ?_⟩
    by_cases hlt : e₀.2.start_row < r
    · rw [if_pos ⟨hlt, hpos⟩, if_pos hlt]
    · rw [if_neg (by tauto), if_neg hlt]

theorem C6_witness :
    (∀ e ∈ advance_row [demoEntryA] 3, ∃ e₀ ∈ [demoEntryA],
        e.1 = e₀.1 ∧ 0 < e₀.2.remaining_rows ∧ e.2.start_row = e₀.2.start_row ∧
        e.2.colspan = e₀.2.colspan ∧ e.2.formatted_content = e₀.2.formatted_content ∧
        e.2.remaining_rows =
          (if e₀.2.start_row < 3 then e₀.2.remaining_rows - 1
           else e₀.2.remaining_rows)) ∧
    (∀ e₀ ∈ [demoEntryA], 0 < e₀.2.remaining_rows →
      (e₀.1, { e₀.2 with remaining_rows :=
          (if e₀.2.start_row < 3 then e₀.2.remaining_rows - 1
           else e₀.2.remaining_rows) }) ∈ advance_row [demoEntryA] 3) :=
  C6_amended_advance_row [demoEntryA] 3

theorem find?_perm_unique {α : Type} (p : α → Bool) (l1 l2 : List α)
    (hperm : l1.Perm l2)
    (huniq : ∀ a ∈ l1, ∀ b ∈ l1, p a = true → p b = true → a = b) :
    l1.find? p = l2.find? p := by
  rcases h1 : l1.find? p with _ | a
  · rcases h2 : l2.find? p with _ | b
    · rfl
    · exfalso
      have hb := List.find?_some h2
      have hbm := List.mem_of_find?_eq_some h2
      have hbm1 : b ∈ l1 := hperm.symm.subset hbm
      have := List.find?_eq_none.mp h1 b hbm1
      exact this hb
  · rcases h2 : l2.find? p with _ | b
    · exfalso
      have ha := List.find?_some h1
      have ham := List.mem_of_find?_eq_some h1
      have ham2 : a ∈ l2 := hperm.subset ham
      have := List.find?_eq_none.mp h2 a ham2
      exact this ha
    · have ha := List.find?_some h1
      have ham := List.mem_of_find?_eq_some h1
      have hb := List.find?_some h2
      have hbm := List.mem_of_find?_eq_some h2
      have hbm1 : b ∈ l1 := hperm.symm.subset hbm
      rw [huniq a ham b hbm1 ha hb]

/-- C3 counterexample: the span tracker queries read the first matching
entry in hash map iteration order (spanning.rs lines 36-44 and 125-133);
with two simultaneously active entries whose column ranges overlap (one
rowspan at (0,1) with colspan 1, one at (1,0) with colspan 2 — a state a
render can build, since a cell placed after skipping an occupied column
may span a column occupied later), the two iteration orders of the same
entry set give different is_occupied and get_rowspan_start answers at
row 2, column 1, so the rendered output is not independent of the hash
map iteration order. -/
theorem C3_counterexample :
    List.Perm [demoEntryA, demoEntryB] [demoEntryB, demoEntryA] ∧
    is_occupied [demoEntryA, demoEntryB] 2 1 = some (2, 1) ∧
    is_occupied [demoEntryB, demoEntryA] 2 1 = some (1, 2) ∧
    get_rowspan_start [demoEntryA, demoEntryB] 2 1 = some (0, 1, 1) ∧
    get_rowspan_start [demoEntryB, demoEntryA] 2 1 = some (1, 0, 2) := by
  exact ⟨List.Perm.swap demoEntryB demoEntryA [], by decide, by decide, by decide, by decide⟩

/-- C3 amended: rendering is deterministic as long as no two active span
tracker entries overlap in column range: under that disjointness, every
tracker query (is_occupied, get_rowspan_content, get_rowspan_start,
get_rowspan_start_at_row) returns the same answer on any two iteration
orders of the same entry set, so the rendered output cannot depend on
the hash map iteration order.  With overlapping rowspan ranges the
queries are order-dependent (see the counterexample). -/
theorem C3_amended_span_queries_order_independent (t1 t2 : SpanTracker)
    (hperm : List.Perm t1 t2) (hdisj : trackerDisjoint t1) (row col : Nat) :
    is_occupied t1 row col = is_occupied t2 row col ∧
    get_rowspan_content t1 row col = get_rowspan_content t2 row col ∧
    get_rowspan_start t1 row col = get_rowspan_start t2 row col ∧
    get_rowspan_start_at_row t1 row col = get_rowspan_start_at_row t2 row col := by
  have huniq1 : ∀ a ∈ t1, ∀ b ∈ t1,
      decide (spanCovers row col a) = true → decide (spanCovers row col b) = true →
      a = b := by
    intro a ha b hb hpa hpb
    have hpa2 := of_decide_eq_true hpa
    have hpb2 := of_decide_eq_true hpb
    rcases hdisj a ha b hb with h | h | h
    · exact h
    · exfalso
      rcases hpa2 with ⟨_, ha1, ha2⟩
      rcases hpb2 with ⟨_, hb1, hb2⟩
      omega
    · exfalso
      rcases hpa2 with ⟨_, ha1, ha2⟩
      rcases hpb2 with ⟨_, hb1, hb2⟩
      omega
  have huniq2 : ∀ a ∈ t1, ∀ b ∈ t1,
      decide (spanCoversAtRow row col a) = true →
      decide (spanCoversAtRow row col b) = true → a = b := by
    intro a ha b hb hpa hpb
    have hpa2 := of_decide_eq_true hpa
    have hpb2 := of_decide_eq_true hpb
    rcases hdisj a ha b hb with h | h | h
    · exact h
    · exfalso
      rcases hpa2 with ⟨_, _, ha1, ha2⟩
      rcases hpb2 with ⟨_, _, hb1, hb2⟩
      omega
    · exfalso
      rcases hpa2 with ⟨_, _, ha1, ha2⟩
      rcases hpb2 with ⟨_, _, hb1, hb2⟩
      omega
  have hf1 := find?_perm_unique (fun e => decide (spanCovers row col e)) t1 t2 hperm huniq1
  have hf2 := find?_perm_unique (fun e => decide (spanCoversAtRow row col e)) t1 t2 hperm
    huniq2
  refine ⟨?_, ?_, ?_, ?_⟩ <;>
    simp [is_occupied, get_rowspan_content, get_rowspan_start, get_rowspan_start_at_row,
      hf1, hf2]

theorem C3_witness :
    List.Perm [demoEntryA, demoEntryC] [demoEntryC, demoEntryA] ∧
    trackerDisjoint [demoEntryA, demoEntryC] ∧
    (is_occupied [demoEntryA, demoEntryC] 1 1 = is_occupied [demoEntryC, demoEntryA] 1 1 ∧
     get_rowspan_content [demoEntryA, demoEntryC] 1 1 =
       get_rowspan_content [demoEntryC, demoEntryA] 1 1 ∧
     get_rowspan_start [demoEntryA, demoEntryC] 1 1 =
       get_rowspan_start [demoEntryC, demoEntryA] 1 1 ∧
     get_rowspan_start_at_row [demoEntryA, demoEntryC] 1 1 =
       get_rowspan_start_at_row [demoEntryC, demoEntryA] 1 1) :=
  ⟨List.Perm.swap demoEntryC demoEntryA [], by decide,
    C3_amended_span_queries_order_independent [demoEntryA, demoEntryC]
      [demoEntryC, demoEntryA] (List.Perm.swap demoEntryC demoEntryA [])
      (by decide) 1 1⟩


/-- C5: the percentage width constraint is not clamped to 100 by the
code: constraints::evaluate (arrangement/constraints.rs lines 43-60)
converts a Percentage(200) constraint on a borderless one-column table
of known width 20 into a resolved content width of 40 — twice the full
table width, and twice what Percentage(100) yields — although the Width
documentation (style/column.rs lines 30-32) promises that values above
100 are automatically reduced to 100. -/
theorem C5_percentage_no_clamp :
    (evaluate (demoPercTable 200) (demoPercColumn 200) [] (some 20) 1).map
        (fun e => e.2.content_width) = [40] ∧
    (evaluate (demoPercTable 100) (demoPercColumn 100) [] (some 20) 1).map
        (fun e => e.2.content_width) = [20] :=
  ⟨rfl, rfl⟩

/-- C4 counterexample: format_row merges a colspan cell by adding three
characters per internal boundary (content_format.rs line 134), the
blank-separator-blank that two default-padded cells would have between
them; with two zero-padding columns of content width 1, the merged cell
is rendered 5 columns wide (1+1+3 content, no padding) while the
claimed identity (sum of spanned column widths plus one separator per
boundary) gives 1+1+1 = 3.  The claim therefore fails for non-default
column padding. -/
theorem C4_counterexample :
    (mergedSpanInfo [demoZeroPadInfo, demoZeroPadInfo] 0 2 none).map
        ColumnDisplayInfo.width = some 5 ∧
    claimedMergedWidth [demoZeroPadInfo, demoZeroPadInfo] 0 2 = 3 :=
  ⟨rfl, rfl⟩

theorem sum_width_default_pad (S : List ColumnDisplayInfo)
    (hpad : ∀ i ∈ S, i.padding = (1, 1)) :
    (S.map ColumnDisplayInfo.width).sum =
      (S.map ColumnDisplayInfo.content_width).sum + 2 * S.length := by
  induction S with
  | nil => rfl
  | cons a rest ih =>
    have ha := hpad a (by simp)
    have hih := ih (fun i hi => hpad i (by simp [hi]))
    simp only [List.map_cons, List.sum_cons, List.length_cons, hih,
      ColumnDisplayInfo.width, ha]
    omega

/-- C4 amended: for a colspan-k cell all of whose k spanned columns are
visible and carry the default (1,1) padding, the merged cell width that
format_row renders (content plus merged padding) equals the sum of the
k spanned column widths (content plus padding) plus (k-1) separator
characters.  For other paddings the identity fails (see the
counterexample): the code compensates each internal boundary with a
fixed three characters rather than with that boundary padding plus
one. -/
theorem C4_amended_colspan_width (infos : List ColumnDisplayInfo)
    (colIndex colspan : Nat) (align : Option CellAlignment)
    (hvis : ∀ i ∈ (infos.drop colIndex).take colspan, i.is_hidden = false)
    (hpad : ∀ i ∈ (infos.drop colIndex).take colspan, i.padding = (1, 1))
    (hk : 1 ≤ colspan) (hbound : colIndex + colspan ≤ infos.length) :
    (mergedSpanInfo infos colIndex colspan align).map ColumnDisplayInfo.width =
      some (claimedMergedWidth infos colIndex colspan) := by
  have hfilter : ((infos.drop colIndex).take colspan).filter (fun i => ¬ i.is_hidden) =
      (infos.drop colIndex).take colspan := by
    rw [List.filter_eq_self]
    intro a ha
    simp [hvis a ha]
  have hlen : ((infos.drop colIndex).take colspan).length = colspan := by
    rw [List.length_take, List.length_drop]
    omega
  rcases hS : (infos.drop colIndex).take colspan with _ | ⟨f, rest⟩
  · rw [hS] at hlen
    simp at hlen
    omega
  · have hfpad : f.padding = (1, 1) := hpad f (by rw [hS]; simp)
    rcases hL : (f :: rest).getLast? with _ | last
    · simp at hL
    · have hlast_mem : last ∈ (f :: rest) := by
        have hx : last ∈ (f :: rest).getLast? := Option.mem_def.mpr hL
        rcases List.mem_getLast?_eq_getLast hx with ⟨hne2, heq⟩
        rw [heq]
        exact List.getLast_mem hne2
      have hlpad : last.padding = (1, 1) := hpad last (by rw [hS]; exact hlast_mem)
      have hsum := sum_width_default_pad ((infos.drop colIndex).take colspan) hpad
      unfold mergedSpanInfo claimedMergedWidth
      rw [hfilter, hS]
      rw [hS] at hlen hsum
      simp only [hL, Option.map_some']
      simp only [List.map_cons, List.sum_cons, List.length_cons] at hsum hlen ⊢
      simp only [ColumnDisplayInfo.width, hfpad, hlpad] at hsum ⊢
      simp only [Option.getD_some, Option.some.injEq]
      omega

theorem C4_witness :
    (∀ i ∈ ([demoColumnInfoDefault, demoColumnInfoDefault].drop 0).take 2,
      i.is_hidden = false) ∧
    (∀ i ∈ ([demoColumnInfoDefault, demoColumnInfoDefault].drop 0).take 2,
      i.padding = (1, 1)) ∧
    1 ≤ 2 ∧ 0 + 2 ≤ [demoColumnInfoDefault, demoColumnInfoDefault].length ∧
    (mergedSpanInfo [demoColumnInfoDefault, demoColumnInfoDefault] 0 2 none).map
        ColumnDisplayInfo.width =
      some (claimedMergedWidth [demoColumnInfoDefault, demoColumnInfoDefault] 0 2) :=
  ⟨by decide, by decide, by decide, by decide,
    C4_amended_colspan_width [demoColumnInfoDefault, demoColumnInfoDefault] 0 2 none
      (by decide) (by decide) (by decide) (by decide)⟩


theorem mem_insertInfo_self (infos : DisplayInfos) (k : Nat) (v : ColumnDisplayInfo) :
    (k, v) ∈ insertInfo infos k v := by
  induction infos with
  | nil => simp [insertInfo]
  | cons e rest ih =>
    unfold insertInfo
    split_ifs with h1 h2
    · simp
    · simp
    · simp [ih]

theorem mem_insertInfo_other (infos : DisplayInfos) (k k0 : Nat)
    (v v0 : ColumnDisplayInfo) (hmem : (k0, v0) ∈ infos) (hne : k0 ≠ k) :
    (k0, v0) ∈ insertInfo infos k v := by
  induction infos with
  | nil => simp at hmem
  | cons e rest ih =>
    unfold insertInfo
    rcases List.mem_cons.mp hmem with he | ht
    · split_ifs with h1 h2
      · simp [he]
      · exfalso
        rw [← he] at h2
        exact hne h2.symm
      · simp [he]
    · split_ifs with h1 h2
      · simp [List.mem_cons.mpr (Or.inr ht)]
      · simp [ht]
      · simp [ih ht]

theorem mem_insertInfo_cases (infos : DisplayInfos) (k : Nat) (v : ColumnDisplayInfo)
    (e : Nat × ColumnDisplayInfo) (h : e ∈ insertInfo infos k v) :
    e = (k, v) ∨ e ∈ infos := by
  induction infos with
  | nil =>
    simp [insertInfo] at h
    exact Or.inl h
  | cons e0 rest ih =>
    unfold insertInfo at h
    split_ifs at h with h1 h2
    · rcases List.mem_cons.mp h with he | ht
      · exact Or.inl he
      · exact Or.inr ht
    · rcases List.mem_cons.mp h with he | ht
      · exact Or.inl he
      · exact Or.inr (List.mem_cons.mpr (Or.inr ht))
    · rcases List.mem_cons.mp h with he | ht
      · exact Or.inr (List.mem_cons.mpr (Or.inl he))
      · rcases ih ht with hx | hx
        · exact Or.inl hx
        · exact Or.inr (List.mem_cons.mpr (Or.inr hx))

theorem containsKey_eq_false_iff (infos : DisplayInfos) (k : Nat) :
    containsKey infos k = false ↔ ∀ e ∈ infos, e.1 ≠ k := by
  unfold containsKey
  rw [List.any_eq_false]
  constructor
  · intro h e he
    have := h e he
    simpa using this
  · intro h e he
    simpa using h e he

theorem containsKey_insertInfo_false (infos : DisplayInfos) (k k0 : Nat)
    (v : ColumnDisplayInfo) (h : containsKey infos k0 = false) (hne : k0 ≠ k) :
    containsKey (insertInfo infos k v) k0 = false := by
  rw [containsKey_eq_false_iff] at h ⊢
  intro e he
  rcases mem_insertInfo_cases infos k v e he with h1 | h1
  · rw [h1]
    exact fun hx => hne hx.symm
  · exact h e h1

theorem containsKey_true_of_mem (infos : DisplayInfos) (k : Nat) (v : ColumnDisplayInfo)
    (h : (k, v) ∈ infos) : containsKey infos k = true := by
  unfold containsKey
  rw [List.any_eq_true]
  exact ⟨(k, v), h, by simp⟩

theorem foldl_step_preserves (t : Table) (mcw : List Nat) (vis : Nat) :
    ∀ (cols : List Column) (infos : DisplayInfos) (k : Nat) (v : ColumnDisplayInfo),
      (k, v) ∈ infos →
      (k, v) ∈ cols.foldl (disabledArrangeStep t mcw vis) infos := by
  intro cols
  induction cols with
  | nil => intro infos k v h; exact h
  | cons c rest ih =>
    intro infos k v h
    simp only [List.foldl_cons]
    apply ih
    unfold disabledArrangeStep
    split_ifs with h1
    · exact h
    · apply mem_insertInfo_other _ _ _ _ _ h
      intro hk
      rw [hk] at h
      rw [containsKey_true_of_mem infos c.index v h] at h1
      simp at h1

theorem foldl_step_mem (t : Table) :
    ∀ (cols : List Column) (infos : DisplayInfos) (col : Column),
      col ∈ cols →
      containsKey infos col.index = false →
      (∀ c ∈ cols, c.index ≠ col.index ∨ c = col) →
      (col.index, ColumnDisplayInfo.new col (disabledWidth t col)) ∈
        cols.foldl
          (disabledArrangeStep t (t.columns.map Column.max_content_width)
            (count_visible_columns t.columns))
          infos := by
  intro cols
  induction cols with
  | nil => intro infos col hmem; simp at hmem
  | cons c rest ih =>
    intro infos col hmem hkey huniq
    simp only [List.foldl_cons]
    by_cases hc : c = col
    · subst hc
      have hstep : disabledArrangeStep t (t.columns.map Column.max_content_width)
          (count_visible_columns t.columns) infos c =
          insertInfo infos c.index (ColumnDisplayInfo.new c (disabledWidth t c)) := by
        unfold disabledArrangeStep disabledWidth
        rw [hkey]
        simp
      rw [hstep]
      exact foldl_step_preserves t _ _ rest _ _ _ (mem_insertInfo_self _ _ _)
    · rcases List.mem_cons.mp hmem with he | ht
      · exact absurd he.symm hc
      · apply ih _ col ht _ (fun d hd => huniq d (List.mem_cons.mpr (Or.inr hd)))
        have hcne : c.index ≠ col.index := by
          rcases huniq c (List.mem_cons.mpr (Or.inl rfl)) with hne | heq
          · exact hne
          · exact absurd heq hc
        unfold disabledArrangeStep
        split_ifs with h1
        · exact hkey
        · exact containsKey_insertInfo_false infos c.index col.index _ hkey
            (fun hx => hcne hx.symm)

/-- C7: when the table width cannot be determined (no explicit width and
no terminal, modelled by a none table_width), arrange_content
(arrangement/mod.rs lines 29-36) silently falls back to the disabled
arrangement for every arrangement mode and every dynamic arranger: the
result does not depend on the selected mode at all, and every column
whose constraint did not already fix it resolves to its max content
width, reduced to an upper-boundary cap when that cap is smaller
(disabledWidth), clamped to a minimum content width of one; no error is
raised (the arrangement is a total function). -/
theorem C7_disabled_fallback (t : Table) (h : t.table_width = none) :
    (∀ (dyn dyn2 : Table → DisplayInfos → Nat → DisplayInfos)
        (m m2 : ContentArrangement),
      arrangeContent dyn { t with arrangement := m } =
        arrangeContent dyn2 { t with arrangement := m2 }) ∧
    (∀ (dyn : Table → DisplayInfos → Nat → DisplayInfos), ∀ col ∈ t.columns,
      containsKey (constraintPhase t) col.index = false →
      (∀ c ∈ t.columns, c.index ≠ col.index ∨ c = col) →
      ColumnDisplayInfo.new col (disabledWidth t col) ∈ arrangeContent dyn t) := by
  have hwn : ∀ (dyn : Table → DisplayInfos → Nat → DisplayInfos) (t2 : Table),
      t2.table_width = none →
      arrangeContent dyn t2 =
        (disabledArrange t2 (constraintPhase t2) (count_visible_columns t2.columns)
          (t2.columns.map Column.max_content_width)).map Prod.snd := by
    intro dyn t2 h2
    unfold arrangeContent
    rw [h2]
  constructor
  · intro dyn dyn2 m m2
    rw [hwn dyn { t with arrangement := m } h, hwn dyn2 { t with arrangement := m2 } h]
    rfl
  · intro dyn col hcol hkey huniq
    rw [hwn dyn t h]
    apply List.mem_map.mpr
    refine ⟨(col.index, ColumnDisplayInfo.new col (disabledWidth t col)), ?_, rfl⟩
    exact foldl_step_mem t t.columns (constraintPhase t) col hcol hkey huniq


theorem C7_witness :
    demoTable1.table_width = none ∧
    ((∀ (dyn dyn2 : Table → DisplayInfos → Nat → DisplayInfos)
        (m m2 : ContentArrangement),
      arrangeContent dyn { demoTable1 with arrangement := m } =
        arrangeContent dyn2 { demoTable1 with arrangement := m2 }) ∧
    (∀ (dyn : Table → DisplayInfos → Nat → DisplayInfos), ∀ col ∈ demoTable1.columns,
      containsKey (constraintPhase demoTable1) col.index = false →
      (∀ c ∈ demoTable1.columns, c.index ≠ col.index ∨ c = col) →
      ColumnDisplayInfo.new col (disabledWidth demoTable1 col) ∈
        arrangeContent dyn demoTable1)) :=
  ⟨rfl, C7_disabled_fallback demoTable1 rfl⟩


/-- C1 counterexample: four renders of the real pipeline in Disabled
mode refute the uniform-line-width claim as stated, exhibiting one
violation per hypothesis of the amended theorem.  (a) demoTable2, a
table with a colspan-2 rowspan-2 cell over a hidden column, renders
lines of widths 5,5,5,6,5: the blank filler under the rowspan
over-counts the hidden column's separator (content_format.rs lines
387-396).  (b) demoTable1, a style drawing no vertical component at
all, renders widths 6,7,6: content rows receive a one-blank separator
per column boundary while pure horizontal lines do not.  (c)
demoMaxHeightTable, a row capped at one line, renders widths 5,7,5: the
truncation indicator is appended after the line was split to the column
width (content_format.rs lines 190-196).  (d) demoWideTable, a
two-column-wide character in a MaxWidth(1) column measured with the
cwDemo width oracle, renders widths 5,6,5: the oversized single-grapheme
fragment exceeds the column width. -/
theorem C1_counterexample :
    ((∃ row ∈ demoTable2.rows, ∃ cell ∈ row.cells, cell.colspanVal ≠ 1) ∧
     renderLines (dynamicArrange cwOne) smartPadContent cwOne demoTable2 =
       [['+', '-', '-', '-', '+'],
        ['|', ' ', 'x', ' ', '|'],
        ['|', ' ', ' ', ' ', '|'],
        ['|', ' ', ' ', ' ', ' ', '|'],
        ['+', '-', '-', '-', '+']] ∧
     ∃ l1 ∈ renderLines (dynamicArrange cwOne) smartPadContent cwOne demoTable2,
       ∃ l2 ∈ renderLines (dynamicArrange cwOne) smartPadContent cwOne demoTable2,
         measure_text_width cwOne l1 ≠ measure_text_width cwOne l2) ∧
    (should_draw_vertical_lines demoTable1 = false ∧
     (renderLines (dynamicArrange cwOne) smartPadContent cwOne demoTable1).map
       (measure_text_width cwOne) = [6, 7, 6] ∧
     ∃ l1 ∈ renderLines (dynamicArrange cwOne) smartPadContent cwOne demoTable1,
       ∃ l2 ∈ renderLines (dynamicArrange cwOne) smartPadContent cwOne demoTable1,
         measure_text_width cwOne l1 ≠ measure_text_width cwOne l2) ∧
    ((∃ row ∈ demoMaxHeightTable.rows, row.max_height = some 1) ∧
     should_draw_vertical_lines demoMaxHeightTable = true ∧
     (renderLines (dynamicArrange cwOne) smartPadContent cwOne demoMaxHeightTable).map
       (measure_text_width cwOne) = [5, 7, 5] ∧
     ∃ l1 ∈ renderLines (dynamicArrange cwOne) smartPadContent cwOne demoMaxHeightTable,
       ∃ l2 ∈ renderLines (dynamicArrange cwOne) smartPadContent cwOne demoMaxHeightTable,
         measure_text_width cwOne l1 ≠ measure_text_width cwOne l2) ∧
    (cwDemo '中' = 2 ∧
     should_draw_vertical_lines demoWideTable = true ∧
     (renderLines (dynamicArrange cwDemo) smartPadContent cwDemo demoWideTable).map
       (measure_text_width cwDemo) = [5, 6, 5] ∧
     ∃ l1 ∈ renderLines (dynamicArrange cwDemo) smartPadContent cwDemo demoWideTable,
       ∃ l2 ∈ renderLines (dynamicArrange cwDemo) smartPadContent cwDemo demoWideTable,
         measure_text_width cwDemo l1 ≠ measure_text_width cwDemo l2) := by
  exact ⟨⟨by decide, by decide, by decide⟩, ⟨by decide, by decide, by decide⟩,
    ⟨by decide, by decide, by decide, by decide⟩,
    ⟨by decide, by decide, by decide, by decide⟩⟩


theorem measure_spaces (cw : Char → Nat) (hcw : ∀ c, cw c = 1) (n : Nat) :
    measure_text_width cw (spaces n) = n := by
  induction n with
  | zero => rfl
  | succ k ih =>
    simp only [spaces, List.replicate_succ] at ih ⊢
    rw [measure_cons, ih, hcw]
    omega

theorem measure_repeatStr (cw : Char → Nat) (s : Str) (n : Nat) :
    measure_text_width cw (repeatStr s n) = n * measure_text_width cw s := by
  induction n with
  | zero => simp [repeatStr, measure_text_width]
  | succ k ih =>
    simp only [repeatStr, List.replicate_succ, List.flatten_cons] at ih ⊢
    rw [measure_append, ih]
    ring

theorem measure_style_or_default (cw : Char → Nat) (hcw : ∀ c, cw c = 1)
    (t : Table) (comp : TableComponent) : measure_text_width cw (style_or_default t comp) = 1 := by
  unfold style_or_default
  cases t.style comp <;> simp [measure_single, hcw]

theorem measure_pos_ne_nil (cw : Char → Nat) (l : Str)
    (h : 1 ≤ measure_text_width cw l) : l ≠ [] := by
  intro h0
  rw [h0] at h
  simp [measure_nil] at h

theorem align_line_measure (cw : Char → Nat) (hcw : ∀ c, cw c = 1)
    (info : ColumnDisplayInfo) (cell : Cell) (line : Str)
    (h : measure_text_width cw line ≤ info.content_width) :
    measure_text_width cw (align_line cw info cell line) = info.width := by
  have key : ∀ al : CellAlignment,
      measure_text_width cw (match al with
        | CellAlignment.Left =>
          line ++ spaces (info.content_width - measure_text_width cw line)
        | CellAlignment.Right =>
          spaces (info.content_width - measure_text_width cw line) ++ line
        | CellAlignment.Center =>
          spaces ((info.content_width - measure_text_width cw line + 1) / 2) ++ line ++
            spaces ((info.content_width - measure_text_width cw line) / 2))
        = info.content_width := by
    intro al
    rcases al <;> simp only [measure_append, measure_spaces cw hcw] <;> omega
  simp only [align_line, pad_line, ColumnDisplayInfo.width, measure_append,
    measure_spaces cw hcw, key]
  omega

theorem is_occupied_nil (row col : Nat) : is_occupied [] row col = none := rfl

theorem is_col_occupied_nil (row col : Nat) :
    is_col_occupied_by_rowspan [] row col = false := rfl

theorem get_rowspan_start_nil (row col : Nat) : get_rowspan_start [] row col = none := rfl

theorem get_rowspan_start_at_row_nil (row col : Nat) :
    get_rowspan_start_at_row [] row col = none := rfl

theorem advance_row_nil (r : Nat) : advance_row [] r = [] := rfl

theorem skipOccupiedColsGo_nil (rowIndex numCols : Nat) :
    ∀ (n colIndex : Nat) (temp : List (Option (List Str))),
      skipOccupiedColsGo [] rowIndex numCols n colIndex temp = (colIndex, temp) := by
  intro n
  cases n with
  | zero => intro colIndex temp; rfl
  | succ k =>
    intro colIndex temp
    unfold skipOccupiedColsGo
    rw [if_neg]
    intro h
    rw [is_col_occupied_nil] at h
    simp at h

theorem skipOccupiedCols_nil (rowIndex numCols colIndex : Nat)
    (temp : List (Option (List Str))) :
    skipOccupiedCols [] rowIndex numCols colIndex temp = (colIndex, temp) :=
  skipOccupiedColsGo_nil rowIndex numCols _ colIndex temp

theorem skipOccupiedIdxGo_nil (rowIndex len : Nat) :
    ∀ (n col : Nat), skipOccupiedIdxGo [] rowIndex len n col = col := by
  intro n
  cases n with
  | zero => intro col; rfl
  | succ k =>
    intro col
    unfold skipOccupiedIdxGo
    rw [if_neg]
    intro h
    rw [is_col_occupied_nil] at h
    simp at h

theorem skipOccupiedIdx_nil (rowIndex len col : Nat) :
    skipOccupiedIdx [] rowIndex len col = col :=
  skipOccupiedIdxGo_nil rowIndex len _ col

theorem fragOk_le (cw : Char → Nat) (hcw : ∀ c, cw c = 1) (w : Nat) (hw : 1 ≤ w)
    (f : Str) (h : fragOk cw w f) : measure_text_width cw f ≤ w := by
  rcases h with h | ⟨c, hc, hgt⟩
  · exact h
  · rw [hcw] at hgt
    omega

theorem splitLineCore_le (cw : Char → Nat) (hcw : ∀ c, cw c = 1) (w : Nat) (hw : 1 ≤ w)
    (d : Char) (line : Str) :
    ∀ f ∈ splitLineCore cw w d line, measure_text_width cw f ≤ w := by
  intro f hf
  exact fragOk_le cw hcw w hw f
    (splitLineLoop_frags cw w d (hcw d) _ _ _ _ (Nat.zero_le _)
      (by intro g hg; cases hg) f hf)

theorem getD_set_self {α : Type} (l : List α) (i : Nat) (a d : α) (h : i < l.length) :
    (l.set i a).getD i d = a := by
  induction l generalizing i with
  | nil => simp at h
  | cons x xs ih =>
    cases i with
    | zero => rfl
    | succ n =>
      simp only [List.set_cons_succ, List.getD_cons_succ]
      exact ih n (by simpa using h)

theorem getD_set_ne {α : Type} (l : List α) (i j : Nat) (a d : α) (h : i ≠ j) :
    (l.set i a).getD j d = l.getD j d := by
  induction l generalizing i j with
  | nil => rfl
  | cons x xs ih =>
    cases i with
    | zero =>
      cases j with
      | zero => exact absurd rfl h
      | succ m => rfl
    | succ n =>
      cases j with
      | zero => rfl
      | succ m =>
        simp only [List.set_cons_succ, List.getD_cons_succ]
        exact ih n m (fun he => h (by rw [he]))

theorem getD_replicate_none {α : Type} (n i : Nat) :
    (List.replicate n (none : Option α)).getD i none = none := by
  induction n generalizing i with
  | zero => rfl
  | succ k ih =>
    cases i with
    | zero => rfl
    | succ m => simp [List.replicate_succ, ih m]

theorem getD_eq_of_get? {α : Type} (l : List α) (i : Nat) (a d : α)
    (h : l.get? i = some a) : l.getD i d = a := by
  induction l generalizing i with
  | nil => simp [List.get?] at h
  | cons x xs ih =>
    cases i with
    | zero =>
      simp only [List.get?, Option.some.injEq] at h
      subst h
      rfl
    | succ n => exact ih n (by simpa [List.get?] using h)

theorem lt_of_get?_eq_some {α : Type} (l : List α) (i : Nat) (a : α)
    (h : l.get? i = some a) : i < l.length := by
  induction l generalizing i with
  | nil => simp [List.get?] at h
  | cons x xs ih =>
    cases i with
    | zero => simp
    | succ n =>
      simp only [List.length_cons]
      exact Nat.succ_lt_succ (ih n (by simpa [List.get?] using h))

theorem mem_of_get?_eq_some {α : Type} (l : List α) (i : Nat) (a : α)
    (h : l.get? i = some a) : a ∈ l := by
  induction l generalizing i with
  | nil => simp [List.get?] at h
  | cons x xs ih =>
    cases i with
    | zero =>
      simp only [List.get?, Option.some.injEq] at h
      subst h
      exact List.mem_cons_self _ _
    | succ n => exact List.mem_cons_of_mem x (ih n (by simpa [List.get?] using h))

theorem get?_of_lt {α : Type} (l : List α) (i : Nat) (h : i < l.length) :
    ∃ a, l.get? i = some a := by
  induction l generalizing i with
  | nil => simp at h
  | cons x xs ih =>
    cases i with
    | zero => exact ⟨x, rfl⟩
    | succ n => exact ih n (by simpa using h)

theorem drop_eq_cons_of_get? {α : Type} (l : List α) (i : Nat) (a : α)
    (h : l.get? i = some a) : l.drop i = a :: l.drop (i + 1) := by
  induction l generalizing i with
  | nil => simp [List.get?] at h
  | cons x xs ih =>
    cases i with
    | zero =>
      simp only [List.get?, Option.some.injEq] at h
      subst h
      rfl
    | succ n =>
      show xs.drop n = a :: xs.drop (n + 1)
      exact ih n (by simpa [List.get?] using h)

theorem get?_eq_none_of_le {α : Type} (l : List α) (i : Nat) (h : l.length ≤ i) :
    l.get? i = none := by
  induction l generalizing i with
  | nil => cases i <;> rfl
  | cons x xs ih =>
    cases i with
    | zero => simp at h
    | succ n => exact ih n (by simpa using h)

theorem get?_eq_head?_drop {α : Type} (l : List α) (i : Nat) :
    l.get? i = (l.drop i).head? := by
  induction l generalizing i with
  | nil => cases i <;> rfl
  | cons x xs ih =>
    cases i with
    | zero => rfl
    | succ n => exact ih n

theorem foldl_pres_mem {α σ : Type} (P : σ → Prop) (Q : α → Prop) (f : σ → α → σ)
    (hstep : ∀ s a, P s → Q a → P (f s a)) :
    ∀ (l : List α), (∀ a ∈ l, Q a) → ∀ s, P s → P (l.foldl f s) := by
  intro l
  induction l with
  | nil => intro _ s hs; exact hs
  | cons a rest ih =>
    intro hl s hs
    exact ih (fun b hb => hl b (List.mem_cons_of_mem a hb)) (f s a)
      (hstep s a hs (hl a (List.mem_cons_self a rest)))

theorem infoOk_new (col : Column) (w : Nat) : infoOk (ColumnDisplayInfo.new col w) :=
  Nat.le_max_right w 1

theorem infoOk_hidden_new (col : Column) (w : Nat) :
    infoOk { ColumnDisplayInfo.new col w with is_hidden := true } :=
  Nat.le_max_right w 1

theorem infoOk_wider (i : ColumnDisplayInfo) (w : Nat) (h : infoOk i) :
    infoOk { i with content_width := i.content_width + w } := by
  unfold infoOk at h
  show 1 ≤ i.content_width + w
  omega

theorem insertInfo_infoOk (infos : DisplayInfos) (k : Nat) (v : ColumnDisplayInfo)
    (hv : infoOk v) (hpre : ∀ e ∈ infos, infoOk e.2) :
    ∀ e ∈ insertInfo infos k v, infoOk e.2 := by
  intro e he
  rcases mem_insertInfo_cases infos k v e he with h | h
  · rw [h]
    exact hv
  · exact hpre e h

theorem evaluate_infoOk (t : Table) (col : Column) (infos : DisplayInfos)
    (tw : Option Nat) (vis : Nat) (hpre : ∀ e ∈ infos, infoOk e.2) :
    ∀ e ∈ evaluate t col infos tw vis, infoOk e.2 := by
  intro e he
  unfold evaluate at he
  rcases hc : col.constraint with _ | c
  · rw [hc] at he
    exact hpre e he
  · rcases c with _ | w | mw | p | mp | _ | _ | _
    · simp only [hc] at he
      exact insertInfo_infoOk _ _ _ (infoOk_new _ _) hpre e he
    · simp only [hc] at he
      exact insertInfo_infoOk _ _ _ (infoOk_new _ _) hpre e he
    · simp only [hc] at he
      split_ifs at he with h1
      · exact insertInfo_infoOk _ _ _ (infoOk_new _ _) hpre e he
      · exact hpre e he
    · rcases tw with _ | w2
      · simp only [hc] at he
        exact hpre e he
      · simp only [hc] at he
        exact insertInfo_infoOk _ _ _ (infoOk_new _ _) hpre e he
    · rcases tw with _ | w2
      · simp only [hc] at he
        exact hpre e he
      · simp only [hc] at he
        split_ifs at he with h1
        · exact insertInfo_infoOk _ _ _ (infoOk_new _ _) hpre e he
        · exact hpre e he
    · simp only [hc] at he
      exact hpre e he
    · simp only [hc] at he
      exact hpre e he
    · simp only [hc] at he
      exact insertInfo_infoOk _ _ _ (infoOk_hidden_new _ _) hpre e he

theorem constraintPhase_infoOk (t : Table) : ∀ e ∈ constraintPhase t, infoOk e.2 := by
  unfold constraintPhase
  refine foldl_pres_mem (fun (infos : DisplayInfos) => ∀ e ∈ infos, infoOk e.2)
    (fun _ => True) _
    ?_ t.columns (fun _ _ => trivial) [] (fun e he => absurd he (List.not_mem_nil e))
  intro infos col hpre _
  by_cases hs : col.constraint.isSome
  · rw [if_pos hs]
    exact evaluate_infoOk t col infos t.table_width _ hpre
  · rw [if_neg hs]
    exact hpre

theorem disabledArrange_infoOk (t : Table) (mcw : List Nat) (vis : Nat)
    (infos : DisplayInfos) (hpre : ∀ e ∈ infos, infoOk e.2) :
    ∀ e ∈ disabledArrange t infos vis mcw, infoOk e.2 := by
  unfold disabledArrange
  refine foldl_pres_mem (fun (infos : DisplayInfos) => ∀ e ∈ infos, infoOk e.2)
    (fun _ => True) _
    ?_ t.columns (fun _ _ => trivial) infos hpre
  intro infos2 col hpre2 _
  unfold disabledArrangeStep
  split_ifs with h1
  · exact hpre2
  · exact insertInfo_infoOk _ _ _ (infoOk_new _ _) hpre2

theorem arrangeStateOk_fclaContent (st : ArrangeState) (column : Column)
    (h : ∀ e ∈ st.infos, infoOk e.2) :
    ∀ e ∈ (fclaContent st column).infos, infoOk e.2 := by
  simp only [fclaContent]
  split_ifs with h1 h2
  · exact insertInfo_infoOk _ _ _ (infoOk_new _ _) h
  · exact insertInfo_infoOk _ _ _ (infoOk_new _ _) h
  · exact h

theorem arrangeStateOk_fclaStep (t : Table) (tw vis : Nat) (st : ArrangeState)
    (column : Column) (h : ∀ e ∈ st.infos, infoOk e.2) :
    ∀ e ∈ (fclaStep t tw vis st column).infos, infoOk e.2 := by
  simp only [fclaStep]
  by_cases h1 : st.stopped = true
  · rw [if_pos h1]
    exact h
  · rw [if_neg h1]
    by_cases h2 : containsKey st.infos column.index = true
    · rw [if_pos h2]
      exact h
    · rw [if_neg h2]
      rcases hm : get_max_constraint t column.constraint tw vis with _ | mw
      · simp only [hm]
        exact arrangeStateOk_fclaContent st column h
      · simp only [hm]
        split_ifs with h3 h4
        · exact insertInfo_infoOk _ _ _ (infoOk_new _ _) h
        · exact insertInfo_infoOk _ _ _ (infoOk_new _ _) h
        · exact arrangeStateOk_fclaContent st column h

theorem arrangeStateOk_fclaLoop (t : Table) (tw vis : Nat) :
    ∀ (fuel : Nat) (st : ArrangeState), (∀ e ∈ st.infos, infoOk e.2) →
      ∀ e ∈ (fclaLoop t tw vis fuel st).infos, infoOk e.2 := by
  intro fuel
  induction fuel with
  | zero => intro st h; exact h
  | succ n ih =>
    intro st h
    simp only [fclaLoop]
    split_ifs with h1 h2 h3
    · exact h
    · exact h
    · exact h
    · refine ih _ ?_
      exact foldl_pres_mem (fun (st2 : ArrangeState) => ∀ e ∈ st2.infos, infoOk e.2)
        (fun _ => True) _ (fun s a hs _ => arrangeStateOk_fclaStep t tw vis s a hs)
        t.columns (fun _ _ => trivial) _ h

theorem find_columns_less_than_average_infoOk (t : Table) (infos : DisplayInfos)
    (tw rw vis : Nat) (h : ∀ e ∈ infos, infoOk e.2) :
    ∀ e ∈ (find_columns_less_than_average t infos tw rw vis).1, infoOk e.2 := by
  unfold find_columns_less_than_average
  exact arrangeStateOk_fclaLoop t tw vis _ _ h

theorem arrangeStateOk_elbcStep (t : Table) (tw vis : Nat) (st : ArrangeState)
    (column : Column) (h : ∀ e ∈ st.infos, infoOk e.2) :
    ∀ e ∈ (elbcStep t tw vis st column).infos, infoOk e.2 := by
  simp only [elbcStep]
  by_cases h1 : st.stopped = true
  · rw [if_pos h1]
    exact h
  · rw [if_neg h1]
    by_cases h2 : containsKey st.infos column.index = true
    · rw [if_pos h2]
      exact h
    · rw [if_neg h2]
      rcases hm : get_min_constraint t column.constraint tw vis with _ | mw
      · simp only [hm]
        exact h
      · simp only [hm]
        split_ifs with h3 h4
        · exact h
        · exact insertInfo_infoOk _ _ _ (infoOk_new _ _) h
        · exact insertInfo_infoOk _ _ _ (infoOk_new _ _) h

theorem enforce_lower_boundary_constraints_infoOk (t : Table) (infos : DisplayInfos)
    (tw rw rc vis : Nat) (h : ∀ e ∈ infos, infoOk e.2) :
    ∀ e ∈ (enforce_lower_boundary_constraints t infos tw rw rc vis).1, infoOk e.2 := by
  unfold enforce_lower_boundary_constraints
  exact foldl_pres_mem (fun (st2 : ArrangeState) => ∀ e ∈ st2.infos, infoOk e.2)
    (fun _ => True) _ (fun s a hs _ => arrangeStateOk_elbcStep t tw vis s a hs)
    t.columns (fun _ _ => trivial) _ h

theorem arrangeStateOk_osasStep (cw : Char → Nat) (t : Table) (st : ArrangeState)
    (column : Column) (h : ∀ e ∈ st.infos, infoOk e.2) :
    ∀ e ∈ (osasStep cw t st column).infos, infoOk e.2 := by
  simp only [osasStep]
  split_ifs with h1 h2 h3 h4
  · exact h
  · exact h
  · exact insertInfo_infoOk _ _ _ (infoOk_new _ _) h
  · exact insertInfo_infoOk _ _ _ (infoOk_new _ _) h
  · exact h

theorem optimize_space_after_split_infoOk (cw : Char → Nat) (t : Table)
    (infos : DisplayInfos) (rw rc : Nat) (h : ∀ e ∈ infos, infoOk e.2) :
    ∀ e ∈ (optimize_space_after_split cw t infos rw rc).1, infoOk e.2 := by
  unfold optimize_space_after_split
  have key : ∀ (fuel : Nat) (st : ArrangeState), (∀ e ∈ st.infos, infoOk e.2) →
      ∀ e ∈ (osasLoop cw t fuel st).infos, infoOk e.2 := by
    intro fuel
    induction fuel with
    | zero => intro st hst; exact hst
    | succ n ih =>
      intro st hst
      simp only [osasLoop]
      split_ifs with h1
      · exact hst
      · refine ih _ ?_
        exact foldl_pres_mem (fun (st2 : ArrangeState) => ∀ e ∈ st2.infos, infoOk e.2)
          (fun _ => True) _ (fun s a hs _ => arrangeStateOk_osasStep cw t s a hs)
          t.columns (fun _ _ => trivial) _ hst
  exact key _ _ h

theorem use_full_width_infoOk (infos : DisplayInfos) (rw : Nat)
    (h : ∀ e ∈ infos, infoOk e.2) : ∀ e ∈ use_full_width infos rw, infoOk e.2 := by
  simp only [use_full_width]
  split_ifs with h1
  · exact h
  · refine foldl_pres_mem
      (fun (st : DisplayInfos × Nat) => ∀ e ∈ st.1, infoOk e.2)
      (fun (e : Nat × ColumnDisplayInfo) => infoOk e.2) _ ?_ infos h ([], _)
      (fun e he => absurd he (List.not_mem_nil e))
    intro st a hst ha
    dsimp only
    split_ifs with h2 h3
    · intro e he
      rcases List.mem_append.mp he with h4 | h4
      · exact hst e h4
      · rw [List.mem_singleton.mp h4]
        exact ha
    · intro e he
      rcases List.mem_append.mp he with h4 | h4
      · exact hst e h4
      · rw [List.mem_singleton.mp h4]
        exact infoOk_wider a.2 _ ha
    · intro e he
      rcases List.mem_append.mp he with h4 | h4
      · exact hst e h4
      · rw [List.mem_singleton.mp h4]
        exact infoOk_wider a.2 _ ha

theorem distribute_remaining_space_infoOk (columns : List Column) (infos : DisplayInfos)
    (rw rc : Nat) (h : ∀ e ∈ infos, infoOk e.2) :
    ∀ e ∈ distribute_remaining_space columns infos rw rc, infoOk e.2 := by
  simp only [distribute_remaining_space]
  refine foldl_pres_mem (fun (st : DisplayInfos × Nat) => ∀ e ∈ st.1, infoOk e.2)
    (fun _ => True) _ ?_ columns (fun _ _ => trivial) (infos, _) h
  intro st column hst _
  dsimp only
  split_ifs with h1 h2
  · exact hst
  · exact insertInfo_infoOk _ _ _ (infoOk_new _ _) hst
  · exact insertInfo_infoOk _ _ _ (infoOk_new _ _) hst

theorem dynamicArrange_infoOk (cw : Char → Nat) (t : Table) (infos : DisplayInfos)
    (tw : Nat) (h : ∀ e ∈ infos, infoOk e.2) :
    ∀ e ∈ dynamicArrange cw t infos tw, infoOk e.2 := by
  simp only [dynamicArrange]
  have h1 := find_columns_less_than_average_infoOk t infos tw
    (available_content_width t infos (count_visible_columns t.columns) tw)
    (count_visible_columns t.columns) h
  split_ifs <;>
    first
      | exact use_full_width_infoOk _ _
          (optimize_space_after_split_infoOk cw t _ _ _
            (enforce_lower_boundary_constraints_infoOk t _ tw _ _ _ h1))
      | exact optimize_space_after_split_infoOk cw t _ _ _
          (enforce_lower_boundary_constraints_infoOk t _ tw _ _ _ h1)
      | exact use_full_width_infoOk _ _
          (enforce_lower_boundary_constraints_infoOk t _ tw _ _ _ h1)
      | exact use_full_width_infoOk _ _
          (optimize_space_after_split_infoOk cw t _ _ _ h1)
      | exact enforce_lower_boundary_constraints_infoOk t _ tw _ _ _ h1
      | exact optimize_space_after_split_infoOk cw t _ _ _ h1
      | exact use_full_width_infoOk _ _ h1
      | exact h1
      | exact distribute_remaining_space_infoOk _ _ _ _
          (optimize_space_after_split_infoOk cw t _ _ _
            (enforce_lower_boundary_constraints_infoOk t _ tw _ _ _ h1))
      | exact distribute_remaining_space_infoOk _ _ _ _
          (enforce_lower_boundary_constraints_infoOk t _ tw _ _ _ h1)
      | exact distribute_remaining_space_infoOk _ _ _ _
          (optimize_space_after_split_infoOk cw t _ _ _ h1)
      | exact distribute_remaining_space_infoOk _ _ _ _ h1

theorem arrangeContent_infoOk (cw : Char → Nat) (t : Table) :
    ∀ info ∈ arrangeContent (dynamicArrange cw) t, infoOk info := by
  intro info hinfo
  unfold arrangeContent at hinfo
  have hphase := constraintPhase_infoOk t
  have hdis : ∀ e ∈ disabledArrange t (constraintPhase t) (count_visible_columns t.columns)
      (t.columns.map Column.max_content_width), infoOk e.2 :=
    disabledArrange_infoOk t _ _ _ hphase
  rcases hw : t.table_width with _ | w
  · rw [hw] at hinfo
    simp only [List.mem_map] at hinfo
    rcases hinfo with ⟨e, he, h2⟩
    rw [← h2]
    exact hdis e he
  · rw [hw] at hinfo
    rcases ha : t.arrangement with _ | _ | _ <;> rw [ha] at hinfo <;>
      simp only [List.mem_map] at hinfo <;> rcases hinfo with ⟨e, he, h2⟩ <;> rw [← h2]
    · exact hdis e he
    · exact dynamicArrange_infoOk cw t _ w hphase e he
    · exact dynamicArrange_infoOk cw t _ w hphase e he

theorem mergedSpanInfo_one (infos : List ColumnDisplayInfo) (colIndex : Nat)
    (info : ColumnDisplayInfo) (hget : infos.get? colIndex = some info)
    (hvis : info.is_hidden = false) (align : Option CellAlignment) :
    ∃ sp, mergedSpanInfo infos colIndex 1 align = some sp ∧
      sp.content_width = info.content_width ∧ sp.padding = info.padding ∧
      sp.width = info.width := by
  have hdrop := drop_eq_cons_of_get? infos colIndex info hget
  have hspanned : ((infos.drop colIndex).take 1).filter (fun i => ¬ i.is_hidden) = [info] := by
    rw [hdrop]
    simp [hvis]
  have hval : mergedSpanInfo infos colIndex 1 align = some
      { padding := info.padding, delimiter := info.delimiter,
        content_width := info.content_width,
        cell_alignment := align <|> info.cell_alignment, is_hidden := false } := by
    unfold mergedSpanInfo
    rw [hspanned]
    rfl
  exact ⟨_, hval, rfl, rfl, rfl⟩

theorem mergedSpanInfo_one_hidden (infos : List ColumnDisplayInfo) (colIndex : Nat)
    (info : ColumnDisplayInfo) (hget : infos.get? colIndex = some info)
    (hhid : info.is_hidden = true) (align : Option CellAlignment) :
    mergedSpanInfo infos colIndex 1 align = none := by
  have hdrop := drop_eq_cons_of_get? infos colIndex info hget
  have hspanned : ((infos.drop colIndex).take 1).filter (fun i => ¬ i.is_hidden) = [] := by
    rw [hdrop]
    simp [hhid]
  unfold mergedSpanInfo
  rw [hspanned]

theorem applyMaxHeight_none (cw : Char → Nat) (t : Table) (w : Nat) (row : Row)
    (h : row.max_height = none) (ls : List Str) : applyMaxHeight cw t w row ls = ls := by
  unfold applyMaxHeight
  rw [h]

theorem cellLines_bound (cw : Char → Nat) (hcw : ∀ c, cw c = 1)
    (sp : ColumnDisplayInfo) (hsp : 1 ≤ sp.content_width) (d : Char) :
    ∀ (content : List Str) (acc : List Str),
      (∀ l ∈ acc, measure_text_width cw l ≤ sp.content_width) →
      ∀ l ∈ content.foldl
        (fun acc line =>
          if sp.content_width < measure_text_width cw line then
            acc ++ split_line cw line sp d
          else acc ++ [line]) acc,
        measure_text_width cw l ≤ sp.content_width := by
  intro content
  induction content with
  | nil => intro acc hacc l hl; exact hacc l hl
  | cons line rest ih =>
    intro acc hacc l hl
    simp only [List.foldl_cons] at hl
    refine ih _ ?_ l hl
    intro l2 hl2
    by_cases hcc : sp.content_width < measure_text_width cw line
    · rw [if_pos hcc] at hl2
      rcases List.mem_append.mp hl2 with h | h
      · exact hacc l2 h
      · exact splitLineCore_le cw hcw sp.content_width hsp d line l2 h
    · rw [if_neg hcc] at hl2
      rcases List.mem_append.mp hl2 with h | h
      · exact hacc l2 h
      · rw [List.mem_singleton.mp h]
        omega

theorem processCell_inv (cw : Char → Nat) (hcw : ∀ c, cw c = 1) (t : Table)
    (infos : List ColumnDisplayInfo) (hinfos : ∀ i ∈ infos, infoOk i)
    (rowIndex : Nat) (row : Row) (hrow : row.max_height = none) (cell : Cell)
    (hc1 : cell.colspanVal = 1) (hr1 : cell.rowspanVal = 1)
    (temp : List (Option (List Str))) (cmap : List (Option Nat)) (colIndex : Nat)
    (hlen : temp.length = infos.length)
    (hT : ∀ i ls, temp.getD i none = some ls →
      ∃ info, infos.get? i = some info ∧ info.is_hidden = false ∧
        ∀ l ∈ ls, measure_text_width cw l = info.width)
    (hF : ∀ i, i < colIndex → (temp.getD i none).isSome = true ∨
      (∃ info, infos.get? i = some info ∧ info.is_hidden = true))
    (hC : ∀ i, cmap.getD i none = none ∨ cmap.getD i none = some 1) :
    ∃ temp2 cmap2 colIndex2,
      processCell cw t infos rowIndex row (temp, cmap, colIndex, []) cell =
        (temp2, cmap2, colIndex2, []) ∧
      temp2.length = infos.length ∧
      (∀ i ls, temp2.getD i none = some ls →
        ∃ info, infos.get? i = some info ∧ info.is_hidden = false ∧
          ∀ l ∈ ls, measure_text_width cw l = info.width) ∧
      (∀ i, i < colIndex2 → (temp2.getD i none).isSome = true ∨
        (∃ info, infos.get? i = some info ∧ info.is_hidden = true)) ∧
      (∀ i, cmap2.getD i none = none ∨ cmap2.getD i none = some 1) := by
  simp only [processCell, skipOccupiedCols_nil]
  rw [hc1, hr1]
  by_cases hge : infos.length ≤ colIndex
  · rw [if_pos hge]
    exact ⟨temp, cmap, colIndex, rfl, hlen, hT, hF, hC⟩
  · rw [if_neg hge]
    have hlt : colIndex < infos.length := Nat.lt_of_not_le hge
    obtain ⟨info, hgetinfo⟩ := get?_of_lt infos colIndex hlt
    have hiOk := hinfos info (mem_of_get?_eq_some _ _ _ hgetinfo)
    by_cases hhid : info.is_hidden = true
    · rw [mergedSpanInfo_one_hidden infos colIndex info hgetinfo hhid cell.alignment]
      refine ⟨temp, cmap, colIndex + 1, rfl, hlen, hT, ?_, hC⟩
      intro i hi
      by_cases hieq : i = colIndex
      · subst hieq
        exact Or.inr ⟨info, hgetinfo, hhid⟩
      · exact hF i (by omega)
    · have hvis : info.is_hidden = false := Bool.not_eq_true _ ▸ eq_false_of_ne_true hhid
      obtain ⟨sp, hsp, hspc, hspp, hspw⟩ :=
        mergedSpanInfo_one infos colIndex info hgetinfo hvis cell.alignment
      rw [hsp]
      refine ⟨_, _, _, rfl, ?_, ?_, ?_, ?_⟩
      · rw [List.length_set]
        exact hlen
      · intro i ls h
        by_cases hi : i = colIndex
        · subst hi
          rw [getD_set_self _ _ _ _ (by rw [hlen]; exact hlt)] at h
          injection h with h
          refine ⟨info, hgetinfo, hvis, ?_⟩
          intro l hl
          rw [← h] at hl
          rw [applyMaxHeight_none cw t _ row hrow] at hl
          rcases List.mem_map.mp hl with ⟨l0, hl0, hleq⟩
          have hb : measure_text_width cw l0 ≤ sp.content_width := by
            refine cellLines_bound cw hcw sp ?_ (delimiter cell sp t) cell.content [] ?_ l0 hl0
            · rw [hspc]
              exact hiOk
            · intro l2 hl2
              exact absurd hl2 (List.not_mem_nil l2)
          rw [← hleq, align_line_measure cw hcw sp cell l0 hb, hspw]
        · rw [getD_set_ne _ _ _ _ _ (fun he => hi he.symm)] at h
          exact hT i ls h
      · intro i hi
        by_cases hieq : i = colIndex
        · subst hieq
          refine Or.inl ?_
          rw [getD_set_self _ _ _ _ (by rw [hlen]; exact hlt)]
          rfl
        · rcases hF i (by omega) with h | h
          · refine Or.inl ?_
            rw [getD_set_ne _ _ _ _ _ (fun he => hieq he.symm)]
            exact h
          · exact Or.inr h
      · simp only [List.range_succ, List.range_zero, List.nil_append, List.foldl_cons,
          List.foldl_nil, Nat.add_zero]
        by_cases hcl : colIndex < cmap.length
        · rw [if_pos hcl]
          intro i
          by_cases hieq : i = colIndex
          · subst hieq
            rw [getD_set_self _ _ _ _ hcl]
            simp
          · rw [getD_set_ne _ _ _ _ _ (fun he => hieq he.symm)]
            exact hC i
        · rw [if_neg hcl]
          exact hC

theorem cellsFold_inv (cw : Char → Nat) (hcw : ∀ c, cw c = 1) (t : Table)
    (infos : List ColumnDisplayInfo) (hinfos : ∀ i ∈ infos, infoOk i)
    (rowIndex : Nat) (row : Row) (hrow : row.max_height = none) :
    ∀ (cells : List Cell), (∀ c ∈ cells, c.colspanVal = 1 ∧ c.rowspanVal = 1) →
    ∀ (temp : List (Option (List Str))) (cmap : List (Option Nat)) (colIndex : Nat),
      temp.length = infos.length →
      (∀ i ls, temp.getD i none = some ls →
        ∃ info, infos.get? i = some info ∧ info.is_hidden = false ∧
          ∀ l ∈ ls, measure_text_width cw l = info.width) →
      (∀ i, i < colIndex → (temp.getD i none).isSome = true ∨
        (∃ info, infos.get? i = some info ∧ info.is_hidden = true)) →
      (∀ i, cmap.getD i none = none ∨ cmap.getD i none = some 1) →
      ∃ temp2 cmap2 colIndex2,
        cells.foldl (processCell cw t infos rowIndex row) (temp, cmap, colIndex, []) =
          (temp2, cmap2, colIndex2, []) ∧
        temp2.length = infos.length ∧
        (∀ i ls, temp2.getD i none = some ls →
          ∃ info, infos.get? i = some info ∧ info.is_hidden = false ∧
            ∀ l ∈ ls, measure_text_width cw l = info.width) ∧
        (∀ i, i < colIndex2 → (temp2.getD i none).isSome = true ∨
          (∃ info, infos.get? i = some info ∧ info.is_hidden = true)) ∧
        (∀ i, cmap2.getD i none = none ∨ cmap2.getD i none = some 1) := by
  intro cells
  induction cells with
  | nil =>
    intro _ temp cmap colIndex h1 h2 h3 h4
    exact ⟨temp, cmap, colIndex, rfl, h1, h2, h3, h4⟩
  | cons c rest ih =>
    intro hcells temp cmap colIndex h1 h2 h3 h4
    obtain ⟨hcs1, hrs1⟩ := hcells c (List.mem_cons_self c rest)
    obtain ⟨tm2, cm2, ci2, heq, p1, p2, p3, p4⟩ :=
      processCell_inv cw hcw t infos hinfos rowIndex row hrow c hcs1 hrs1
        temp cmap colIndex h1 h2 h3 h4
    simp only [List.foldl_cons, heq]
    exact ih (fun c3 h => hcells c3 (List.mem_cons_of_mem c h)) tm2 cm2 ci2 p1 p2 p3 p4

theorem fillRemaining_inv (cw : Char → Nat) (hcw : ∀ c, cw c = 1)
    (infos : List ColumnDisplayInfo) (hinfos : ∀ i ∈ infos, infoOk i)
    (rowIndex colIndex : Nat) (temp : List (Option (List Str)))
    (hlen : temp.length = infos.length)
    (hT : ∀ i ls, temp.getD i none = some ls →
      ∃ info, infos.get? i = some info ∧ info.is_hidden = false ∧
        ∀ l ∈ ls, measure_text_width cw l = info.width)
    (hF : ∀ i, i < colIndex → (temp.getD i none).isSome = true ∨
      (∃ info, infos.get? i = some info ∧ info.is_hidden = true)) :
    (fillRemaining [] rowIndex infos colIndex temp).length = infos.length ∧
    (∀ i ls, (fillRemaining [] rowIndex infos colIndex temp).getD i none = some ls →
      ∃ info, infos.get? i = some info ∧ info.is_hidden = false ∧
        ∀ l ∈ ls, measure_text_width cw l = info.width) ∧
    (∀ j, j < infos.length →
      ((fillRemaining [] rowIndex infos colIndex temp).getD j none).isSome = true ∨
      (∃ info, infos.get? j = some info ∧ info.is_hidden = true)) := by
  have key : ∀ (idxs : List Nat) (temp : List (Option (List Str))),
      temp.length = infos.length →
      (∀ i ls, temp.getD i none = some ls →
        ∃ info, infos.get? i = some info ∧ info.is_hidden = false ∧
          ∀ l ∈ ls, measure_text_width cw l = info.width) →
      (∀ i, i < colIndex → (temp.getD i none).isSome = true ∨
        (∃ info, infos.get? i = some info ∧ info.is_hidden = true)) →
      (idxs.foldl
        (fun temp i =>
          if i < colIndex then temp
          else
            match infos.get? i with
            | none => temp
            | some info =>
              if (temp.getD i none).isNone ∧
                  ¬ is_col_occupied_by_rowspan [] rowIndex i then
                if info.is_hidden then temp else temp.set i (some [spaces info.width])
              else temp)
        temp).length = infos.length ∧
      (∀ i ls, (idxs.foldl
        (fun temp i =>
          if i < colIndex then temp
          else
            match infos.get? i with
            | none => temp
            | some info =>
              if (temp.getD i none).isNone ∧
                  ¬ is_col_occupied_by_rowspan [] rowIndex i then
                if info.is_hidden then temp else temp.set i (some [spaces info.width])
              else temp)
        temp).getD i none = some ls →
        ∃ info, infos.get? i = some info ∧ info.is_hidden = false ∧
          ∀ l ∈ ls, measure_text_width cw l = info.width) ∧
      (∀ j, ((temp.getD j none).isSome = true →
        ((idxs.foldl
          (fun temp i =>
            if i < colIndex then temp
            else
              match infos.get? i with
              | none => temp
              | some info =>
                if (temp.getD i none).isNone ∧
                    ¬ is_col_occupied_by_rowspan [] rowIndex i then
                  if info.is_hidden then temp else temp.set i (some [spaces info.width])
                else temp)
          temp).getD j none).isSome = true)) ∧
      (∀ j ∈ idxs, j < infos.length →
        ((idxs.foldl
          (fun temp i =>
            if i < colIndex then temp
            else
              match infos.get? i with
              | none => temp
              | some info =>
                if (temp.getD i none).isNone ∧
                    ¬ is_col_occupied_by_rowspan [] rowIndex i then
                  if info.is_hidden then temp else temp.set i (some [spaces info.width])
                else temp)
          temp).getD j none).isSome = true ∨
        (∃ info, infos.get? j = some info ∧ info.is_hidden = true)) := by
    intro idxs
    induction idxs with
    | nil =>
      intro temp h1 h2 h3
      refine ⟨h1, h2, fun j h => h, fun j hj => absurd hj (List.not_mem_nil j)⟩
    | cons i idxs ih =>
      intro temp h1 h2 h3
      simp only [List.foldl_cons]
      by_cases hic : i < colIndex
      · rw [if_pos hic]
        obtain ⟨q1, q2, q3, q4⟩ := ih temp h1 h2 h3
        refine ⟨q1, q2, q3, ?_⟩
        intro j hj hjlen
        rcases List.mem_cons.mp hj with rfl | hj2
        · rcases h3 j hic with h | h
          · exact Or.inl (q3 j h)
          · exact Or.inr h
        · exact q4 j hj2 hjlen
      · rw [if_neg hic]
        rcases hg : infos.get? i with _ | info
        · simp only [hg]
          obtain ⟨q1, q2, q3, q4⟩ := ih temp h1 h2 h3
          refine ⟨q1, q2, q3, ?_⟩
          intro j hj hjlen
          rcases List.mem_cons.mp hj with rfl | hj2
          · obtain ⟨a, ha⟩ := get?_of_lt infos j hjlen
            rw [ha] at hg
            cases hg
          · exact q4 j hj2 hjlen
        · simp only [hg]
          by_cases hn : (temp.getD i none).isNone = true
          · have hcond : (temp.getD i none).isNone = true ∧
                ¬ is_col_occupied_by_rowspan [] rowIndex i = true := by
              refine ⟨hn, ?_⟩
              rw [is_col_occupied_nil]
              simp
            rw [if_pos hcond]
            by_cases hhid : info.is_hidden = true
            · rw [hhid]
              simp only [if_true]
              obtain ⟨q1, q2, q3, q4⟩ := ih temp h1 h2 h3
              refine ⟨q1, q2, q3, ?_⟩
              intro j hj hjlen
              rcases List.mem_cons.mp hj with rfl | hj2
              · exact Or.inr ⟨info, hg, hhid⟩
              · exact q4 j hj2 hjlen
            · have hvis : info.is_hidden = false := by
                cases hb : info.is_hidden
                · rfl
                · exact absurd hb hhid
              rw [hvis]
              simp only [Bool.false_eq_true, if_false]
              have hilen : i < temp.length := by
                rw [h1]
                exact lt_of_get?_eq_some infos i info hg
              have h1' : (temp.set i (some [spaces info.width])).length = infos.length := by
                rw [List.length_set]
                exact h1
              have h2' : ∀ j ls, (temp.set i (some [spaces info.width])).getD j none = some ls →
                  ∃ info2, infos.get? j = some info2 ∧ info2.is_hidden = false ∧
                    ∀ l ∈ ls, measure_text_width cw l = info2.width := by
                intro j ls hjs
                by_cases hje : j = i
                · subst hje
                  rw [getD_set_self _ _ _ _ hilen] at hjs
                  injection hjs with hjs
                  refine ⟨info, hg, hvis, ?_⟩
                  intro l hl
                  rw [← hjs] at hl
                  rw [List.mem_singleton.mp hl]
                  exact measure_spaces cw hcw info.width
                · rw [getD_set_ne _ _ _ _ _ (fun he => hje he.symm)] at hjs
                  exact h2 j ls hjs
              have h3' : ∀ j, j < colIndex →
                  ((temp.set i (some [spaces info.width])).getD j none).isSome = true ∨
                  (∃ info2, infos.get? j = some info2 ∧ info2.is_hidden = true) := by
                intro j hjc
                by_cases hje : j = i
                · subst hje
                  exact absurd hjc hic
                · rcases h3 j hjc with h | h
                  · refine Or.inl ?_
                    rw [getD_set_ne _ _ _ _ _ (fun he => hje he.symm)]
                    exact h
                  · exact Or.inr h
              obtain ⟨q1, q2, q3, q4⟩ := ih _ h1' h2' h3'
              refine ⟨q1, q2, ?_, ?_⟩
              · intro j hjs
                refine q3 j ?_
                by_cases hje : j = i
                · subst hje
                  rw [getD_set_self _ _ _ _ hilen]
                  rfl
                · rw [getD_set_ne _ _ _ _ _ (fun he => hje he.symm)]
                  exact hjs
              · intro j hj hjlen
                rcases List.mem_cons.mp hj with rfl | hj2
                · refine Or.inl (q3 j ?_)
                  rw [getD_set_self _ _ _ _ hilen]
                  rfl
                · exact q4 j hj2 hjlen
          · have hcond : ¬ ((temp.getD i none).isNone = true ∧
                ¬ is_col_occupied_by_rowspan [] rowIndex i = true) := by
              intro hcc
              exact hn hcc.1
            rw [if_neg hcond]
            obtain ⟨q1, q2, q3, q4⟩ := ih temp h1 h2 h3
            refine ⟨q1, q2, q3, ?_⟩
            intro j hj hjlen
            rcases List.mem_cons.mp hj with rfl | hj2
            · refine Or.inl (q3 j ?_)
              rcases ho : temp.getD j none with _ | v
              · rw [ho] at hn
                exact absurd rfl hn
              · rfl
            · exact q4 j hj2 hjlen
  obtain ⟨q1, q2, q3, q4⟩ := key (List.range infos.length) temp hlen hT hF
  unfold fillRemaining
  exact ⟨q1, q2, fun j hj => q4 j (List.mem_range.mpr hj) hj⟩

theorem get?_of_mem {α : Type} (l : List α) (a : α) (h : a ∈ l) :
    ∃ i, l.get? i = some a := by
  induction l with
  | nil => exact absurd h (List.not_mem_nil a)
  | cons x xs ih =>
    rcases List.mem_cons.mp h with rfl | h2
    · exact ⟨0, rfl⟩
    · obtain ⟨i, hi⟩ := ih h2
      exact ⟨i + 1, by simpa [List.get?] using hi⟩

theorem filterMap_id_all_none {α : Type} :
    ∀ (l : List (Option α)), (∀ x ∈ l, x = none) → l.filterMap id = [] := by
  intro l
  induction l with
  | nil => intro _; rfl
  | cons x xs ih =>
    intro h
    rw [h x (List.mem_cons_self x xs)]
    simp only [List.filterMap_cons, id]
    exact ih (fun y hy => h y (List.mem_cons_of_mem x hy))

theorem buildLineAux_ok (cw : Char → Nat) (hcw : ∀ c, cw c = 1)
    (infos : List ColumnDisplayInfo) (hinfos : ∀ i ∈ infos, infoOk i)
    (temp : List (Option (List Str))) (cmap : List (Option Nat))
    (rowIndex lineIndex : Nat)
    (hT : ∀ i ls, temp.getD i none = some ls →
      ∃ info, infos.get? i = some info ∧ info.is_hidden = false ∧
        ∀ l ∈ ls, measure_text_width cw l = info.width)
    (hS : ∀ j, j < infos.length → (temp.getD j none).isSome = true ∨
      (∃ info, infos.get? j = some info ∧ info.is_hidden = true))
    (hC : ∀ i, cmap.getD i none = none ∨ cmap.getD i none = some 1) :
    ∀ (fuel col : Nat) (acc : List Str), infos.length - col < fuel →
      ∃ parts, buildLineAux [] infos temp cmap rowIndex lineIndex fuel col acc =
        some (acc ++ parts) ∧
        List.Forall₂ (partOk cw) parts
          ((infos.drop col).filter (fun i => ¬ i.is_hidden)) := by
  intro fuel
  induction fuel with
  | zero =>
    intro col acc h
    omega
  | succ n ih =>
    intro col acc hfuel
    by_cases hcl : col < infos.length
    · obtain ⟨info, hg⟩ := get?_of_lt infos col hcl
      have hcw1 := hinfos info (mem_of_get?_eq_some _ _ _ hg)
      have hdrop := drop_eq_cons_of_get? infos col info hg
      have hfuel2 : infos.length - (col + 1) < n := by omega
      by_cases hhid : info.is_hidden = true
      · have hfilt : (infos.drop col).filter (fun i => ¬ i.is_hidden) =
            (infos.drop (col + 1)).filter (fun i => ¬ i.is_hidden) := by
          rw [hdrop, List.filter_cons]
          simp [hhid]
        simp only [buildLineAux, hg, hhid, if_true]
        obtain ⟨parts, hrec, hfa⟩ := ih (col + 1) acc hfuel2
        refine ⟨parts, hrec, ?_⟩
        rw [hfilt]
        exact hfa
      · have hvis : info.is_hidden = false := by
          cases hb : info.is_hidden
          · rfl
          · exact absurd hb hhid
        have hfilt : (infos.drop col).filter (fun i => ¬ i.is_hidden) =
            info :: (infos.drop (col + 1)).filter (fun i => ¬ i.is_hidden) := by
          rw [hdrop, List.filter_cons]
          simp [hvis]
        have hsome : (temp.getD col none).isSome = true := by
          rcases hS col hcl with h | ⟨info2, hg2, hh2⟩
          · exact h
          · rw [hg] at hg2
            injection hg2 with hg2
            rw [← hg2] at hh2
            rw [hvis] at hh2
            cases hh2
        rcases hslot : temp.getD col none with _ | ls
        · rw [hslot] at hsome
          cases hsome
        obtain ⟨info2, hg2, _, hls⟩ := hT col ls hslot
        rw [hg] at hg2
        injection hg2 with hg2
        subst hg2
        have hcone : (cmap.getD col none).getD 1 = 1 := by
          rcases hC col with h | h <;> rw [h] <;> rfl
        have hwpos : 1 ≤ info.width := by
          unfold ColumnDisplayInfo.width
          unfold infoOk at hcw1
          omega
        simp only [buildLineAux, hg, hvis, Bool.false_eq_true, if_false,
          get_rowspan_start_nil, hslot, hcone, eq_self_iff_true, if_true]
        rcases hlsget : ls.get? lineIndex with _ | content
        · simp only [hlsget]
          obtain ⟨parts, hrec, hfa⟩ := ih (col + 1) (acc ++ [spaces info.width]) hfuel2
          refine ⟨spaces info.width :: parts, ?_, ?_⟩
          · rw [hrec]
            simp
          · rw [hfilt]
            refine List.Forall₂.cons ⟨measure_spaces cw hcw info.width, ?_⟩ hfa
            apply measure_pos_ne_nil cw
            rw [measure_spaces cw hcw]
            exact hwpos
        · simp only [hlsget]
          obtain ⟨parts, hrec, hfa⟩ := ih (col + 1) (acc ++ [content]) hfuel2
          have hcm : measure_text_width cw content = info.width :=
            hls content (mem_of_get?_eq_some ls lineIndex content hlsget)
          refine ⟨content :: parts, ?_, ?_⟩
          · rw [hrec]
            simp
          · rw [hfilt]
            refine List.Forall₂.cons ⟨hcm, ?_⟩ hfa
            apply measure_pos_ne_nil cw
            rw [hcm]
            exact hwpos
    · have hg : infos.get? col = none := get?_eq_none_of_le infos col (by omega)
      have hdrop : infos.drop col = [] := List.drop_eq_nil_of_le (by omega)
      simp only [buildLineAux, hg, hdrop]
      exact ⟨[], by simp, List.Forall₂.nil⟩

theorem buildLine_ok (cw : Char → Nat) (hcw : ∀ c, cw c = 1)
    (infos : List ColumnDisplayInfo) (hinfos : ∀ i ∈ infos, infoOk i)
    (temp : List (Option (List Str))) (cmap : List (Option Nat))
    (rowIndex lineIndex : Nat)
    (hT : ∀ i ls, temp.getD i none = some ls →
      ∃ info, infos.get? i = some info ∧ info.is_hidden = false ∧
        ∀ l ∈ ls, measure_text_width cw l = info.width)
    (hS : ∀ j, j < infos.length → (temp.getD j none).isSome = true ∨
      (∃ info, infos.get? j = some info ∧ info.is_hidden = true))
    (hC : ∀ i, cmap.getD i none = none ∨ cmap.getD i none = some 1) :
    List.Forall₂ (partOk cw) (buildLine [] infos temp cmap rowIndex lineIndex)
      (infos.filter (fun i => ¬ i.is_hidden)) := by
  obtain ⟨parts, heq, hfa⟩ :=
    buildLineAux_ok cw hcw infos hinfos temp cmap rowIndex lineIndex hT hS hC
      (infos.length + 1) 0 [] (by omega)
  unfold buildLine
  rw [heq]
  simpa using hfa

theorem format_row_ok (cw : Char → Nat) (hcw : ∀ c, cw c = 1) (t : Table)
    (infos : List ColumnDisplayInfo) (hinfos : ∀ i ∈ infos, infoOk i)
    (row : Row) (hrow : row.max_height = none)
    (hcells : ∀ c ∈ row.cells, c.colspanVal = 1 ∧ c.rowspanVal = 1) (rowIndex : Nat) :
    (format_row cw t row infos rowIndex []).2 = [] ∧
    (∀ parts ∈ (format_row cw t row infos rowIndex []).1,
      List.Forall₂ (partOk cw) parts (infos.filter (fun i => ¬ i.is_hidden))) ∧
    ((infos.filter (fun i => ¬ i.is_hidden)).length = 0 →
      (format_row cw t row infos rowIndex []).1 = []) := by
  obtain ⟨temp1, cmap1, ci1, heq, p1, p2, p3, p4⟩ :=
    cellsFold_inv cw hcw t infos hinfos rowIndex row hrow row.cells hcells
      (List.replicate infos.length none) (List.replicate infos.length none) 0
      (List.length_replicate _ _)
      (fun i ls h => by rw [getD_replicate_none] at h; cases h)
      (fun i h => absurd h (Nat.not_lt_zero i))
      (fun i => Or.inl (getD_replicate_none _ _))
  obtain ⟨f1, f2, f3⟩ := fillRemaining_inv cw hcw infos hinfos rowIndex ci1 temp1 p1 p2 p3
  simp only [format_row, heq]
  refine ⟨trivial, ?_, ?_⟩
  · intro parts hp
    rcases List.mem_map.mp hp with ⟨li, _, hpe⟩
    rw [← hpe]
    exact buildLine_ok cw hcw infos hinfos _ cmap1 rowIndex li f2 f3 p4
  · intro hlen0
    have hallnone : ∀ x ∈ fillRemaining [] rowIndex infos ci1 temp1, x = none := by
      intro x hx
      rcases x with _ | ls
      · rfl
      · exfalso
        obtain ⟨i, hi⟩ := get?_of_mem _ _ hx
        have hgd := getD_eq_of_get? _ i (some ls) none hi
        obtain ⟨info, hg, hvis, _⟩ := f2 i ls hgd
        have hmem : info ∈ infos.filter (fun i => ¬ i.is_hidden) :=
          List.mem_filter.mpr ⟨mem_of_get?_eq_some _ _ _ hg, by simp [hvis]⟩
        rw [List.length_eq_zero.mp hlen0] at hmem
        exact absurd hmem (List.not_mem_nil info)
    have hml : maxLinesOf (fillRemaining [] rowIndex infos ci1 temp1) = 0 := by
      unfold maxLinesOf
      rw [filterMap_id_all_none _ hallnone]
      rfl
    rw [hml]
    rfl

theorem format_content_ok (cw : Char → Nat) (hcw : ∀ c, cw c = 1) (t : Table)
    (infos : List ColumnDisplayInfo) (hinfos : ∀ i ∈ infos, infoOk i)
    (hspan : spanFree t) (hmh : noMaxHeight t) :
    ∀ rowLines ∈ format_content cw t infos,
      (∀ parts ∈ rowLines,
        List.Forall₂ (partOk cw) parts (infos.filter (fun i => ¬ i.is_hidden))) ∧
      ((infos.filter (fun i => ¬ i.is_hidden)).length = 0 → rowLines = []) := by
  have key : ∀ (off : Nat) (rows : List Row), (∀ r ∈ rows, r ∈ allRowsOf t) →
      ∀ (acc : List (List (List Str))) (k : Nat),
        (∀ rl ∈ acc, (∀ parts ∈ rl,
            List.Forall₂ (partOk cw) parts (infos.filter (fun i => ¬ i.is_hidden))) ∧
          ((infos.filter (fun i => ¬ i.is_hidden)).length = 0 → rl = [])) →
        ∀ rl ∈ (rows.foldl
          (fun (st : List (List (List Str)) × SpanTracker × Nat) row =>
            let actual := st.2.2 + off
            let p := format_row cw t row infos actual st.2.1
            (st.1 ++ [p.1], advance_row p.2 (actual + 1), st.2.2 + 1))
          (acc, [], k)).1,
          (∀ parts ∈ rl,
            List.Forall₂ (partOk cw) parts (infos.filter (fun i => ¬ i.is_hidden))) ∧
          ((infos.filter (fun i => ¬ i.is_hidden)).length = 0 → rl = []) := by
    intro off rows
    induction rows with
    | nil =>
      intro _ acc k hacc rl hrl
      exact hacc rl hrl
    | cons row rest ih =>
      intro hmem acc k hacc rl hrl
      have hrowAll := hmem row (List.mem_cons_self row rest)
      obtain ⟨e1, e2, e3⟩ := format_row_ok cw hcw t infos hinfos row (hmh row hrowAll)
        (hspan row hrowAll) (k + off)
      simp only [List.foldl_cons, e1, advance_row_nil] at hrl
      refine ih (fun r h => hmem r (List.mem_cons_of_mem row h)) _ (k + 1) ?_ rl hrl
      intro rl2 hrl2
      rcases List.mem_append.mp hrl2 with h | h
      · exact hacc rl2 h
      · rw [List.mem_singleton.mp h]
        exact ⟨e2, e3⟩
  intro rowLines hrl
  unfold format_content at hrl
  rcases hh : t.header with _ | header
  · simp only [hh] at hrl
    exact key _ t.rows (fun r h => by unfold allRowsOf; exact List.mem_append_right _ h)
      [] 0 (fun rl h => absurd h (List.not_mem_nil rl)) rowLines hrl
  · obtain ⟨e1, e2, e3⟩ := format_row_ok cw hcw t infos hinfos header
      (hmh header (by
        unfold allRowsOf
        rw [hh]
        exact List.mem_append_left _ (List.mem_cons_self _ _)))
      (hspan header (by
        unfold allRowsOf
        rw [hh]
        exact List.mem_append_left _ (List.mem_cons_self _ _)))
      0
    simp only [hh, e1, advance_row_nil] at hrl
    refine key _ t.rows (fun r h => by unfold allRowsOf; exact List.mem_append_right _ h)
      _ 0 ?_ rowLines hrl
    intro rl2 hrl2
    rw [List.mem_singleton.mp hrl2]
    exact ⟨e2, e3⟩

theorem embedLineGo_measure (cw : Char → Nat) (t : Table)
    (hvl : should_draw_vertical_lines t = true)
    (vertical right : Str) (hv : measure_text_width cw vertical = 1)
    (hr : measure_text_width cw right = 1) :
    ∀ (parts : List Str) (tail : List ColumnDisplayInfo),
      List.Forall₂ (partOk cw) parts tail → parts ≠ [] →
      measure_text_width cw (embedLineGo t vertical right parts) =
        (tail.map ColumnDisplayInfo.width).sum + (parts.length - 1) +
        (if should_draw_right_border t then 1 else 0) := by
  intro parts
  induction parts with
  | nil =>
    intro tail _ hne
    exact absurd rfl hne
  | cons p rest ih =>
    intro tail hfa _
    rcases List.forall₂_cons_left_iff.mp hfa with ⟨i, tail2, hpi, hrest, htl⟩
    subst htl
    cases rest with
    | nil =>
      have htl2 : tail2 = [] := List.forall₂_nil_left_iff.mp hrest
      subst htl2
      simp only [embedLineGo, measure_append]
      by_cases hrb : should_draw_right_border t <;>
        simp [hrb, hpi.1, measure_nil, hr]
    | cons q rest2 =>
      have hq : q ≠ [] := by
        rcases List.forall₂_cons_left_iff.mp hrest with ⟨j, tail3, hqj, _, _⟩
        exact hqj.2
      have hqe : q.isEmpty = false := by
        cases q with
        | nil => exact absurd rfl hq
        | cons a b => rfl
      simp only [embedLineGo, hqe, Bool.false_eq_true, if_false, hvl, if_true,
        measure_append]
      rw [ih tail2 hrest (List.cons_ne_nil q rest2)]
      have hlen2 := List.Forall₂.length_eq hrest
      simp only [List.map_cons, List.sum_cons, List.length_cons, hpi.1, hv]
      have hlen3 : 1 ≤ (q :: rest2).length := by simp
      omega

theorem embed_line_measure (cw : Char → Nat) (hcw : ∀ c, cw c = 1) (t : Table)
    (hvl : should_draw_vertical_lines t = true) (parts : List Str)
    (infos : List ColumnDisplayInfo)
    (hfa : List.Forall₂ (partOk cw) parts (infos.filter (fun i => ¬ i.is_hidden)))
    (hne : infos.filter (fun i => ¬ i.is_hidden) ≠ []) :
    measure_text_width cw (embed_line t parts) = lineWidthTarget t infos := by
  have hlen := List.Forall₂.length_eq hfa
  have hpne : parts ≠ [] := by
    intro h
    subst h
    exact hne (List.length_eq_zero.mp (by rw [← hlen]; rfl))
  simp only [embed_line, lineWidthTarget]
  rw [measure_append,
    embedLineGo_measure cw t hvl _ _ (measure_style_or_default cw hcw t _)
      (measure_style_or_default cw hcw t _) parts _ hfa hpne, hlen]
  by_cases hl : should_draw_left_border t
  · simp only [hl, if_true, measure_style_or_default cw hcw]
    omega
  · simp only [hl, Bool.false_eq_true, if_false, measure_nil]
    omega

theorem borderFold_measure (cw : Char → Nat) (inter border : Str)
    (hi : measure_text_width cw inter = 1) (hb : measure_text_width cw border = 1) :
    ∀ (l : List ColumnDisplayInfo) (s : Str × Bool),
      measure_text_width cw ((l.foldl
        (fun (st : Str × Bool) info =>
          if info.is_hidden then st
          else ((st.1 ++ (if st.2 then [] else inter)) ++ repeatStr border info.width,
            false))
        s).1) =
        measure_text_width cw s.1 +
          ((l.filter (fun i => ¬ i.is_hidden)).map ColumnDisplayInfo.width).sum +
          ((l.filter (fun i => ¬ i.is_hidden)).length - (if s.2 then 1 else 0)) := by
  intro l
  induction l with
  | nil =>
    intro s
    rcases s with ⟨str, b⟩
    cases b <;> simp
  | cons i rest ih =>
    intro s
    by_cases hhid : i.is_hidden = true
    · have hfilt : (i :: rest).filter (fun i => ¬ i.is_hidden) =
          rest.filter (fun i => ¬ i.is_hidden) := by
        rw [List.filter_cons]
        simp [hhid]
      simp only [List.foldl_cons, hhid, if_true, hfilt]
      exact ih s
    · have hvis : i.is_hidden = false := by
        cases hb2 : i.is_hidden
        · rfl
        · exact absurd hb2 hhid
      have hfilt : (i :: rest).filter (fun i => ¬ i.is_hidden) =
          i :: rest.filter (fun i => ¬ i.is_hidden) := by
        rw [List.filter_cons]
        simp [hvis]
      simp only [List.foldl_cons, hvis, Bool.false_eq_true, if_false, hfilt]
      rw [ih ((s.1 ++ (if s.2 then [] else inter)) ++ repeatStr border i.width, false)]
      simp only [measure_append, measure_repeatStr, hb, List.map_cons, List.sum_cons,
        List.length_cons]
      rcases s with ⟨str, b⟩
      cases b <;> simp [hi, measure_nil] <;> omega

theorem draw_top_border_measure (cw : Char → Nat) (hcw : ∀ c, cw c = 1) (t : Table)
    (infos : List ColumnDisplayInfo) :
    measure_text_width cw (draw_top_border t infos) = lineWidthTarget t infos := by
  simp only [draw_top_border, lineWidthTarget]
  rw [measure_append, measure_append,
    borderFold_measure cw _ _ (measure_style_or_default cw hcw t _)
      (measure_style_or_default cw hcw t _) infos ([], true)]
  by_cases hl : should_draw_left_border t <;> by_cases hr : should_draw_right_border t <;>
    simp [hl, hr, measure_style_or_default cw hcw, measure_nil]

theorem draw_bottom_border_measure (cw : Char → Nat) (hcw : ∀ c, cw c = 1) (t : Table)
    (infos : List ColumnDisplayInfo) (lastLine : Option (List Str)) :
    measure_text_width cw (draw_bottom_border t infos lastLine) =
      lineWidthTarget t infos := by
  simp only [draw_bottom_border, lineWidthTarget]
  rw [measure_append, measure_append,
    borderFold_measure cw _ _ (measure_style_or_default cw hcw t _)
      (measure_style_or_default cw hcw t _) infos ([], true)]
  by_cases hl : should_draw_left_border t <;> by_cases hr : should_draw_right_border t <;>
    simp [hl, hr, measure_style_or_default cw hcw, measure_nil]

theorem colspanWidthWalk_one (infos : List ColumnDisplayInfo) (col : Nat)
    (info : ColumnDisplayInfo) (hg : infos.get? col = some info)
    (hvis : info.is_hidden = false) :
    colspanWidthWalk infos 1 col 0 0 = info.width := by
  have hlt : col < infos.length := lt_of_get?_eq_some infos col info hg
  unfold colspanWidthWalk
  rw [(by omega : infos.length - col = (infos.length - col - 1) + 1)]
  unfold colspanWidthWalkGo
  rw [if_pos ⟨Nat.zero_lt_one, hlt⟩]
  simp only [hg, hvis, Bool.false_eq_true, if_false, Nat.zero_add, Nat.lt_irrefl]

theorem advanceColspanCols_one (infos : List ColumnDisplayInfo) (col : Nat)
    (info : ColumnDisplayInfo) (hg : infos.get? col = some info)
    (hvis : info.is_hidden = false) :
    advanceColspanCols infos 1 col 0 = col + 1 := by
  have hlt : col < infos.length := lt_of_get?_eq_some infos col info hg
  unfold advanceColspanCols
  rw [(by omega : infos.length - col = (infos.length - col - 1) + 1)]
  unfold advanceColspanColsGo
  rw [if_pos ⟨Nat.zero_lt_one, hlt⟩]
  have hgetD : (infos.getD col default).is_hidden = false := by
    rw [getD_eq_of_get? infos col info default hg]
    exact hvis
  simp only [hgetD, Bool.false_eq_true, if_false, Nat.zero_add, Nat.lt_irrefl]

theorem registerHeaderSpans_nil (t : Table) (hspan : spanFree t) :
    registerHeaderSpans t [] = [] := by
  unfold registerHeaderSpans
  rcases hh : t.header with _ | header
  · rfl
  · have hmem : header ∈ allRowsOf t := by
      unfold allRowsOf
      rw [hh]
      exact List.mem_append_left _ (List.mem_cons_self _ _)
    have hcells := hspan header hmem
    have key : ∀ (cells : List Cell), (∀ c ∈ cells, c.colspanVal = 1 ∧ c.rowspanVal = 1) →
        ∀ (k : Nat), (cells.foldl
          (fun (st : SpanTracker × Nat) cell =>
            let t2 :=
              if 1 < cell.rowspanVal then
                register_rowspan st.1 0 st.2 cell.rowspanVal cell.colspanVal none
              else st.1
            (t2, st.2 + cell.colspanVal))
          ([], k)).1 = [] := by
      intro cells
      induction cells with
      | nil => intro _ k; rfl
      | cons c rest ih =>
        intro hc k
        simp only [List.foldl_cons, (hc c (List.mem_cons_self c rest)).2, Nat.lt_irrefl,
          if_false]
        exact ih (fun c2 h => hc c2 (List.mem_cons_of_mem c h)) (k + c.colspanVal)
    exact key header.cells hcells 0

theorem registerDataRowSpans_nil (row : Row)
    (hcells : ∀ c ∈ row.cells, c.colspanVal = 1 ∧ c.rowspanVal = 1)
    (rowIndex len : Nat) : registerDataRowSpans [] row rowIndex len = [] := by
  unfold registerDataRowSpans
  have key : ∀ (cells : List Cell), (∀ c ∈ cells, c.colspanVal = 1 ∧ c.rowspanVal = 1) →
      ∀ (k : Nat), (cells.foldl
        (fun (st : SpanTracker × Nat) cell =>
          let col := skipOccupiedIdx st.1 rowIndex len st.2
          if len ≤ col then (st.1, col)
          else
            let t2 :=
              if 1 < cell.rowspanVal then
                register_rowspan st.1 rowIndex col cell.rowspanVal cell.colspanVal none
              else st.1
            (t2, col + cell.colspanVal))
        ([], k)).1 = [] := by
    intro cells
    induction cells with
    | nil => intro _ k; rfl
    | cons c rest ih =>
      intro hc k
      simp only [List.foldl_cons, skipOccupiedIdx_nil]
      by_cases hlc : len ≤ k
      · rw [if_pos hlc]
        exact ih (fun c2 h => hc c2 (List.mem_cons_of_mem c h)) k
      · rw [if_neg hlc]
        simp only [(hc c (List.mem_cons_self c rest)).2, Nat.lt_irrefl, if_false]
        exact ih (fun c2 h => hc c2 (List.mem_cons_of_mem c h)) (k + c.colspanVal)
  exact key row.cells hcells 0

theorem dhlGo_measure (cw : Char → Nat) (_hcw : ∀ c, cw c = 1) (_t : Table)
    (infos : List ColumnDisplayInfo)
    (rowIndex : Nat) (row_line : List Str) (horizontal middle : Str)
    (hhor : measure_text_width cw horizontal = 1)
    (hmid : measure_text_width cw middle = 1) :
    ∀ (fuel col visIdx : Nat) (first : Bool) (acc : Str),
      infos.length - col < fuel →
      (List.Forall₂ (partOk cw) (row_line.drop visIdx)
        ((infos.drop col).filter (fun i => ¬ i.is_hidden)) ∨
        row_line.length ≤ visIdx) →
      ∃ res, dhlGo [] infos rowIndex row_line horizontal middle fuel col visIdx first acc =
          some res ∧
        measure_text_width cw res = measure_text_width cw acc +
          (((infos.drop col).filter (fun i => ¬ i.is_hidden)).map
            ColumnDisplayInfo.width).sum +
          (((infos.drop col).filter (fun i => ¬ i.is_hidden)).length -
            (if first then 1 else 0)) := by
  intro fuel
  induction fuel with
  | zero =>
    intro col visIdx first acc h _
    omega
  | succ n ih =>
    intro col visIdx first acc hfuel hcase
    by_cases hcl : col < infos.length
    · obtain ⟨info, hg⟩ := get?_of_lt infos col hcl
      have hdrop := drop_eq_cons_of_get? infos col info hg
      by_cases hhid : info.is_hidden = true
      · have hfilt : (infos.drop col).filter (fun i => ¬ i.is_hidden) =
            (infos.drop (col + 1)).filter (fun i => ¬ i.is_hidden) := by
          rw [hdrop, List.filter_cons]
          simp [hhid]
        simp only [dhlGo, hg, hhid, if_true]
        obtain ⟨res, hres, hmes⟩ := ih (col + 1) visIdx first acc (by omega)
          (by rw [← hfilt]; exact hcase)
        refine ⟨res, hres, ?_⟩
        rw [hmes, hfilt]
      · have hvis : info.is_hidden = false := by
          cases hb : info.is_hidden
          · rfl
          · exact absurd hb hhid
        have hfilt : (infos.drop col).filter (fun i => ¬ i.is_hidden) =
            info :: (infos.drop (col + 1)).filter (fun i => ¬ i.is_hidden) := by
          rw [hdrop, List.filter_cons]
          simp [hvis]
        rcases hcase with hfa | hle
        · rw [hfilt] at hfa
          rcases List.forall₂_cons_right_iff.mp hfa with ⟨part, rest, hpi, hrest, hdl⟩
          have hgl : row_line.get? visIdx = some part := by
            rw [get?_eq_head?_drop, hdl]
            rfl
          have hpe : part.isEmpty = false := by
            cases part with
            | nil => exact absurd rfl hpi.2
            | cons a b => rfl
          have hdl2 : row_line.drop (visIdx + 1) = rest := by
            have hd := drop_eq_cons_of_get? row_line visIdx part hgl
            rw [hdl] at hd
            injection hd with hx1 hx2
            exact hx2.symm
          have htw2 : ((row_line.drop (visIdx + 1)).takeWhile List.isEmpty).length = 0 := by
            rw [hdl2]
            cases rest with
            | nil => rfl
            | cons q rest2 =>
              rcases List.forall₂_cons_left_iff.mp hrest with ⟨j, u2, hqj, _, _⟩
              have hqe : q.isEmpty = false := by
                cases q with
                | nil => exact absurd rfl hqj.2
                | cons a b => rfl
              simp [List.takeWhile_cons, hqe]
          simp only [dhlGo, hg, hvis, Bool.false_eq_true, if_false,
            get_rowspan_start_at_row_nil, hgl, hpe, htw2, Nat.add_zero, Nat.sub_self]
          rw [colspanWidthWalk_one infos col info hg hvis,
            advanceColspanCols_one infos col info hg hvis]
          obtain ⟨res, hres, hmes⟩ := ih (col + 1) (visIdx + 1) false
            ((if first then acc else acc ++ middle) ++
              repeatStr horizontal (info.width + 0))
            (by omega) (Or.inl (by rw [hdl2]; exact hrest))
          refine ⟨res, hres, ?_⟩
          rw [hmes, hfilt]
          simp only [List.map_cons, List.sum_cons, measure_append, measure_repeatStr,
            hhor, Nat.add_zero, Nat.mul_one, List.length_cons]
          cases first <;> simp [measure_append, hmid] <;> omega
        · have hgl : row_line.get? visIdx = none := get?_eq_none_of_le row_line visIdx hle
          simp only [dhlGo, hg, hvis, Bool.false_eq_true, if_false,
            get_rowspan_start_at_row_nil, hgl]
          obtain ⟨res, hres, hmes⟩ := ih (col + 1) (visIdx + 1) false
            ((if first then acc else acc ++ middle) ++ repeatStr horizontal info.width)
            (by omega) (Or.inr (by omega))
          refine ⟨res, hres, ?_⟩
          rw [hmes, hfilt]
          simp only [List.map_cons, List.sum_cons, measure_append, measure_repeatStr,
            hhor, Nat.mul_one, List.length_cons]
          cases first <;> simp [measure_append, hmid] <;> omega
    · have hg : infos.get? col = none := get?_eq_none_of_le infos col (by omega)
      have hdrop : infos.drop col = [] := List.drop_eq_nil_of_le (by omega)
      simp only [dhlGo, hg, hdrop]
      refine ⟨acc, rfl, ?_⟩
      cases first <;> simp

theorem draw_horizontal_lines_measure (cw : Char → Nat) (hcw : ∀ c, cw c = 1)
    (t : Table) (infos : List ColumnDisplayInfo)
    (header : Bool) (rowIndex : Nat) (row_line : List Str)
    (hcase : List.Forall₂ (partOk cw) row_line
      (infos.filter (fun i => ¬ i.is_hidden)) ∨ row_line = []) :
    measure_text_width cw (draw_horizontal_lines t infos header rowIndex [] row_line) =
      lineWidthTarget t infos := by
  have hhm : measure_text_width cw
      (if header then style_or_default t TableComponent.HeaderLines
       else style_or_default t TableComponent.HorizontalLines) = 1 := by
    cases header <;> simp [measure_style_or_default cw hcw]
  have hmm : measure_text_width cw
      (if header then style_or_default t TableComponent.MiddleHeaderIntersections
       else style_or_default t TableComponent.MiddleIntersections) = 1 := by
    cases header <;> simp [measure_style_or_default cw hcw]
  have hlm : measure_text_width cw
      (if header then style_or_default t TableComponent.LeftHeaderIntersection
       else style_or_default t TableComponent.LeftBorderIntersections) = 1 := by
    cases header <;> simp [measure_style_or_default cw hcw]
  have hrm : measure_text_width cw
      (if header then style_or_default t TableComponent.RightHeaderIntersection
       else style_or_default t TableComponent.RightBorderIntersections) = 1 := by
    cases header <;> simp [measure_style_or_default cw hcw]
  obtain ⟨res, hres, hmes⟩ := dhlGo_measure cw hcw t infos rowIndex row_line
    _ _ hhm hmm (infos.length + 1) 0 0 true [] (by omega)
    (by
      rcases hcase with h | h
      · exact Or.inl (by simpa using h)
      · exact Or.inr (by rw [h]; exact Nat.zero_le 0))
  simp only [draw_horizontal_lines, lineWidthTarget, hres, Option.getD_some,
    measure_append]
  rw [hmes]
  simp only [measure_nil, List.drop_zero, if_true, Nat.zero_add]
  by_cases hl : should_draw_left_border t <;> by_cases hr : should_draw_right_border t <;>
    simp [hl, hr, hlm, hrm, measure_nil]

theorem drawRowsGo_measure (cw : Char → Nat) (hcw : ∀ c, cw c = 1) (t : Table)
    (infos : List ColumnDisplayInfo)
    (hvl : should_draw_vertical_lines t = true) (hspan : spanFree t)
    (header_rows : Nat) :
    ∀ (rows : List (List (List Str))),
      (∀ rl ∈ rows, (∀ parts ∈ rl,
          List.Forall₂ (partOk cw) parts (infos.filter (fun i => ¬ i.is_hidden))) ∧
        ((infos.filter (fun i => ¬ i.is_hidden)).length = 0 → rl = [])) →
      ∀ (ri : Nat) (acc : List Str),
        (∀ l ∈ acc, measure_text_width cw l = lineWidthTarget t infos) →
        ∀ l ∈ drawRowsGo t infos header_rows rows ri [] acc,
          measure_text_width cw l = lineWidthTarget t infos := by
  intro rows
  induction rows with
  | nil =>
    intro _ ri acc hacc l hl
    exact hacc l hl
  | cons rl rest ih =>
    intro hrows ri acc hacc l hl
    obtain ⟨hrl1, hrl2⟩ := hrows rl (List.mem_cons_self rl rest)
    have hrest : ∀ r ∈ rest, (∀ parts ∈ r,
        List.Forall₂ (partOk cw) parts (infos.filter (fun i => ¬ i.is_hidden))) ∧
        ((infos.filter (fun i => ¬ i.is_hidden)).length = 0 → r = []) :=
      fun r h => hrows r (List.mem_cons_of_mem rl h)
    have hacc1 : ∀ l2 ∈ acc ++ rl.map (embed_line t),
        measure_text_width cw l2 = lineWidthTarget t infos := by
      intro l2 hl2
      rcases List.mem_append.mp hl2 with h | h
      · exact hacc l2 h
      · rcases List.mem_map.mp h with ⟨parts, hparts, hpe⟩
        by_cases hlen0 : (infos.filter (fun i => ¬ i.is_hidden)).length = 0
        · rw [hrl2 hlen0] at hparts
          exact absurd hparts (List.not_mem_nil parts)
        · rw [← hpe]
          exact embed_line_measure cw hcw t hvl parts infos (hrl1 parts hparts)
            (fun he => hlen0 (by rw [he]; rfl))
    have hdhl : ∀ (hdr : Bool) (ri2 : Nat), measure_text_width cw
        (draw_horizontal_lines t infos hdr ri2 [] ((rl.head?).getD [])) =
        lineWidthTarget t infos := by
      intro hdr ri2
      rcases hh : rl.head? with _ | parts0
      · exact draw_horizontal_lines_measure cw hcw t infos hdr ri2 [] (Or.inr rfl)
      · have hp0 : parts0 ∈ rl := by
          cases rl with
          | nil => cases hh
          | cons p r =>
            injection hh with hh
            rw [← hh]
            exact List.mem_cons_self p r
        exact draw_horizontal_lines_measure cw hcw t infos hdr ri2 parts0
          (Or.inl (hrl1 parts0 hp0))
    simp only [drawRowsGo] at hl
    by_cases hhead : ri = 0 ∧ t.header.isSome = true
    · rw [if_pos hhead, registerHeaderSpans_nil t hspan, advance_row_nil] at hl
      by_cases hsd : should_draw_header t = true
      · rw [if_pos hsd] at hl
        refine ih hrest (ri + 1) _ ?_ l hl
        intro l2 hl2
        rcases List.mem_append.mp hl2 with h | h
        · exact hacc1 l2 h
        · rw [List.mem_singleton.mp h]
          exact hdhl true 0
      · rw [if_neg hsd] at hl
        exact ih hrest (ri + 1) _ hacc1 l hl
    · rw [if_neg hhead] at hl
      rcases hgr : t.rows.get? (if ri < header_rows then ri else ri - header_rows)
        with _ | data_row
      · simp only [hgr, advance_row_nil] at hl
        by_cases hho : ¬ rest.isEmpty = true ∧ should_draw_horizontal_lines t = true
        · rw [if_pos hho] at hl
          refine ih hrest (ri + 1) _ ?_ l hl
          intro l2 hl2
          rcases List.mem_append.mp hl2 with h | h
          · exact hacc1 l2 h
          · rw [List.mem_singleton.mp h]
            exact hdhl false _
        · rw [if_neg hho] at hl
          exact ih hrest (ri + 1) _ hacc1 l hl
      · have hdmem : data_row ∈ allRowsOf t := by
          unfold allRowsOf
          exact List.mem_append_right _ (mem_of_get?_eq_some _ _ _ hgr)
        simp only [hgr, registerDataRowSpans_nil data_row (hspan data_row hdmem),
          advance_row_nil] at hl
        by_cases hho : ¬ rest.isEmpty = true ∧ should_draw_horizontal_lines t = true
        · rw [if_pos hho] at hl
          refine ih hrest (ri + 1) _ ?_ l hl
          intro l2 hl2
          rcases List.mem_append.mp hl2 with h | h
          · exact hacc1 l2 h
          · rw [List.mem_singleton.mp h]
            exact hdhl false _
        · rw [if_neg hho] at hl
          exact ih hrest (ri + 1) _ hacc1 l hl

theorem draw_borders_measure (cw : Char → Nat) (hcw : ∀ c, cw c = 1) (t : Table)
    (infos : List ColumnDisplayInfo)
    (hvl : should_draw_vertical_lines t = true) (hspan : spanFree t)
    (rows : List (List (List Str)))
    (hrows : ∀ rl ∈ rows, (∀ parts ∈ rl,
        List.Forall₂ (partOk cw) parts (infos.filter (fun i => ¬ i.is_hidden))) ∧
      ((infos.filter (fun i => ¬ i.is_hidden)).length = 0 → rl = [])) :
    ∀ l ∈ draw_borders t rows infos,
      measure_text_width cw l = lineWidthTarget t infos := by
  intro l hl
  simp only [draw_borders] at hl
  rcases List.mem_append.mp hl with h | h
  · rcases List.mem_append.mp h with h2 | h2
    · have hle : l = draw_top_border t infos := by
        by_cases hst : should_draw_top_border t = true
        · rw [if_pos hst] at h2
          exact List.mem_singleton.mp h2
        · rw [if_neg hst] at h2
          exact absurd h2 (List.not_mem_nil l)
      rw [hle]
      exact draw_top_border_measure cw hcw t infos
    · exact drawRowsGo_measure cw hcw t infos hvl hspan _ rows hrows 0 []
        (fun l2 hl2 => absurd hl2 (List.not_mem_nil l2)) l h2
  · have hle : l = draw_bottom_border t infos ((rows.getLast?).bind (fun r => r.head?)) := by
      by_cases hsb : should_draw_bottom_border t = true
      · rw [if_pos hsb] at h
        exact List.mem_singleton.mp h
      · rw [if_neg hsb] at h
        exact absurd h (List.not_mem_nil l)
    rw [hle]
    exact draw_bottom_border_measure cw hcw t infos _

theorem getD_mem {α : Type} (l : List α) (i : Nat) (d : α) (h : i < l.length) :
    l.getD i d ∈ l := by
  induction l generalizing i with
  | nil => simp at h
  | cons x xs ih =>
    cases i with
    | zero => exact List.mem_cons_self x xs
    | succ n => exact List.mem_cons_of_mem x (ih n (by simpa using h))

theorem mem_of_mem_set {α : Type} (l : List α) (i : Nat) (a x : α)
    (h : x ∈ l.set i a) : x = a ∨ x ∈ l := by
  induction l generalizing i with
  | nil => simp at h
  | cons y ys ih =>
    cases i with
    | zero =>
      rcases List.mem_cons.mp h with rfl | h2
      · exact Or.inl rfl
      · exact Or.inr (List.mem_cons_of_mem y h2)
    | succ n =>
      rcases List.mem_cons.mp h with rfl | h2
      · exact Or.inr (List.mem_cons_self x ys)
      · rcases ih n h2 with h3 | h3
        · exact Or.inl h3
        · exact Or.inr (List.mem_cons_of_mem y h3)

theorem forall₂_getD {α β : Type} (R : α → β → Prop) (l1 : List α) (l2 : List β)
    (h : List.Forall₂ R l1 l2) :
    ∀ (i : Nat) (d1 : α) (d2 : β), i < l1.length → R (l1.getD i d1) (l2.getD i d2) := by
  induction h with
  | nil =>
    intro i d1 d2 hi
    simp at hi
  | cons hab htail ih =>
    intro i d1 d2 hi
    cases i with
    | zero => exact hab
    | succ n =>
      simp only [List.getD_cons_succ]
      exact ih n d1 d2 (by simpa using hi)

theorem forall₂_set_of_rel {α β : Type} (R : α → β → Prop) (l1 : List α) (l2 : List β)
    (h : List.Forall₂ R l1 l2) :
    ∀ (i : Nat) (a : α) (b : β), R a b → List.Forall₂ R (l1.set i a) (l2.set i b) := by
  induction h with
  | nil =>
    intro i a b _
    exact List.Forall₂.nil
  | cons hab htail ih =>
    intro i a b hR
    cases i with
    | zero => exact List.Forall₂.cons hR htail
    | succ n =>
      simp only [List.set_cons_succ]
      exact List.Forall₂.cons hab (ih n a b hR)

theorem update_column_padding_ok (cw : Char → Nat) (hcw : ∀ c, cw c = 1)
    (content : List (List (List Str))) (vis : List ColumnDisplayInfo)
    (mpw : List (Option Nat)) (ci : Nat) (pos : CellAlignment) (need : Nat)
    (hpos : pos = CellAlignment.Left ∨ pos = CellAlignment.Right)
    (hci : ci < vis.length)
    (hvisall : ∀ i ∈ vis, i.is_hidden = false)
    (hok : ∀ i ∈ vis, infoOk i)
    (hcontent : ∀ rl ∈ content, ∀ sub ∈ rl, List.Forall₂ (partOk cw) sub vis) :
    (∀ i ∈ (update_column_padding content vis mpw ci pos need).2.1,
      i.is_hidden = false) ∧
    (∀ i ∈ (update_column_padding content vis mpw ci pos need).2.1, infoOk i) ∧
    (update_column_padding content vis mpw ci pos need).2.1.length = vis.length ∧
    (∀ rl ∈ (update_column_padding content vis mpw ci pos need).1,
      ∀ sub ∈ rl, List.Forall₂ (partOk cw) sub
        (update_column_padding content vis mpw ci pos need).2.1) := by
  have hmemci : vis.getD ci default ∈ vis := getD_mem vis ci default hci
  rcases hpos with rfl | rfl
  · by_cases hcp : can_pad_column (vis.getD ci default) CellAlignment.Left = true
    · simp only [update_column_padding]
      rw [if_neg (not_not_intro hcp)]
      refine ⟨?_, ?_, ?_, ?_⟩
      · intro i hi
        rcases mem_of_mem_set _ _ _ _ hi with rfl | h2
        · exact hvisall (vis.getD ci default) hmemci
        · exact hvisall i h2
      · intro i hi
        rcases mem_of_mem_set _ _ _ _ hi with rfl | h2
        · exact infoOk_wider (vis.getD ci default) _ (hok (vis.getD ci default) hmemci)
        · exact hok i h2
      · simp
      · intro rl hrl sub hsub
        rcases List.mem_map.mp hrl with ⟨rl0, hrl0, hrleq⟩
        rw [← hrleq] at hsub
        rcases List.mem_map.mp hsub with ⟨sub0, hsub0, hsubeq⟩
        have hfa0 := hcontent rl0 hrl0 sub0 hsub0
        have hpart := forall₂_getD (partOk cw) sub0 vis hfa0 ci [] default
          (by rw [List.Forall₂.length_eq hfa0]; exact hci)
        rw [← hsubeq]
        refine forall₂_set_of_rel (partOk cw) sub0 vis hfa0 ci _ _ ⟨?_, ?_⟩
        · rw [measure_append, measure_spaces cw hcw, hpart.1]
          show min need ((mpw.getD ci none).getD 65535) +
              ColumnDisplayInfo.width (vis.getD ci default) =
            (vis.getD ci default).content_width +
              min need ((mpw.getD ci none).getD 65535) +
              (vis.getD ci default).padding.1 + (vis.getD ci default).padding.2
          unfold ColumnDisplayInfo.width
          omega
        · intro hnil
          exact hpart.2 (List.append_eq_nil.mp hnil).2
    · simp only [update_column_padding]
      rw [if_pos hcp]
      exact ⟨hvisall, hok, rfl, hcontent⟩
  · by_cases hcp : can_pad_column (vis.getD ci default) CellAlignment.Right = true
    · simp only [update_column_padding]
      rw [if_neg (not_not_intro hcp)]
      refine ⟨?_, ?_, ?_, ?_⟩
      · intro i hi
        rcases mem_of_mem_set _ _ _ _ hi with rfl | h2
        · exact hvisall (vis.getD ci default) hmemci
        · exact hvisall i h2
      · intro i hi
        rcases mem_of_mem_set _ _ _ _ hi with rfl | h2
        · exact infoOk_wider (vis.getD ci default) _ (hok (vis.getD ci default) hmemci)
        · exact hok i h2
      · simp
      · intro rl hrl sub hsub
        rcases List.mem_map.mp hrl with ⟨rl0, hrl0, hrleq⟩
        rw [← hrleq] at hsub
        rcases List.mem_map.mp hsub with ⟨sub0, hsub0, hsubeq⟩
        have hfa0 := hcontent rl0 hrl0 sub0 hsub0
        have hpart := forall₂_getD (partOk cw) sub0 vis hfa0 ci [] default
          (by rw [List.Forall₂.length_eq hfa0]; exact hci)
        rw [← hsubeq]
        refine forall₂_set_of_rel (partOk cw) sub0 vis hfa0 ci _ _ ⟨?_, ?_⟩
        · rw [measure_append, measure_spaces cw hcw, hpart.1]
          show ColumnDisplayInfo.width (vis.getD ci default) +
              min need ((mpw.getD ci none).getD 65535) =
            (vis.getD ci default).content_width +
              min need ((mpw.getD ci none).getD 65535) +
              (vis.getD ci default).padding.1 + (vis.getD ci default).padding.2
          unfold ColumnDisplayInfo.width
          omega
        · intro hnil
          exact hpart.2 (List.append_eq_nil.mp hnil).1
    · simp only [update_column_padding]
      rw [if_pos hcp]
      exact ⟨hvisall, hok, rfl, hcontent⟩

theorem update_column_padding_pres (cw : Char → Nat) (hcw : ∀ c, cw c = 1)
    (content : List (List (List Str))) (vis : List ColumnDisplayInfo)
    (mpw : List (Option Nat)) (ci : Nat) (pos : CellAlignment) (need : Nat) (n : Nat)
    (hpos : pos = CellAlignment.Left ∨ pos = CellAlignment.Right)
    (hci : ci < n) (h : ucpOk cw n content vis) :
    ucpOk cw n (update_column_padding content vis mpw ci pos need).1
      (update_column_padding content vis mpw ci pos need).2.1 := by
  obtain ⟨ha, hb, hlen, hc, he⟩ := h
  obtain ⟨p1, p2, p3, p4⟩ := update_column_padding_ok cw hcw content vis mpw ci pos need
    hpos (by rw [hlen]; exact hci) ha hb hc
  exact ⟨p1, p2, by rw [p3, hlen], p4, fun hn => absurd hci (by omega)⟩

theorem spcStep_inv (cw : Char → Nat) (hcw : ∀ c, cw c = 1) (t : Table) (n : Nat)
    (st : SmartPadState) (ci : Nat) (hci : ci + 1 < n)
    (h : ucpOk cw n st.content st.infos) :
    ucpOk cw n (spcStep t st ci).content (spcStep t st ci).infos := by
  simp only [spcStep]
  by_cases hst : st.stopped = true
  · rw [if_pos hst]
    exact h
  · rw [if_neg hst]
    by_cases hrw : st.remaining_width = 0
    · rw [if_pos hrw]
      exact h
    · rw [if_neg hrw]
      by_cases hpn : compare_adjacent_columns t st.content st.infos ci
          (max (min st.remaining_width ((st.mpw.getD ci none).getD 65535))
            ((st.mpw.getD (ci + 1) none).getD 65535)) = 0
      · rw [if_pos hpn]
        exact h
      · rw [if_neg hpn]
        by_cases hsw : (st.infos.getD ci default).cell_alignment.getD CellAlignment.Left ≠
              CellAlignment.Left ∧
            (st.infos.getD (ci + 1) default).cell_alignment.getD CellAlignment.Left =
              CellAlignment.Right
        · simp only [if_pos hsw, if_neg (show ¬ (1 : Nat) = 0 from by decide),
            if_pos (show (0 : Nat) = 0 from rfl)]
          exact update_column_padding_pres cw hcw _ _ _ _ _ _ n (Or.inr rfl) (by omega)
            (update_column_padding_pres cw hcw _ _ _ _ _ _ n (Or.inl rfl) (by omega) h)
        · simp only [if_neg hsw, if_neg (show ¬ (1 : Nat) = 0 from by decide),
            if_pos (show (0 : Nat) = 0 from rfl)]
          exact update_column_padding_pres cw hcw _ _ _ _ _ _ n (Or.inl rfl) (by omega)
            (update_column_padding_pres cw hcw _ _ _ _ _ _ n (Or.inr rfl) (by omega) h)

theorem mergeVisible_filter (l : List ColumnDisplayInfo) :
    ∀ vis : List ColumnDisplayInfo, (∀ v ∈ vis, v.is_hidden = false) →
    vis.length = (l.filter (fun i => ¬ i.is_hidden)).length →
    (mergeVisible l vis).filter (fun i => ¬ i.is_hidden) = vis := by
  induction l with
  | nil =>
    intro vis hvis hlen
    cases vis with
    | nil => rfl
    | cons v vr => simp at hlen
  | cons info rest ih =>
    intro vis hvis hlen
    by_cases hh : info.is_hidden = true
    · have hfilt : (info :: rest).filter (fun i => ¬ i.is_hidden) =
          rest.filter (fun i => ¬ i.is_hidden) := by
        rw [List.filter_cons]
        simp [hh]
      rw [hfilt] at hlen
      have hm2 : (info :: mergeVisible rest vis).filter (fun i => ¬ i.is_hidden) =
          (mergeVisible rest vis).filter (fun i => ¬ i.is_hidden) := by
        rw [List.filter_cons]
        simp [hh]
      simp only [mergeVisible, if_pos hh, hm2]
      exact ih vis hvis hlen
    · have hv : info.is_hidden = false := by
        cases hb : info.is_hidden
        · rfl
        · exact absurd hb hh
      have hfilt : (info :: rest).filter (fun i => ¬ i.is_hidden) =
          info :: rest.filter (fun i => ¬ i.is_hidden) := by
        rw [List.filter_cons]
        simp [hv]
      rw [hfilt] at hlen
      cases vis with
      | nil => simp at hlen
      | cons v vrest =>
        have hm : mergeVisible (info :: rest) (v :: vrest) =
            v :: mergeVisible rest vrest := by
          simp only [mergeVisible, if_neg hh]
        have hvv : v.is_hidden = false := hvis v (List.mem_cons_self v vrest)
        have hm2 : (v :: mergeVisible rest vrest).filter (fun i => ¬ i.is_hidden) =
            v :: (mergeVisible rest vrest).filter (fun i => ¬ i.is_hidden) := by
          rw [List.filter_cons]
          simp [hvv]
        rw [hm, hm2, ih vrest (fun x hx => hvis x (List.mem_cons_of_mem v hx))
          (by simp only [List.length_cons] at hlen; omega)]

theorem smartPadContent_ok (cw : Char → Nat) (hcw : ∀ c, cw c = 1) (t : Table)
    (content : List (List (List Str))) (all_infos : List ColumnDisplayInfo)
    (hinfos : ∀ i ∈ all_infos, infoOk i)
    (hrows : ∀ rl ∈ content, (∀ sub ∈ rl,
        List.Forall₂ (partOk cw) sub (all_infos.filter (fun i => ¬ i.is_hidden))) ∧
      ((all_infos.filter (fun i => ¬ i.is_hidden)).length = 0 → rl = [])) :
    ∀ rl ∈ (smartPadContent t content all_infos).1,
      (∀ sub ∈ rl, List.Forall₂ (partOk cw) sub
        (((smartPadContent t content all_infos).2).filter (fun i => ¬ i.is_hidden))) ∧
      ((((smartPadContent t content all_infos).2).filter
        (fun i => ¬ i.is_hidden)).length = 0 → rl = []) := by
  have hvis0 : ∀ i ∈ all_infos.filter (fun i => ¬ i.is_hidden), i.is_hidden = false := by
    intro i hi
    have h2 := List.of_mem_filter hi
    simpa using h2
  have hok0 : ∀ i ∈ all_infos.filter (fun i => ¬ i.is_hidden), infoOk i :=
    fun i hi => hinfos i (List.mem_of_mem_filter hi)
  have key : ∀ st : SmartPadState,
      ucpOk cw (all_infos.filter (fun i => ¬ i.is_hidden)).length st.content st.infos →
      ∀ rl ∈ st.content,
        (∀ sub ∈ rl, List.Forall₂ (partOk cw) sub
          ((mergeVisible all_infos st.infos).filter (fun i => ¬ i.is_hidden))) ∧
        (((mergeVisible all_infos st.infos).filter
          (fun i => ¬ i.is_hidden)).length = 0 → rl = []) := by
    intro st hst rl hrl
    obtain ⟨k1, k2, k3, k4, k5⟩ := hst
    have hmf := mergeVisible_filter all_infos st.infos k1 k3
    rw [hmf]
    constructor
    · intro sub hsub
      exact k4 rl hrl sub hsub
    · intro hz
      exact k5 (by rw [← k3]; exact hz) rl hrl
  simp only [smartPadContent]
  split_ifs with h1 h2 h3 <;>
    first
    | exact hrows
    | exact key _ (foldl_pres_mem
        (fun (st : SmartPadState) =>
          ucpOk cw (all_infos.filter (fun i => ¬ i.is_hidden)).length st.content st.infos)
        (fun ci => ci ∈ List.range ((all_infos.filter (fun i => ¬ i.is_hidden)).length - 1))
        (spcStep t)
        (fun s a hs ha => spcStep_inv cw hcw t _ s a
          (by have hlt := List.mem_range.mp ha; omega) hs)
        (List.range ((all_infos.filter (fun i => ¬ i.is_hidden)).length - 1))
        (fun a ha => ha)
        (SmartPadState.mk content (all_infos.filter (fun i => ¬ i.is_hidden))
          (get_column_max_padding_widths t all_infos
            ((content.getD 0 []).getD 0 []).length)
          (smartAvailableWidth t (all_infos.filter (fun i => ¬ i.is_hidden))) false)
        ⟨hvis0, hok0, rfl, fun rl hrl => (hrows rl hrl).1,
          fun hn rl hrl => (hrows rl hrl).2 hn⟩)

/-- C1 (amended): the claim as stated is refuted by C1_counterexample;
what the code guarantees, for Disabled mode and for Dynamic or
DynamicFullWidth with a known table width alike (the arrangement engine
below is the full dynamic.rs embedding, to which Disabled and the
unknown-width fallback are special cases handled inside arrangeContent),
is that all rendered lines have the same display width provided the
style draws some vertical component, no cell spans rows or columns, no
row caps its height, and every character is one display column wide.
Each of those four hypotheses is necessary: dropping any one of them is
refuted by the corresponding conjunct of C1_counterexample.  Hidden
columns, the smart padding pass and all constraint kinds are covered. -/
theorem C1_amended_uniform_line_width (cw : Char → Nat) (t : Table)
    (hcw : ∀ c, cw c = 1)
    (hvl : should_draw_vertical_lines t = true)
    (hspan : spanFree t) (hmh : noMaxHeight t) :
    ∀ l1 ∈ renderLines (dynamicArrange cw) smartPadContent cw t,
      ∀ l2 ∈ renderLines (dynamicArrange cw) smartPadContent cw t,
        measure_text_width cw l1 = measure_text_width cw l2 := by
  have hinfos := arrangeContent_infoOk cw t
  have hrows := format_content_ok cw hcw t (arrangeContent (dynamicArrange cw) t)
    hinfos hspan hmh
  intro l1 hl1 l2 hl2
  simp only [renderLines] at hl1 hl2
  by_cases hg : style_or_default t TableComponent.VerticalLines = [' '] ∧
      t.arrangement ≠ ContentArrangement.DynamicFullWidth
  · rw [if_pos hg] at hl1 hl2
    have hpad := smartPadContent_ok cw hcw t
      (format_content cw t (arrangeContent (dynamicArrange cw) t))
      (arrangeContent (dynamicArrange cw) t) hinfos hrows
    rw [draw_borders_measure cw hcw t _ hvl hspan _ hpad l1 hl1,
      draw_borders_measure cw hcw t _ hvl hspan _ hpad l2 hl2]
  · rw [if_neg hg] at hl1 hl2
    rw [draw_borders_measure cw hcw t _ hvl hspan _ hrows l1 hl1,
      draw_borders_measure cw hcw t _ hvl hspan _ hrows l2 hl2]

theorem C1_witness :
    ((∀ c, cwOne c = 1) ∧ should_draw_vertical_lines demoC1Table = true ∧
      spanFree demoC1Table ∧ noMaxHeight demoC1Table) ∧
    ∀ l1 ∈ renderLines (dynamicArrange cwOne) smartPadContent cwOne demoC1Table,
      ∀ l2 ∈ renderLines (dynamicArrange cwOne) smartPadContent cwOne demoC1Table,
        measure_text_width cwOne l1 = measure_text_width cwOne l2 :=
  ⟨⟨fun _ => rfl, by decide, by unfold spanFree; decide, by unfold noMaxHeight; decide⟩,
    C1_amended_uniform_line_width cwOne demoC1Table (fun _ => rfl) (by decide)
      (by unfold spanFree; decide) (by unfold noMaxHeight; decide)⟩

end ComfyTable
